import Mathlib

/-! # WILC SDIO host interface: register and block transport, bring-up, interrupts

Shallow embedding of `wilc_sdio.c`.  Machine integers are naturals reduced
modulo `2^32` where the C code can wrap, C `int` values are `Int`.  The state
of the SDIO stack and of the card behind it is abstract (`Host`); every call of
`wilc_sdio_cmd52` / `wilc_sdio_cmd53` is recorded, in order, in `World.log`.
The interrupt functions run sequentially over `Kernel`, which adds the host
claim, the wait queue and the record of the kernel calls to the world; `Race`
interleaves the interrupt callback and the disable statement by statement.
-/

namespace WilcSdio

/-! ## Machine arithmetic -/

/-- Conversion of a 32-bit unsigned value to a C `int` (two's complement). -/
def to_int32 (x : Nat) : Int :=
  if x % 2 ^ 32 < 2 ^ 31 then ((x % 2 ^ 32 : Nat) : Int) else ((x % 2 ^ 32 : Nat) : Int) - 2 ^ 32

/-- Conversion of a C `int` to a 32-bit unsigned value. -/
def to_u32 (i : Int) : Nat :=
  (i % 2 ^ 32).toNat

/-- Byte swap of a 32-bit value. -/
def bswap32 (x : Nat) : Nat :=
  (x % 256) * 2 ^ 24 + (x / 2 ^ 8 % 256) * 2 ^ 16 + (x / 2 ^ 16 % 256) * 2 ^ 8 + (x / 2 ^ 24 % 256)

/-- The kernel's `cpu_to_le32`: identity on a little-endian host, byte swap on a
big-endian host. -/
def cpu_to_le32 (big_endian : Bool) (x : Nat) : Nat :=
  if big_endian then bswap32 x else x

/-- Object representation of a `u32` in host memory: byte `i` of `(u8 *)&x`. -/
def u32_bytes (big_endian : Bool) (x : Nat) : Nat → Nat :=
  fun i =>
    if i < 4 then
      if big_endian then x / 2 ^ (8 * (3 - i)) % 256 else x / 2 ^ (8 * i) % 256
    else 0

/-- The `u32` whose object representation is the first four bytes of `m`. -/
def bytes_u32 (big_endian : Bool) (m : Nat → Nat) : Nat :=
  if big_endian then
    (m 0 % 256) * 2 ^ 24 + (m 1 % 256) * 2 ^ 16 + (m 2 % 256) * 2 ^ 8 + (m 3 % 256)
  else
    (m 0 % 256) + (m 1 % 256) * 2 ^ 8 + (m 2 % 256) * 2 ^ 16 + (m 3 % 256) * 2 ^ 24

/-! ## Data model -/

/-- Modelled from the spec: `struct sdio_cmd52` (declared in `wilc_wlan.h`, not
under src/), the single-register command: direction, function index, raw flag,
target address, one data byte. -/
structure sdio_cmd52 where
  read_write : Nat
  function : Nat
  raw : Nat
  address : Nat
  data : Nat
deriving DecidableEq, Repr

/-- Modelled from the spec: `struct sdio_cmd53` (declared in `wilc_wlan.h`, not
under src/), the block command: direction, function index, target address,
block-mode flag, auto-increment flag, transfer count, block size.  The buffer
the command borrows is passed next to it. -/
structure sdio_cmd53 where
  read_write : Nat
  function : Nat
  address : Nat
  block_mode : Nat
  increment : Nat
  count : Nat
  block_size : Nat
deriving DecidableEq, Repr

/-- One call of `wilc_sdio_cmd52` or `wilc_sdio_cmd53`: the command as issued, the
return code, and for a single-register access the data byte left in the
command. -/
inductive Txn where
  | cmd52 (cmd : sdio_cmd52) (ret : Int) (data : Nat)
  | cmd53 (cmd : sdio_cmd53) (ret : Int)
deriving DecidableEq, Repr

/-- Return code of a recorded transaction. -/
def Txn.ret : Txn → Int
  | .cmd52 _ r _ => r
  | .cmd53 _ r => r

/-- The kernel SDIO primitives the driver calls, over an abstract state `σ` of
the SDIO stack and the card.  Each returns the new state and the error code
(0 on success); reads also return what was read.  The function index and the
current block size are the fields the driver stores in `func` before the call. -/
structure Host (σ : Type) where
  big_endian : Bool
  sdio_writeb : σ → (fn : Nat) → (b : Nat) → (addr : Nat) → σ × Int
  sdio_readb : σ → (fn : Nat) → (addr : Nat) → σ × Nat × Int
  sdio_memcpy_toio : σ → (fn : Nat) → (cur_blksize : Nat) → (addr : Nat) →
    (src : Nat → Nat) → (size : Int) → σ × Int
  sdio_memcpy_fromio : σ → (fn : Nat) → (cur_blksize : Nat) → (addr : Nat) →
    (dst : Nat → Nat) → (size : Int) → σ × (Nat → Nat) × Int

/-- The `enum sdio_host_lock`. -/
inductive sdio_host_lock where
  | WILC_SDIO_HOST_NO_TAKEN
  | WILC_SDIO_HOST_IRQ_TAKEN
  | WILC_SDIO_HOST_DIS_TAKEN
deriving DecidableEq, Repr

/-- The chip variant stored in `wilc->chip`; `unset` is the value before any
bring-up has identified the chip. -/
inductive chip_t where
  | unset
  | WILC_1000
  | WILC_3000
deriving DecidableEq, Repr

/-- The `struct wilc_sdio` (the global `g_sdio`). -/
structure wilc_sdio where
  irq_gpio : Bool
  block_size : Nat
  nint : Int
  is_init : Bool
deriving DecidableEq, Repr

/-- Everything the driver functions read or write: the SDIO stack and card, the
global `g_sdio`, `wilc->chip`, whether `wilc->io_type` is `HIF_SDIO_GPIO_IRQ`,
the global `sdio_intr_lock`, and the record of the bus commands issued so far
(oldest first). -/
structure World (σ : Type) where
  card : σ
  g_sdio : wilc_sdio
  chip : chip_t
  io_type_gpio_irq : Bool
  sdio_intr_lock : sdio_host_lock
  log : List Txn

/-! ## Command codec -/

/-- The `wilc_sdio_cmd52`: one single-register access.  Returns the error code,
the command (whose `data` holds the byte read, for a read or a
read-after-write) and the new world. -/
def wilc_sdio_cmd52 {σ : Type} (h : Host σ) (w : World σ) (cmd : sdio_cmd52) :
    Int × sdio_cmd52 × World σ :=
  if cmd.read_write ≠ 0 then
    if cmd.raw ≠ 0 then
      let r1 := h.sdio_writeb w.card cmd.function (cmd.data % 256) cmd.address
      let r2 := h.sdio_readb r1.1 cmd.function cmd.address
      let cmd1 := { cmd with data := r2.2.1 % 256 }
      (r2.2.2, cmd1, { w with card := r2.1, log := w.log ++ [Txn.cmd52 cmd r2.2.2 cmd1.data] })
    else
      let r1 := h.sdio_writeb w.card cmd.function (cmd.data % 256) cmd.address
      (r1.2, cmd, { w with card := r1.1, log := w.log ++ [Txn.cmd52 cmd r1.2 cmd.data] })
  else
    let r2 := h.sdio_readb w.card cmd.function cmd.address
    let cmd1 := { cmd with data := r2.2.1 % 256 }
    (r2.2.2, cmd1, { w with card := r2.1, log := w.log ++ [Txn.cmd52 cmd r2.2.2 cmd1.data] })

/-- The `wilc_sdio_cmd53`: one block access of `count * block_size` bytes in
block mode and of `count` bytes otherwise.  `buffer` is the memory at
`cmd->buffer`; the result carries that memory after the call. -/
def wilc_sdio_cmd53 {σ : Type} (h : Host σ) (w : World σ) (cmd : sdio_cmd53)
    (buffer : Nat → Nat) : Int × (Nat → Nat) × World σ :=
  let size : Int :=
    if cmd.block_mode ≠ 0 then to_int32 (cmd.count * cmd.block_size) else to_int32 cmd.count
  if cmd.read_write ≠ 0 then
    let r := h.sdio_memcpy_toio w.card cmd.function cmd.block_size cmd.address buffer size
    (r.2, buffer, { w with card := r.1, log := w.log ++ [Txn.cmd53 cmd r.2] })
  else
    let r := h.sdio_memcpy_fromio w.card cmd.function cmd.block_size cmd.address buffer size
    (r.2.2, r.2.1, { w with card := r.1, log := w.log ++ [Txn.cmd53 cmd r.2.2] })

/-! ## Address-window manager -/

/-- The `sdio_set_func0_csa_address`: programs the three window-base bytes. -/
def sdio_set_func0_csa_address {σ : Type} (h : Host σ) (w : World σ) (adr : Nat) :
    Int × World σ :=
  let cmd : sdio_cmd52 :=
    { read_write := 1, function := 0, raw := 0, address := 0x10c, data := adr % 256 }
  let r1 := wilc_sdio_cmd52 h w cmd
  if r1.1 ≠ 0 then (0, r1.2.2) else
  let cmd : sdio_cmd52 := { r1.2.1 with address := 0x10d, data := adr / 2 ^ 8 % 256 }
  let r2 := wilc_sdio_cmd52 h r1.2.2 cmd
  if r2.1 ≠ 0 then (0, r2.2.2) else
  let cmd : sdio_cmd52 := { r2.2.1 with address := 0x10e, data := adr / 2 ^ 16 % 256 }
  let r3 := wilc_sdio_cmd52 h r2.2.2 cmd
  if r3.1 ≠ 0 then (0, r3.2.2) else
  (1, r3.2.2)

/-! ## Register transport -/

/-- The `sdio_write_reg`. -/
def sdio_write_reg {σ : Type} (h : Host σ) (w : World σ) (addr data : Nat) : Int × World σ :=
  let data := cpu_to_le32 h.big_endian data
  if 0xf0 ≤ addr ∧ addr ≤ 0xff then
    let cmd : sdio_cmd52 :=
      { read_write := 1, function := 0, raw := 0, address := addr, data := data % 256 }
    let r := wilc_sdio_cmd52 h w cmd
    if r.1 ≠ 0 then (0, r.2.2) else (1, r.2.2)
  else
    let r0 := sdio_set_func0_csa_address h w addr
    if r0.1 = 0 then (0, r0.2) else
    let cmd : sdio_cmd53 :=
      { read_write := 1, function := 0, address := 0x10f, block_mode := 0, increment := 1,
        count := 4, block_size := r0.2.g_sdio.block_size }
    let r := wilc_sdio_cmd53 h r0.2 cmd (u32_bytes h.big_endian data)
    if r.1 ≠ 0 then (0, r.2.2) else (1, r.2.2)

/-- The `sdio_read_reg`.  `data0` is the content of `*data` on entry; the result
carries `*data` on return.  The source leaves `cmd.data` of the single-register
read unset before the call; the command is recorded with `data := 0`. -/
def sdio_read_reg {σ : Type} (h : Host σ) (w : World σ) (addr data0 : Nat) :
    Int × Nat × World σ :=
  if 0xf0 ≤ addr ∧ addr ≤ 0xff then
    let cmd : sdio_cmd52 :=
      { read_write := 0, function := 0, raw := 0, address := addr, data := 0 }
    let r := wilc_sdio_cmd52 h w cmd
    if r.1 ≠ 0 then (0, data0, r.2.2) else
    (1, cpu_to_le32 h.big_endian r.2.1.data, r.2.2)
  else
    let r0 := sdio_set_func0_csa_address h w addr
    if r0.1 = 0 then (0, data0, r0.2) else
    let cmd : sdio_cmd53 :=
      { read_write := 0, function := 0, address := 0x10f, block_mode := 0, increment := 1,
        count := 4, block_size := r0.2.g_sdio.block_size }
    let r := wilc_sdio_cmd53 h r0.2 cmd (u32_bytes h.big_endian data0)
    if r.1 ≠ 0 then (0, bytes_u32 h.big_endian r.2.1, r.2.2) else
    (1, cpu_to_le32 h.big_endian (bytes_u32 h.big_endian r.2.1), r.2.2)

/-! ## Block transport -/

/-- The word-alignment step of `sdio_read` / `sdio_write`:
`if (size & 0x3) { size += 4; size &= ~0x3; }` on a `u32`. -/
def align_size (size : Nat) : Nat :=
  if size &&& 0x3 ≠ 0 then ((size + 4) % 2 ^ 32) &&& 0xFFFFFFFC else size

/-- The `sdio_write`.  `buf` is the memory at the pointer `buf`.  The result is
`none` when the division by `g_sdio.block_size` is a division by zero. -/
def sdio_write {σ : Type} (h : Host σ) (w : World σ) (addr : Nat) (buf : Nat → Nat)
    (size : Nat) : Option (Int × World σ) :=
  let block_size := w.g_sdio.block_size
  let size := align_size size
  let cmd : sdio_cmd53 :=
    if addr > 0 then
      { read_write := 1, function := 0, address := 0x10f, block_mode := 0, increment := 0,
        count := 0, block_size := 0 }
    else
      { read_write := 1, function := 1, address := 0, block_mode := 0, increment := 0,
        count := 0, block_size := 0 }
  if block_size = 0 then none else
  let nblk : Int := to_int32 (size / block_size)
  let nleft : Int := to_int32 (size % block_size)
  let bytes_part : sdio_cmd53 → Nat → Nat → World σ → Int × World σ := fun cmd addr off w =>
    if nleft > 0 then
      let cmd := { cmd with block_mode := 0, increment := 1, count := to_u32 nleft,
                            block_size := block_size }
      let r0 := if addr > 0 then sdio_set_func0_csa_address h w addr else (1, w)
      if r0.1 = 0 then (0, r0.2) else
      let r := wilc_sdio_cmd53 h r0.2 cmd (fun i => buf (off + i))
      if r.1 ≠ 0 then (0, r.2.2) else (1, r.2.2)
    else (1, w)
  if nblk > 0 then
    let cmd := { cmd with block_mode := 1, increment := 1, count := to_u32 nblk,
                          block_size := block_size }
    let r0 := if addr > 0 then sdio_set_func0_csa_address h w addr else (1, w)
    if r0.1 = 0 then some (0, r0.2) else
    let r := wilc_sdio_cmd53 h r0.2 cmd buf
    if r.1 ≠ 0 then some (0, r.2.2) else
    let addr := if addr > 0 then (addr + to_u32 nblk * block_size) % 2 ^ 32 else addr
    some (bytes_part cmd addr ((to_u32 nblk * block_size) % 2 ^ 32) r.2.2)
  else
    some (bytes_part cmd addr 0 w)

/-- The `sdio_read`.  `buf` is the memory at the pointer `buf`; the result carries
that memory after the call.  The result is `none` when the division by
`g_sdio.block_size` is a division by zero. -/
def sdio_read {σ : Type} (h : Host σ) (w : World σ) (addr : Nat) (buf : Nat → Nat)
    (size : Nat) : Option (Int × (Nat → Nat) × World σ) :=
  let block_size := w.g_sdio.block_size
  let size := align_size size
  let cmd : sdio_cmd53 :=
    if addr > 0 then
      { read_write := 0, function := 0, address := 0x10f, block_mode := 0, increment := 0,
        count := 0, block_size := 0 }
    else
      { read_write := 0, function := 1, address := 0, block_mode := 0, increment := 0,
        count := 0, block_size := 0 }
  if block_size = 0 then none else
  let nblk : Int := to_int32 (size / block_size)
  let nleft : Int := to_int32 (size % block_size)
  let bytes_part : sdio_cmd53 → Nat → Nat → (Nat → Nat) → World σ →
      Int × (Nat → Nat) × World σ := fun cmd addr off buf w =>
    if nleft > 0 then
      let cmd := { cmd with block_mode := 0, increment := 1, count := to_u32 nleft,
                            block_size := block_size }
      let r0 := if addr > 0 then sdio_set_func0_csa_address h w addr else (1, w)
      if r0.1 = 0 then (0, buf, r0.2) else
      let r := wilc_sdio_cmd53 h r0.2 cmd (fun i => buf (off + i))
      let buf := fun j => if j < off then buf j else r.2.1 (j - off)
      if r.1 ≠ 0 then (0, buf, r.2.2) else (1, buf, r.2.2)
    else (1, buf, w)
  if nblk > 0 then
    let cmd := { cmd with block_mode := 1, increment := 1, count := to_u32 nblk,
                          block_size := block_size }
    let r0 := if addr > 0 then sdio_set_func0_csa_address h w addr else (1, w)
    if r0.1 = 0 then some (0, buf, r0.2) else
    let r := wilc_sdio_cmd53 h r0.2 cmd buf
    if r.1 ≠ 0 then some (0, r.2.1, r.2.2) else
    let addr := if addr > 0 then (addr + to_u32 nblk * block_size) % 2 ^ 32 else addr
    some (bytes_part cmd addr ((to_u32 nblk * block_size) % 2 ^ 32) r.2.1 r.2.2)
  else
    some (bytes_part cmd addr 0 buf w)

/-! ## Bus bring-up -/

/-- The `WILC_SDIO_BLOCK_SIZE`. -/
def WILC_SDIO_BLOCK_SIZE : Nat := 512

/-- The `sdio_set_func0_block_size`. -/
def sdio_set_func0_block_size {σ : Type} (h : Host σ) (w : World σ) (block_size : Nat) :
    Int × World σ :=
  let cmd : sdio_cmd52 :=
    { read_write := 1, function := 0, raw := 0, address := 0x10, data := block_size % 256 }
  let r1 := wilc_sdio_cmd52 h w cmd
  if r1.1 ≠ 0 then (0, r1.2.2) else
  let cmd : sdio_cmd52 := { r1.2.1 with address := 0x11, data := block_size / 2 ^ 8 % 256 }
  let r2 := wilc_sdio_cmd52 h r1.2.2 cmd
  if r2.1 ≠ 0 then (0, r2.2.2) else
  (1, r2.2.2)

/-- The `sdio_set_func1_block_size`. -/
def sdio_set_func1_block_size {σ : Type} (h : Host σ) (w : World σ) (block_size : Nat) :
    Int × World σ :=
  let cmd : sdio_cmd52 :=
    { read_write := 1, function := 0, raw := 0, address := 0x110, data := block_size % 256 }
  let r1 := wilc_sdio_cmd52 h w cmd
  if r1.1 ≠ 0 then (0, r1.2.2) else
  let cmd : sdio_cmd52 := { r1.2.1 with address := 0x111, data := block_size / 2 ^ 8 % 256 }
  let r2 := wilc_sdio_cmd52 h r1.2.2 cmd
  if r2.1 ≠ 0 then (0, r2.2.2) else
  (1, r2.2.2)

/-- The `sdio_deinit`. -/
def sdio_deinit {σ : Type} (w : World σ) : Int × World σ :=
  (1, { w with g_sdio := { w.g_sdio with is_init := false } })

/-- Modelled from the spec: chip identification.  `wilc_get_chipid` (in
`wilc_wlan.c`) and the macros `ISWILC3000` / `ISWILC1000` (in `wilc_wlan.h`) are
not under src/: identity verification reads a chip-id register and matches it
against two known families.  They are parameters of the bring-up.
`wilc_get_chipid` sees the world, and yields the chip id, the new state of the
card and the bus commands it issued; it has no access to the file-local
`g_sdio`. -/
structure ChipIdent (σ : Type) where
  wilc_get_chipid : Host σ → World σ → Nat × σ × List Txn
  ISWILC3000 : Nat → Bool
  ISWILC1000 : Nat → Bool

/-- The readiness poll of `sdio_init`, the loop
`do { cmd.data = 0; ret = cmd52; if (ret) goto fail; if (cmd.data == 0x2) break; } while (loop--);`
entered with `loop = n`.  Returns the error code of the last access, the value
of `loop` on leaving the loop, and the world. -/
def sdio_init_poll {σ : Type} (h : Host σ) : Nat → World σ → Int × Int × World σ
  | n, w =>
    let cmd : sdio_cmd52 :=
      { read_write := 0, function := 0, raw := 0, address := 0x3, data := 0 }
    let r := wilc_sdio_cmd52 h w cmd
    if r.1 ≠ 0 then (r.1, (n : Int), r.2.2) else
    if r.2.1.data = 0x2 then (0, (n : Int), r.2.2) else
    match n with
    | 0 => (0, -1, r.2.2)
    | k + 1 => sdio_init_poll h k r.2.2

/-- The `sdio_init`. -/
def sdio_init {σ : Type} (h : Host σ) (ci : ChipIdent σ) (w : World σ) (resume : Bool) :
    Int × World σ :=
  let w := { w with g_sdio := { w.g_sdio with irq_gpio := w.io_type_gpio_irq } }
  let r := wilc_sdio_cmd52 h w
    { read_write := 1, function := 0, raw := 1, address := 0x100, data := 0x80 }
  if r.1 ≠ 0 then (0, r.2.2) else
  let r := sdio_set_func0_block_size h r.2.2 WILC_SDIO_BLOCK_SIZE
  if r.1 = 0 then (0, r.2) else
  let w := { r.2 with g_sdio := { r.2.g_sdio with block_size := WILC_SDIO_BLOCK_SIZE } }
  let r := wilc_sdio_cmd52 h w
    { read_write := 1, function := 0, raw := 1, address := 0x2, data := 0x2 }
  if r.1 ≠ 0 then (0, r.2.2) else
  let p := sdio_init_poll h 3 r.2.2
  if p.1 ≠ 0 then (0, p.2.2) else
  if p.2.1 ≤ 0 then (0, p.2.2) else
  let r := sdio_set_func1_block_size h p.2.2 WILC_SDIO_BLOCK_SIZE
  if r.1 = 0 then (0, r.2) else
  let r := wilc_sdio_cmd52 h r.2
    { read_write := 1, function := 0, raw := 1, address := 0x4, data := 0x3 }
  if r.1 ≠ 0 then (0, r.2.2) else
  if resume = false then
    let c := ci.wilc_get_chipid h r.2.2
    let wc := { r.2.2 with card := c.2.1, log := r.2.2.log ++ c.2.2 }
    if ci.ISWILC3000 c.1 then
      let w := { wc with chip := chip_t.WILC_3000 }
      (1, { w with g_sdio := { w.g_sdio with is_init := true } })
    else if ci.ISWILC1000 c.1 then
      let w := { wc with chip := chip_t.WILC_1000 }
      (1, { w with g_sdio := { w.g_sdio with is_init := true } })
    else (0, wc)
  else
    (1, { r.2.2 with g_sdio := { r.2.2.g_sdio with is_init := true } })

/-! ## A storing chip -/

/-- State of a chip that stores what is written: the byte registers of each
function, and the memory behind the function-0 block-access port. -/
structure Chip where
  regs : Nat → Nat → Nat
  mem : Nat → Nat

/-- The window base programmed in the function-0 registers `0x10c`-`0x10e`. -/
def Chip.window (c : Chip) : Nat :=
  c.regs 0 0x10c % 256 + (c.regs 0 0x10d % 256) * 2 ^ 8 + (c.regs 0 0x10e % 256) * 2 ^ 16

/-- A host whose every transaction succeeds, over a chip that stores what is
written: single-register accesses go to byte registers, block accesses at
function-0 port `0x10f` go to the memory at the programmed window, and block
accesses elsewhere go to the memory at the given address. -/
def storing_host (big_endian : Bool) : Host Chip where
  big_endian := big_endian
  sdio_writeb := fun c fn b addr =>
    ({ c with regs := fun f a => if f = fn ∧ a = addr then b % 256 else c.regs f a }, 0)
  sdio_readb := fun c fn addr => (c, c.regs fn addr, 0)
  sdio_memcpy_toio := fun c fn _ addr src size =>
    let base := if fn = 0 ∧ addr = 0x10f then c.window else addr
    ({ c with mem := fun a =>
        if base ≤ a ∧ ((a - base : Nat) : Int) < size then src (a - base) % 256 else c.mem a }, 0)
  sdio_memcpy_fromio := fun c fn _ addr dst size =>
    let base := if fn = 0 ∧ addr = 0x10f then c.window else addr
    (c, fun i => if (i : Int) < size then c.mem (base + i) else dst i, 0)

/-- A chip with every register and memory byte zero. -/
def Chip.zero : Chip :=
  { regs := fun _ _ => 0, mem := fun _ => 0 }

/-- A world before bring-up over the given card state. -/
def World.fresh {σ : Type} (card : σ) : World σ :=
  { card := card,
    g_sdio := { irq_gpio := false, block_size := 0, nint := 0, is_init := false },
    chip := chip_t.unset,
    io_type_gpio_irq := false,
    sdio_intr_lock := sdio_host_lock.WILC_SDIO_HOST_NO_TAKEN,
    log := [] }

/-- A world after bring-up has latched the block size 512. -/
def World.ready {σ : Type} (card : σ) : World σ :=
  { World.fresh card with
    g_sdio := { irq_gpio := false, block_size := 512, nint := 0, is_init := true } }

/-! ## Observations on the record of bus commands -/

/-- The command of a recorded transaction. -/
inductive Cmd where
  | c52 (c : sdio_cmd52)
  | c53 (c : sdio_cmd53)
deriving DecidableEq, Repr

/-- The command issued by a recorded transaction. -/
def Txn.cmd : Txn → Cmd
  | .cmd52 c _ _ => Cmd.c52 c
  | .cmd53 c _ => Cmd.c53 c

/-- The data byte a single-register transaction left in its command. -/
def Txn.data : Txn → Nat
  | .cmd52 _ _ d => d
  | .cmd53 _ _ => 0

/-- A single-register write to one of the window-base registers `0x10c`-`0x10e`. -/
def Txn.is_window_write : Txn → Bool
  | .cmd52 c _ _ =>
    c.read_write != 0 && c.function == 0 && (decide (0x10c ≤ c.address) && decide (c.address ≤ 0x10e))
  | .cmd53 _ _ => false

/-- A readiness poll: a single-register read of function-0 register `0x3`. -/
def Txn.is_ior_poll : Txn → Bool
  | .cmd52 c _ _ => c.read_write == 0 && c.function == 0 && c.address == 0x3
  | .cmd53 _ _ => false

/-- The transactions recorded between the world `w` and the later world `w1`. -/
def issued {σ : Type} (w w1 : World σ) : List Txn :=
  w1.log.drop w.log.length

/-- The three single-register writes that program the window base with `adr`:
bits 7..0 to `0x10c`, bits 15..8 to `0x10d`, bits 23..16 to `0x10e`. -/
def window_cmds (adr : Nat) : List Cmd :=
  [Cmd.c52 { read_write := 1, function := 0, raw := 0, address := 0x10c, data := adr % 256 },
   Cmd.c52 { read_write := 1, function := 0, raw := 0, address := 0x10d, data := adr / 2 ^ 8 % 256 },
   Cmd.c52 { read_write := 1, function := 0, raw := 0, address := 0x10e, data := adr / 2 ^ 16 % 256 }]

/-- The record `evs` is a run of the command list `plan` that stops at the first
failing transaction: the commands are issued in the order of the plan, every
transaction but the last succeeded, and the result `r` is 1 when the whole plan
was issued without failure and 0 when the last transaction failed. -/
def runs : List Cmd → Int → List Txn → Bool
  | [], r, [] => r == 1
  | c :: plan, r, e :: evs =>
    e.cmd == c && (if e.ret = 0 then runs plan r evs else evs.isEmpty && r == 0)
  | _, _, _ => false

/-- The commands `sdio_read` (`rw = 0`) and `sdio_write` (`rw = 1`) set out to
issue for address `addr`, block size `S` and requested size `N`: a block-mode
chunk when the block count is positive, then a byte-mode chunk when the
remainder is positive, each preceded by the window programming when its address
is non-zero. -/
def chunk_plan (rw addr S N : Nat) : List Cmd :=
  let size := align_size N
  let nblk := to_int32 (size / S)
  let nleft := to_int32 (size % S)
  let fn := if addr > 0 then 0 else 1
  let port := if addr > 0 then 0x10f else 0
  let addr2 := if nblk > 0 ∧ addr > 0 then (addr + to_u32 nblk * S) % 2 ^ 32 else addr
  (if nblk > 0 then
    (if addr > 0 then window_cmds addr else []) ++
      [Cmd.c53 { read_write := rw, function := fn, address := port, block_mode := 1,
                 increment := 1, count := to_u32 nblk, block_size := S }]
   else []) ++
  (if nleft > 0 then
    (if addr2 > 0 then window_cmds addr2 else []) ++
      [Cmd.c53 { read_write := rw, function := fn, address := port, block_mode := 0,
                 increment := 1, count := to_u32 nleft, block_size := S }]
   else [])

/-- The size `N` rounded up to a multiple of 4, over the naturals. -/
def round_up4 (N : Nat) : Nat :=
  (N + 3) / 4 * 4

/-- The block (cmd53) commands of a command list, in order. -/
def cmd53_of : List Cmd → List sdio_cmd53
  | [] => []
  | Cmd.c53 c :: cs => c :: cmd53_of cs
  | Cmd.c52 _ :: cs => cmd53_of cs

/-- A host over a countdown: the first `n` primitive calls succeed and every later
one fails with `-EIO`; reads deliver zeros. -/
def failing_host : Host Nat where
  big_endian := false
  sdio_writeb := fun n _ _ _ => if n = 0 then (0, -5) else (n - 1, 0)
  sdio_readb := fun n _ _ => if n = 0 then (0, 0xff, -5) else (n - 1, 0, 0)
  sdio_memcpy_toio := fun n _ _ _ _ _ => if n = 0 then (0, -5) else (n - 1, 0)
  sdio_memcpy_fromio := fun n _ _ _ dst _ =>
    if n = 0 then (0, dst, -5) else (n - 1, fun _ => 0, 0)

/-- A chip identification that issues no bus command: `wilc_get_chipid` yields the
fixed `id`, and the two family tests are the given constants. -/
def ChipIdent.const {σ : Type} (id : Nat) (is3000 is1000 : Bool) : ChipIdent σ where
  wilc_get_chipid := fun _ w => (id, w.card, [])
  ISWILC3000 := fun _ => is3000
  ISWILC1000 := fun _ => is1000

/-! ## Interrupt status and acknowledgement -/

/-- Modelled from the spec: the constants of `wilc_wlan.h` (not under src/) that
the interrupt functions use.  They are parameters: `MAX_NUM_INT` is the number
of pending-line bits at the bottom of a clear mask, `SEL_VMM_TBL0`,
`SEL_VMM_TBL1` and `EN_VMM` are the masks of the table-selection bits of a clear
mask, `IRG_FLAGS_OFFSET` is the position of interrupt line 0 in the interrupt
bitmap, and `INT i` is the macro `INT_i`, the mask of interrupt line `i` in the
bitmap. -/
structure Consts where
  MAX_NUM_INT : Nat
  SEL_VMM_TBL0 : Nat
  SEL_VMM_TBL1 : Nat
  EN_VMM : Nat
  IRG_FLAGS_OFFSET : Nat
  INT : Nat → Nat

/-- The kernel macro `BIT(n)`. -/
def BIT (n : Nat) : Nat := 2 ^ n

/-- The `sdio_read_size`: reads the two size bytes at function-0 registers `0xf2`
and `0xf3`.  The return codes of the two accesses are not looked at.  Returns
the result code, the value stored through `size`, and the world. -/
def sdio_read_size {σ : Type} (h : Host σ) (w : World σ) : Int × Nat × World σ :=
  let cmd : sdio_cmd52 :=
    { read_write := 0, function := 0, raw := 0, address := 0xf2, data := 0 }
  let r1 := wilc_sdio_cmd52 h w cmd
  let tmp := r1.2.1.data
  let cmd : sdio_cmd52 := { r1.2.1 with address := 0xf3, data := 0 }
  let r2 := wilc_sdio_cmd52 h r1.2.2 cmd
  let tmp := tmp ||| (r2.2.1.data <<< 8)
  (1, tmp, r2.2.2)

/-- The `sdio_read_int`.  Returns the result code, the value stored through
`int_status`, and the world.  The closing loop over the lines from `g_sdio.nint`
only prints a diagnostic and is left out; in the shared-interrupt branch the
source leaves `cmd.raw` unset, which a read does not look at. -/
def sdio_read_int {σ : Type} (h : Host σ) (k : Consts) (w : World σ) : Int × Nat × World σ :=
  if w.g_sdio.irq_gpio then
    let s := sdio_read_size h w
    let tmp := s.2.1
    if w.chip = chip_t.WILC_1000 then
      let r := wilc_sdio_cmd52 h s.2.2
        { read_write := 0, function := 1, raw := 0, address := 0xf7, data := 0 }
      let irq_flags := r.2.1.data &&& 0x1f
      (1, (tmp ||| (irq_flags <<< k.IRG_FLAGS_OFFSET)) % 2 ^ 32, r.2.2)
    else
      let r := wilc_sdio_cmd52 h s.2.2
        { read_write := 0, function := 1, raw := 0, address := 0xfe, data := 0 }
      let irq_flags := r.2.1.data &&& 0x0f
      (1, (tmp ||| (irq_flags <<< k.IRG_FLAGS_OFFSET)) % 2 ^ 32, r.2.2)
  else
    let s := sdio_read_size h w
    let tmp := s.2.1
    let r := wilc_sdio_cmd52 h s.2.2
      { read_write := 0, function := 1, raw := 0, address := 0x04, data := 0 }
    let tmp := if r.2.1.data &&& BIT 0 ≠ 0 then tmp ||| k.INT 0 else tmp
    let tmp := if r.2.1.data &&& BIT 2 ≠ 0 then tmp ||| k.INT 1 else tmp
    let tmp := if r.2.1.data &&& BIT 3 ≠ 0 then tmp ||| k.INT 2 else tmp
    let tmp := if r.2.1.data &&& BIT 4 ≠ 0 then tmp ||| k.INT 3 else tmp
    let tmp := if r.2.1.data &&& BIT 5 ≠ 0 then tmp ||| k.INT 4 else tmp
    (1, tmp % 2 ^ 32, r.2.2)

/-- The three statements of `sdio_clear_int_ext` that add the table-selection
bits of the mask `val` to `reg`:
`if (val & SEL_VMM_TBL0) reg |= BIT(b0); if (val & SEL_VMM_TBL1) reg |= BIT(b1);
if (val & EN_VMM) reg |= BIT(b2);`. -/
def set_vmm_bits (k : Consts) (val b0 b1 b2 reg : Nat) : Nat :=
  let reg := if val &&& k.SEL_VMM_TBL0 ≠ 0 then reg ||| BIT b0 else reg
  let reg := if val &&& k.SEL_VMM_TBL1 ≠ 0 then reg ||| BIT b1 else reg
  let reg := if val &&& k.EN_VMM ≠ 0 then reg ||| BIT b2 else reg
  reg

/-- The `sdio_clear_int_ext`, for a 32-bit mask `val`.  The local `reg` is set
to 0 once at the top and carried through the function, as in the source. -/
def sdio_clear_int_ext {σ : Type} (h : Host σ) (k : Consts) (w : World σ) (val : Nat) :
    Int × World σ :=
  let reg : Nat := 0
  if w.chip = chip_t.WILC_1000 then
    let reg := if w.g_sdio.irq_gpio then val &&& (BIT k.MAX_NUM_INT - 1) else reg
    let reg := set_vmm_bits k val 5 6 7 reg
    if reg ≠ 0 then
      let r := wilc_sdio_cmd52 h w
        { read_write := 1, function := 0, raw := 0, address := 0xf8, data := reg % 256 }
      if r.1 ≠ 0 then (0, r.2.2) else (1, r.2.2)
    else (1, w)
  else
    let reg := if w.g_sdio.irq_gpio then val &&& (BIT k.MAX_NUM_INT - 1) else reg
    let r1 : Int × World σ :=
      if w.g_sdio.irq_gpio ∧ reg ≠ 0 then
        let r := wilc_sdio_cmd52 h w
          { read_write := 1, function := 0, raw := 0, address := 0xfe, data := reg % 256 }
        (r.1, r.2.2)
      else (0, w)
    if r1.1 ≠ 0 then (0, r1.2) else
    let reg := set_vmm_bits k val 0 1 2 reg
    if reg ≠ 0 then
      let r := wilc_sdio_cmd52 h r1.2
        { read_write := 1, function := 0, raw := 0, address := 0xf1, data := reg % 256 }
      if r.1 ≠ 0 then (0, r.2.2) else (1, r.2.2)
    else (1, r1.2)

/-- Example values for the constants: five pending-line bits, the selection bits
right above them, and line `i` of the bitmap at bit `16 + i`. -/
def Consts.sample : Consts :=
  { MAX_NUM_INT := 5, SEL_VMM_TBL0 := BIT 5, SEL_VMM_TBL1 := BIT 6, EN_VMM := BIT 7,
    IRG_FLAGS_OFFSET := 16, INT := fun i => BIT (16 + i) }

/-- A world after bring-up, for the given chip variant and interrupt mode
(`gpio` is true in dedicated-interrupt-pin mode). -/
def World.running {σ : Type} (card : σ) (chip : chip_t) (gpio : Bool) : World σ :=
  { World.fresh card with
    g_sdio := { irq_gpio := gpio, block_size := 512, nint := 0, is_init := true },
    chip := chip,
    io_type_gpio_irq := gpio }

/-- The pending lines the shared-interrupt branch of `sdio_read_int` decodes from
the byte `d` of function-1 register `0x04`: bits 0, 2, 3, 4, 5 are lines 0, 1, 2,
3, 4. -/
def shared_lines (d : Nat) : Nat :=
  (if d &&& BIT 0 ≠ 0 then BIT 0 else 0) ||| (if d &&& BIT 2 ≠ 0 then BIT 1 else 0) |||
  (if d &&& BIT 3 ≠ 0 then BIT 2 else 0) ||| (if d &&& BIT 4 ≠ 0 then BIT 3 else 0) |||
  (if d &&& BIT 5 ≠ 0 then BIT 4 else 0)

/-! ## The interrupt callback -/

/-- What the interrupt functions do besides bus accesses, as recorded in order:
an assignment to `sdio_intr_lock`, `sdio_release_host`, the call of
`wilc_handle_isr`, `sdio_claim_host`, `wake_up_interruptible` on
`sdio_intr_waitqueue`, `sdio_claim_irq` and `sdio_release_irq` with the code they
return, and a `wait_event_interruptible` on `sdio_intr_waitqueue` that returned. -/
inductive HostOp where
  | set_intr_lock (s : sdio_host_lock)
  | release_host
  | handle_isr
  | claim_host
  | wake_up
  | claim_irq (ret : Int)
  | release_irq (ret : Int)
  | wait_event
deriving DecidableEq, Repr

/-- The world together with the kernel objects the interrupt callback acts on,
run sequentially: whether the host (the bus-session lock) is claimed, the
number of wake-ups delivered to `sdio_intr_waitqueue`, the number of calls of
the upper-layer handler, and the record of the operations so far. -/
structure Kernel (σ : Type) where
  world : World σ
  host_claimed : Bool
  wakeups : Nat
  isr_calls : Nat
  ops : List HostOp

/-- Assignment to the global `sdio_intr_lock`. -/
def Kernel.set_intr_lock {σ : Type} (k : Kernel σ) (s : sdio_host_lock) : Kernel σ :=
  { k with world := { k.world with sdio_intr_lock := s },
           ops := k.ops ++ [HostOp.set_intr_lock s] }

/-- The kernel `sdio_release_host`. -/
def Kernel.sdio_release_host {σ : Type} (k : Kernel σ) : Kernel σ :=
  { k with host_claimed := false, ops := k.ops ++ [HostOp.release_host] }

/-- The kernel `sdio_claim_host`, run sequentially: the claim is granted. -/
def Kernel.sdio_claim_host {σ : Type} (k : Kernel σ) : Kernel σ :=
  { k with host_claimed := true, ops := k.ops ++ [HostOp.claim_host] }

/-- The kernel `wake_up_interruptible` on `sdio_intr_waitqueue`. -/
def Kernel.wake_up_interruptible {σ : Type} (k : Kernel σ) : Kernel σ :=
  { k with wakeups := k.wakeups + 1, ops := k.ops ++ [HostOp.wake_up] }

/-- A call of the upper-layer handler `wilc_handle_isr` (in `wilc_wlan.c`, not
under src/), a parameter acting on the world. -/
def Kernel.call_isr {σ : Type} (wilc_handle_isr : World σ → World σ) (k : Kernel σ) :
    Kernel σ :=
  { k with world := wilc_handle_isr k.world, isr_calls := k.isr_calls + 1,
           ops := k.ops ++ [HostOp.handle_isr] }

/-- The `wilc_sdio_interrupt`, the callback the SDIO stack runs on a card
interrupt, as a sequential run. -/
def wilc_sdio_interrupt {σ : Type} (wilc_handle_isr : World σ → World σ) (k : Kernel σ) :
    Kernel σ :=
  if k.world.sdio_intr_lock = sdio_host_lock.WILC_SDIO_HOST_DIS_TAKEN then k else
  let k := k.set_intr_lock sdio_host_lock.WILC_SDIO_HOST_IRQ_TAKEN
  let k := k.sdio_release_host
  let k := k.call_isr wilc_handle_isr
  let k := k.sdio_claim_host
  let k := k.set_intr_lock sdio_host_lock.WILC_SDIO_HOST_NO_TAKEN
  k.wake_up_interruptible

/-! ## The register sequence of the bring-up -/

/-- The register sequence of `sdio_init`: the part of the function from its first
statement to the IEN write, before the identity verification.  Returns 0 with
the world at the failing step, or 1 with the world after the IEN write. -/
def sdio_init_regs {σ : Type} (h : Host σ) (w : World σ) : Int × World σ :=
  let w := { w with g_sdio := { w.g_sdio with irq_gpio := w.io_type_gpio_irq } }
  let r := wilc_sdio_cmd52 h w
    { read_write := 1, function := 0, raw := 1, address := 0x100, data := 0x80 }
  if r.1 ≠ 0 then (0, r.2.2) else
  let r := sdio_set_func0_block_size h r.2.2 WILC_SDIO_BLOCK_SIZE
  if r.1 = 0 then (0, r.2) else
  let w := { r.2 with g_sdio := { r.2.g_sdio with block_size := WILC_SDIO_BLOCK_SIZE } }
  let r := wilc_sdio_cmd52 h w
    { read_write := 1, function := 0, raw := 1, address := 0x2, data := 0x2 }
  if r.1 ≠ 0 then (0, r.2.2) else
  let p := sdio_init_poll h 3 r.2.2
  if p.1 ≠ 0 then (0, p.2.2) else
  if p.2.1 ≤ 0 then (0, p.2.2) else
  let r := sdio_set_func1_block_size h p.2.2 WILC_SDIO_BLOCK_SIZE
  if r.1 = 0 then (0, r.2) else
  let r := wilc_sdio_cmd52 h r.2
    { read_write := 1, function := 0, raw := 1, address := 0x4, data := 0x3 }
  if r.1 ≠ 0 then (0, r.2.2) else
  (1, r.2.2)

/-- The identity verification of `sdio_init`: the part of the function after the
IEN write when `resume` is false, entered in the world `w`. -/
def sdio_init_ident {σ : Type} (h : Host σ) (ci : ChipIdent σ) (w : World σ) :
    Int × World σ :=
  let c := ci.wilc_get_chipid h w
  let wc := { w with card := c.2.1, log := w.log ++ c.2.2 }
  if ci.ISWILC3000 c.1 then
    let w := { wc with chip := chip_t.WILC_3000 }
    (1, { w with g_sdio := { w.g_sdio with is_init := true } })
  else if ci.ISWILC1000 c.1 then
    let w := { wc with chip := chip_t.WILC_1000 }
    (1, { w with g_sdio := { w.g_sdio with is_init := true } })
  else (0, wc)

/-- The readiness poll command of `sdio_init`: a read of function-0 register `0x3`. -/
def poll_cmd : sdio_cmd52 :=
  { read_write := 0, function := 0, raw := 0, address := 0x3, data := 0 }

/-- The commands of `sdio_init` before the readiness poll: CSA enable, the two
bytes of the function-0 block size 512, IOE. -/
def init_head : List Cmd :=
  [Cmd.c52 { read_write := 1, function := 0, raw := 1, address := 0x100, data := 0x80 },
   Cmd.c52 { read_write := 1, function := 0, raw := 0, address := 0x10, data := 0x00 },
   Cmd.c52 { read_write := 1, function := 0, raw := 0, address := 0x11, data := 0x02 },
   Cmd.c52 { read_write := 1, function := 0, raw := 1, address := 0x2, data := 0x2 }]

/-- The commands of `sdio_init` after the readiness poll: the two bytes of the
function-1 block size 512, IEN. -/
def init_tail : List Cmd :=
  [Cmd.c52 { read_write := 1, function := 0, raw := 0, address := 0x110, data := 0x00 },
   Cmd.c52 { read_write := 1, function := 0, raw := 0, address := 0x111, data := 0x02 },
   Cmd.c52 { read_write := 1, function := 0, raw := 1, address := 0x4, data := 0x3 }]

/-- The record `evs` is a run of the readiness poll loop of `sdio_init` entered
with `loop = n`, leaving it with error code `ret` and counter `loop`: every
transaction is a poll, the run stops at the first poll that fails or reads
`0x2`, and otherwise after the poll made with the counter at 0. -/
def poll_run : Nat → Int → Int → List Txn → Bool
  | _, _, _, [] => false
  | n, ret, loop, e :: es =>
    e.cmd == Cmd.c52 poll_cmd &&
    (if e.ret ≠ 0 then es.isEmpty && ret == e.ret && loop == (n : Int)
     else if e.data = 0x2 then es.isEmpty && ret == 0 && loop == (n : Int)
     else match n with
       | 0 => es.isEmpty && ret == 0 && loop == -1
       | k + 1 => poll_run k ret loop es)

/-- A host whose every transaction succeeds, over a countdown: function-0 register
`0x3` reads 0 for the first `n` reads and `0x2` from then on; every other read
delivers zeros. -/
def ready_after_host : Host Nat where
  big_endian := false
  sdio_writeb := fun n _ _ _ => (n, 0)
  sdio_readb := fun n fn addr =>
    if fn = 0 ∧ addr = 0x3 then (if n = 0 then (0, 0x2, 0) else (n - 1, 0, 0)) else (n, 0, 0)
  sdio_memcpy_toio := fun n _ _ _ _ _ => (n, 0)
  sdio_memcpy_fromio := fun n _ _ _ _ _ => (n, fun _ => 0, 0)

/-! ## Interrupt attach and detach, interrupt sources, reset -/

/-- The kernel `sdio_claim_irq`, with the code `ret` it returns. -/
def Kernel.sdio_claim_irq {σ : Type} (k : Kernel σ) (ret : Int) : Kernel σ :=
  { k with ops := k.ops ++ [HostOp.claim_irq ret] }

/-- The kernel `sdio_release_irq`, with the code `ret` it returns. -/
def Kernel.sdio_release_irq {σ : Type} (k : Kernel σ) (ret : Int) : Kernel σ :=
  { k with ops := k.ops ++ [HostOp.release_irq ret] }

/-- The kernel `wait_event_interruptible` on `sdio_intr_waitqueue`, when it returns. -/
def Kernel.wait_event_interruptible {σ : Type} (k : Kernel σ) : Kernel σ :=
  { k with ops := k.ops ++ [HostOp.wait_event] }

/-- The `wilc_sdio_enable_interrupt`, as a sequential run; `claim_ret` is the code
`sdio_claim_irq` returns.  Returns that code, or `-EIO` when it is negative. -/
def wilc_sdio_enable_interrupt {σ : Type} (claim_ret : Int) (k : Kernel σ) : Int × Kernel σ :=
  let k := k.set_intr_lock sdio_host_lock.WILC_SDIO_HOST_NO_TAKEN
  let k := k.sdio_claim_host
  let k := k.sdio_claim_irq claim_ret
  let k := k.sdio_release_host
  (if claim_ret < 0 then -5 else claim_ret, k)

/-- The `wilc_sdio_disable_interrupt`, as a sequential run; `release_ret` is the code
`sdio_release_irq` returns.  When the lock is `IRQ_TAKEN` the function waits
for `sdio_intr_lock == NO_TAKEN`: in a sequential run nobody changes the lock,
so the wait ends only when a signal interrupts it (`signalled`), and the
result is `none` when it does not end. -/
def wilc_sdio_disable_interrupt {σ : Type} (signalled : Bool) (release_ret : Int)
    (k : Kernel σ) : Option (Kernel σ) :=
  if k.world.sdio_intr_lock = sdio_host_lock.WILC_SDIO_HOST_IRQ_TAKEN ∧ signalled = false
  then none else
  let k := if k.world.sdio_intr_lock = sdio_host_lock.WILC_SDIO_HOST_IRQ_TAKEN
    then k.wait_event_interruptible else k
  let k := k.set_intr_lock sdio_host_lock.WILC_SDIO_HOST_DIS_TAKEN
  let k := k.sdio_claim_host
  let k := k.sdio_release_irq release_ret
  let k := k.sdio_release_host
  some (k.set_intr_lock sdio_host_lock.WILC_SDIO_HOST_NO_TAKEN)

/-- The `wilc_sdio_reset`. -/
def wilc_sdio_reset {σ : Type} (h : Host σ) (w : World σ) : Int × World σ :=
  let r := wilc_sdio_cmd52 h w
    { read_write := 1, function := 0, raw := 0, address := 0x6, data := 0x8 }
  (r.1, r.2.2)

/-- The `sdio_is_init`. -/
def sdio_is_init {σ : Type} (w : World σ) : Bool :=
  w.g_sdio.is_init

/-- Modelled from the spec: the register addresses of `wilc_wlan.h` (not under
src/) that `sdio_sync_ext` uses.  They are parameters. -/
structure RegAddrs where
  WILC_MISC : Nat
  WILC_PIN_MUX_0 : Nat
  WILC_INTR_ENABLE : Nat
  WILC_INTR2_ENABLE : Nat
deriving DecidableEq, Repr

/-- The loops of `sdio_sync_ext`,
`for (i = 0; (i < limit) && (nint > 0); i++, nint--) reg |= BIT(base + i);`:
`left` is `limit - i`.  Returns `reg` and `nint` on leaving the loop. -/
def sync_loop (base : Nat) : Nat → Nat → Int → Nat → Nat × Int
  | 0, _, nint, reg => (reg, nint)
  | left + 1, i, nint, reg =>
    if nint > 0 then sync_loop base left (i + 1) (nint - 1) (reg ||| BIT (base + i))
    else (reg, nint)

/-- The `sdio_sync_ext`.  The local `reg` is uninitialised before the first read
and is taken as 0 there. -/
def sdio_sync_ext {σ : Type} (h : Host σ) (k : Consts) (a : RegAddrs) (w : World σ)
    (nint : Int) : Int × World σ :=
  if nint > (k.MAX_NUM_INT : Int) then (0, w) else
  let w := { w with g_sdio := { w.g_sdio with nint := nint } }
  let reg : Nat := 0
  let s : Int × Nat × World σ :=
    if w.chip = chip_t.WILC_3000 then
      let r := sdio_read_reg h w a.WILC_MISC reg
      if r.1 = 0 then (0, r.2.1, r.2.2) else
      let reg := r.2.1 &&& 0xFFFFFEFF
      let r2 := sdio_write_reg h r.2.2 a.WILC_MISC reg
      if r2.1 = 0 then (0, reg, r2.2) else (1, reg, r2.2)
    else (1, reg, w)
  if s.1 = 0 then (0, s.2.2) else
  if s.2.2.g_sdio.irq_gpio then
    let r := sdio_read_reg h s.2.2 a.WILC_PIN_MUX_0 s.2.1
    if r.1 = 0 then (0, r.2.2) else
    let reg := r.2.1 ||| BIT 8
    let r2 := sdio_write_reg h r.2.2 a.WILC_PIN_MUX_0 reg
    if r2.1 = 0 then (0, r2.2) else
    let r := sdio_read_reg h r2.2 a.WILC_INTR_ENABLE reg
    if r.1 = 0 then (0, r.2.2) else
    let l := sync_loop 27 5 0 nint r.2.1
    let r2 := sdio_write_reg h r.2.2 a.WILC_INTR_ENABLE l.1
    if r2.1 = 0 then (0, r2.2) else
    if l.2 ≠ 0 then
      let r := sdio_read_reg h r2.2 a.WILC_INTR2_ENABLE l.1
      if r.1 = 0 then (0, r.2.2) else
      let l2 := sync_loop 0 3 0 l.2 r.2.1
      let r3 := sdio_read_reg h r.2.2 a.WILC_INTR2_ENABLE l2.1
      if r3.1 = 0 then (0, r3.2.2) else (1, r3.2.2)
    else (1, r2.2)
  else (1, s.2.2)

/-- Example values for the register addresses, all outside `[0xF0, 0xFF]`. -/
def RegAddrs.sample : RegAddrs :=
  { WILC_MISC := 0x1428, WILC_PIN_MUX_0 := 0x1408, WILC_INTR_ENABLE := 0x1a00,
    WILC_INTR2_ENABLE := 0x1a04 }

/-! ## Sequences of operations -/

/-- A call of one of the three functions that write `sdio_intr_lock`: the interrupt
callback, `wilc_sdio_enable_interrupt` with the code of `sdio_claim_irq`, and
`wilc_sdio_disable_interrupt` with whether a signal ends its wait and the code
of `sdio_release_irq`. -/
inductive IrqCall where
  | interrupt
  | enable (claim_ret : Int)
  | disable (signalled : Bool) (release_ret : Int)
deriving DecidableEq, Repr

/-- One call, run to completion; `none` when the call does not return. -/
def IrqCall.step {σ : Type} (wilc_handle_isr : World σ → World σ) :
    IrqCall → Kernel σ → Option (Kernel σ)
  | .interrupt, k => some (wilc_sdio_interrupt wilc_handle_isr k)
  | .enable claim_ret, k => some (wilc_sdio_enable_interrupt claim_ret k).2
  | .disable signalled release_ret, k => wilc_sdio_disable_interrupt signalled release_ret k

/-- A sequential run of calls, one after the other. -/
def IrqCall.run {σ : Type} (wilc_handle_isr : World σ → World σ) :
    List IrqCall → Kernel σ → Option (Kernel σ)
  | [], k => some k
  | c :: cs, k =>
    match c.step wilc_handle_isr k with
    | none => none
    | some k1 => IrqCall.run wilc_handle_isr cs k1

/-- A call of an operation of the function table `wilc_hif_sdio`, with its arguments. -/
inductive HifOp where
  | hif_init (resume : Bool)
  | hif_deinit
  | hif_read_reg (addr data0 : Nat)
  | hif_write_reg (addr data : Nat)
  | hif_block_rx (addr : Nat) (buf : Nat → Nat) (size : Nat)
  | hif_block_tx (addr : Nat) (buf : Nat → Nat) (size : Nat)
  | hif_read_int
  | hif_clear_int_ext (val : Nat)
  | hif_read_size
  | hif_sync_ext (nint : Int)
  | enable_interrupt (claim_ret : Int)
  | disable_interrupt (signalled : Bool) (release_ret : Int)
  | hif_reset
  | hif_is_init

/-- One operation of the function table, run to completion: the state after it, or
`none` when the operation does not return (a division by zero in the block
transport, a wait that does not end). -/
def HifOp.step {σ : Type} (h : Host σ) (ci : ChipIdent σ) (c : Consts) (a : RegAddrs) :
    HifOp → Kernel σ → Option (Kernel σ)
  | .hif_init resume, k => some { k with world := (sdio_init h ci k.world resume).2 }
  | .hif_deinit, k => some { k with world := (sdio_deinit k.world).2 }
  | .hif_read_reg addr data0, k =>
    some { k with world := (sdio_read_reg h k.world addr data0).2.2 }
  | .hif_write_reg addr data, k => some { k with world := (sdio_write_reg h k.world addr data).2 }
  | .hif_block_rx addr buf size, k =>
    (sdio_read h k.world addr buf size).map (fun r => { k with world := r.2.2 })
  | .hif_block_tx addr buf size, k =>
    (sdio_write h k.world addr buf size).map (fun r => { k with world := r.2 })
  | .hif_read_int, k => some { k with world := (sdio_read_int h c k.world).2.2 }
  | .hif_clear_int_ext val, k => some { k with world := (sdio_clear_int_ext h c k.world val).2 }
  | .hif_read_size, k => some { k with world := (sdio_read_size h k.world).2.2 }
  | .hif_sync_ext nint, k => some { k with world := (sdio_sync_ext h c a k.world nint).2 }
  | .enable_interrupt claim_ret, k => some (wilc_sdio_enable_interrupt claim_ret k).2
  | .disable_interrupt signalled release_ret, k =>
    wilc_sdio_disable_interrupt signalled release_ret k
  | .hif_reset, k => some { k with world := (wilc_sdio_reset h k.world).2 }
  | .hif_is_init, k => some k

/-- A sequence of operations of the function table, one after the other. -/
def HifOp.run {σ : Type} (h : Host σ) (ci : ChipIdent σ) (c : Consts) (a : RegAddrs) :
    List HifOp → Kernel σ → Option (Kernel σ)
  | [], k => some k
  | o :: os, k =>
    match o.step h ci c a k with
    | none => none
    | some k1 => HifOp.run h ci c a os k1

/-- Whether an operation is a call of `sdio_init`. -/
def HifOp.is_init : HifOp → Bool
  | .hif_init _ => true
  | _ => false

/-- A kernel state around the world `w`: host not claimed, nothing recorded. -/
def Kernel.around {σ : Type} (w : World σ) : Kernel σ :=
  { world := w, host_claimed := false, wakeups := 0, isr_calls := 0, ops := [] }

/-- A chip whose function-`fn` register `addr` holds the byte `b` and whose other
registers and memory are zero. -/
def Chip.one_reg (fn addr b : Nat) : Chip :=
  { regs := fun f a => if f = fn ∧ a = addr then b else 0, mem := fun _ => 0 }

/-- A host on which `sdio_writeb` fails with `-EIO` at the function-0 registers
`0x100`, `0x2` and `0x4` and every other primitive call succeeds; function-0
register `0x3` reads `0x2` and every other read delivers zeros. -/
def lost_write_host : Host Unit where
  big_endian := false
  sdio_writeb := fun c fn _ addr =>
    if fn = 0 ∧ (addr = 0x100 ∨ addr = 0x2 ∨ addr = 0x4) then (c, -5) else (c, 0)
  sdio_readb := fun c fn addr => if fn = 0 ∧ addr = 0x3 then (c, 0x2, 0) else (c, 0, 0)
  sdio_memcpy_toio := fun c _ _ _ _ _ => (c, 0)
  sdio_memcpy_fromio := fun c _ _ _ _ _ => (c, fun _ => 0, 0)

/-! ## The blocks of the interrupt-source setup -/

/-- The bits `base` to `base + count - 1`. -/
def line_bits (base count : Nat) : Nat :=
  (2 ^ count - 1) <<< base

/-- Where a run of `wilc_sdio_interrupt` stands: before one of its statements, in
order (the test of `DIS_TAKEN`, the assignment of `IRQ_TAKEN`,
`sdio_release_host`, the call of `wilc_handle_isr`, `sdio_claim_host`, the
assignment of `NO_TAKEN`, `wake_up_interruptible`), inside the handler, or
returned. -/
inductive CallbackPc where
  | test_dis
  | set_irq_taken
  | release_host
  | call_isr
  | in_isr
  | claim_host
  | set_no_taken
  | wake_up
  | returned
deriving DecidableEq, Repr

/-- Where a run of `wilc_sdio_disable_interrupt` stands: before one of its
statements, in order (the test of `IRQ_TAKEN`, the assignment of `DIS_TAKEN`,
`sdio_claim_host`, `sdio_release_irq`, `sdio_release_host`, the assignment of
`NO_TAKEN`), inside `wait_event_interruptible`, or returned. -/
inductive DisablePc where
  | test_irq
  | waiting
  | set_dis_taken
  | claim_host
  | release_irq
  | release_host
  | set_no_taken
  | returned
deriving DecidableEq, Repr

/-- Who makes the next step: the thread in the callback, the thread in the
disable, or a signal delivered to the thread in the disable. -/
inductive Actor where
  | callback
  | disable
  | signal
deriving DecidableEq, Repr

/-- The state shared by the two threads, statement by statement: the global
`sdio_intr_lock`, where each thread stands, which thread holds the host claim,
and the number of wake-ups delivered to `sdio_intr_waitqueue`. -/
structure Race where
  lock : sdio_host_lock
  callback : CallbackPc
  disable : DisablePc
  host : Option Actor
  wakeups : Nat
deriving DecidableEq, Repr

/-- One statement of one thread, each statement atomic; `none` when the thread
cannot move: it has returned, it is in `sdio_claim_host` while the other thread
holds the host, or it is in the wait and neither is the lock `NO_TAKEN` nor a
signal delivered.  The handler is entered by one step and left by another. -/
def Race.step : Actor → Race → Option Race
  | .callback, r =>
    match r.callback with
    | .test_dis =>
      if r.lock = sdio_host_lock.WILC_SDIO_HOST_DIS_TAKEN
      then some { r with callback := .returned }
      else some { r with callback := .set_irq_taken }
    | .set_irq_taken =>
      some { r with lock := sdio_host_lock.WILC_SDIO_HOST_IRQ_TAKEN, callback := .release_host }
    | .release_host => some { r with host := none, callback := .call_isr }
    | .call_isr => some { r with callback := .in_isr }
    | .in_isr => some { r with callback := .claim_host }
    | .claim_host =>
      if r.host = some Actor.disable then none
      else some { r with host := some Actor.callback, callback := .set_no_taken }
    | .set_no_taken =>
      some { r with lock := sdio_host_lock.WILC_SDIO_HOST_NO_TAKEN, callback := .wake_up }
    | .wake_up => some { r with wakeups := r.wakeups + 1, callback := .returned }
    | .returned => none
  | .disable, r =>
    match r.disable with
    | .test_irq =>
      if r.lock = sdio_host_lock.WILC_SDIO_HOST_IRQ_TAKEN
      then some { r with disable := .waiting }
      else some { r with disable := .set_dis_taken }
    | .waiting =>
      if r.lock = sdio_host_lock.WILC_SDIO_HOST_NO_TAKEN
      then some { r with disable := .set_dis_taken }
      else none
    | .set_dis_taken =>
      some { r with lock := sdio_host_lock.WILC_SDIO_HOST_DIS_TAKEN, disable := .claim_host }
    | .claim_host =>
      if r.host = some Actor.callback then none
      else some { r with host := some Actor.disable, disable := .release_irq }
    | .release_irq => some { r with disable := .release_host }
    | .release_host => some { r with host := none, disable := .set_no_taken }
    | .set_no_taken =>
      some { r with lock := sdio_host_lock.WILC_SDIO_HOST_NO_TAKEN, disable := .returned }
    | .returned => none
  | .signal, r =>
    match r.disable with
    | .waiting => some { r with disable := .set_dis_taken }
    | _ => none

/-- A schedule, step by step; `none` when a scheduled thread cannot move. -/
def Race.run : List Actor → Race → Option Race
  | [], r => some r
  | x :: xs, r =>
    match Race.step x r with
    | none => none
    | some r1 => Race.run xs r1

/-- The state in which the SDIO stack enters the callback (holding the host, which
the callback releases first) while another thread enters the disable, the lock
being free. -/
def Race.start : Race :=
  { lock := sdio_host_lock.WILC_SDIO_HOST_NO_TAKEN, callback := CallbackPc.test_dis,
    disable := DisablePc.test_irq, host := some Actor.callback, wakeups := 0 }

/-- An interrupt dispatch is in flight: the callback has set `IRQ_TAKEN` and has not
yet set `NO_TAKEN`. -/
def Race.dispatching (r : Race) : Bool :=
  r.callback == CallbackPc.release_host || r.callback == CallbackPc.call_isr ||
  r.callback == CallbackPc.in_isr || r.callback == CallbackPc.claim_host ||
  r.callback == CallbackPc.set_no_taken

/-! ## Runs of a command list -/

/-- A run with result 1 issued the whole plan and every transaction succeeded. -/
theorem runs_all_ok {plan : List Cmd} {evs : List Txn} :
    runs plan 1 evs = true → (∀ e ∈ evs, e.ret = 0) ∧ evs.map Txn.cmd = plan := by
  induction plan generalizing evs with
  | nil => cases evs <;> simp [runs]
  | cons c p ih =>
    cases evs with
    | nil => simp [runs]
    | cons e es =>
      simp only [runs, Bool.and_eq_true, beq_iff_eq]
      rintro ⟨hc, hrest⟩
      by_cases he : e.ret = 0
      · simp only [he, if_true] at hrest
        obtain ⟨h1, h2⟩ := ih hrest
        simp [he, hc, h1, h2]
        exact h1
      · simp [he] at hrest

/-- A successful run of `p1` followed by a run of `p2` is a run of `p1 ++ p2`. -/
theorem runs_append {p1 p2 : List Cmd} {e1 e2 : List Txn} {r : Int} :
    runs p1 1 e1 = true → runs p2 r e2 = true → runs (p1 ++ p2) r (e1 ++ e2) = true := by
  induction p1 generalizing e1 with
  | nil => cases e1 <;> simp [runs]
  | cons c p ih =>
    cases e1 with
    | nil => simp [runs]
    | cons e es =>
      simp only [runs, Bool.and_eq_true, beq_iff_eq, List.cons_append]
      rintro ⟨hc, hrest⟩ h2
      by_cases he : e.ret = 0
      · simp only [he, if_true] at hrest ⊢
        exact ⟨hc, ih hrest h2⟩
      · simp [he] at hrest

/-- A failed run of `p1` is a failed run of every plan that starts with `p1`. -/
theorem runs_fail_ext {p1 : List Cmd} (p2 : List Cmd) {e1 : List Txn} :
    runs p1 0 e1 = true → runs (p1 ++ p2) 0 e1 = true := by
  induction p1 generalizing e1 with
  | nil => cases e1 <;> simp [runs]
  | cons c p ih =>
    cases e1 with
    | nil => simp [runs]
    | cons e es =>
      simp only [runs, Bool.and_eq_true, beq_iff_eq, List.cons_append]
      rintro ⟨hc, hrest⟩
      by_cases he : e.ret = 0
      · simp only [he, if_true] at hrest ⊢
        exact ⟨hc, ih hrest⟩
      · simp only [he, if_false] at hrest ⊢
        exact ⟨hc, hrest⟩

/-- The result of a run is 1 or 0. -/
theorem runs_result {plan : List Cmd} {evs : List Txn} {r : Int} :
    runs plan r evs = true → r = 1 ∨ r = 0 := by
  induction plan generalizing evs with
  | nil => cases evs <;> simp [runs]; intro h; exact Or.inl h
  | cons c p ih =>
    cases evs with
    | nil => simp [runs]
    | cons e es =>
      simp only [runs, Bool.and_eq_true, beq_iff_eq]
      rintro ⟨hc, hrest⟩
      by_cases he : e.ret = 0
      · simp only [he, if_true] at hrest
        exact ih hrest
      · simp only [he, if_false, Bool.and_eq_true, beq_iff_eq] at hrest
        exact Or.inr hrest.2

/-- In a run a failing transaction is the last one and the result is 0. -/
theorem runs_fail_stop {plan : List Cmd} {evs : List Txn} {r : Int} :
    runs plan r evs = true → ∀ pre e post, evs = pre ++ e :: post → e.ret ≠ 0 →
      post = [] ∧ r = 0 := by
  induction plan generalizing evs with
  | nil => cases evs <;> simp [runs]
  | cons c p ih =>
    cases evs with
    | nil => simp [runs]
    | cons e es =>
      simp only [runs, Bool.and_eq_true, beq_iff_eq]
      rintro ⟨hc, hrest⟩ pre x post hx hne
      cases pre with
      | nil =>
        simp only [List.nil_append, List.cons.injEq] at hx
        obtain ⟨rfl, rfl⟩ := hx
        simp only [hne, if_false, Bool.and_eq_true, beq_iff_eq, List.isEmpty_iff] at hrest
        exact hrest
      | cons y ys =>
        simp only [List.cons_append, List.cons.injEq] at hx
        obtain ⟨rfl, rfl⟩ := hx
        by_cases he : e.ret = 0
        · simp only [he, if_true] at hrest
          exact ih hrest ys x post rfl hne
        · simp only [he, if_false, Bool.and_eq_true, beq_iff_eq, List.isEmpty_iff] at hrest
          simp at hrest

/-- A run in which every transaction succeeded issued the whole plan, with result 1. -/
theorem runs_complete {plan : List Cmd} {evs : List Txn} {r : Int} :
    runs plan r evs = true → (∀ e ∈ evs, e.ret = 0) → evs.map Txn.cmd = plan ∧ r = 1 := by
  induction plan generalizing evs with
  | nil => cases evs <;> simp [runs]
  | cons c p ih =>
    cases evs with
    | nil => simp [runs]
    | cons e es =>
      simp only [runs, Bool.and_eq_true, beq_iff_eq]
      rintro ⟨hc, hrest⟩ hall
      have he : e.ret = 0 := hall e (List.mem_cons_self _ _)
      simp only [he, if_true] at hrest
      obtain ⟨h1, h2⟩ := ih hrest (fun x hx => hall x (List.mem_cons_of_mem _ hx))
      simp [hc, h1, h2]

/-- Every command issued in a run belongs to the plan. -/
theorem runs_mem {plan : List Cmd} {evs : List Txn} {r : Int} :
    runs plan r evs = true → ∀ e ∈ evs, e.cmd ∈ plan := by
  induction plan generalizing evs with
  | nil => cases evs <;> simp [runs]
  | cons c p ih =>
    cases evs with
    | nil => simp [runs]
    | cons e es =>
      simp only [runs, Bool.and_eq_true, beq_iff_eq]
      rintro ⟨hc, hrest⟩ x hx
      rcases List.mem_cons.mp hx with rfl | hx
      · simp [hc]
      · by_cases he : e.ret = 0
        · simp only [he, if_true] at hrest
          exact List.mem_cons_of_mem _ (ih hrest x hx)
        · simp only [he, if_false, Bool.and_eq_true, beq_iff_eq, List.isEmpty_iff] at hrest
          rw [hrest.1] at hx
          simp at hx

/-- The commands issued in a run are an initial segment of the plan. -/
theorem runs_initial {plan : List Cmd} {evs : List Txn} {r : Int} :
    runs plan r evs = true → evs.map Txn.cmd <+: plan := by
  induction plan generalizing evs with
  | nil => cases evs <;> simp [runs]
  | cons c p ih =>
    cases evs with
    | nil => simp [runs]
    | cons e es =>
      simp only [runs, Bool.and_eq_true, beq_iff_eq]
      rintro ⟨hc, hrest⟩
      by_cases he : e.ret = 0
      · simp only [he, if_true] at hrest
        obtain ⟨t, ht⟩ := ih hrest
        exact ⟨t, by simp [hc, ← ht]⟩
      · simp only [he, if_false, Bool.and_eq_true, beq_iff_eq, List.isEmpty_iff] at hrest
        exact ⟨p, by simp [hc, hrest.1]⟩

/-- A run with result 0 ends with a failing transaction, after successful ones. -/
theorem runs_fail_shape {plan : List Cmd} {evs : List Txn} :
    runs plan 0 evs = true → ∃ pre e, evs = pre ++ [e] ∧ e.ret ≠ 0 ∧ ∀ x ∈ pre, x.ret = 0 := by
  induction plan generalizing evs with
  | nil => cases evs <;> simp [runs]
  | cons c p ih =>
    cases evs with
    | nil => simp [runs]
    | cons e es =>
      simp only [runs, Bool.and_eq_true, beq_iff_eq]
      rintro ⟨-, hrest⟩
      by_cases he : e.ret = 0
      · simp only [he, if_true] at hrest
        obtain ⟨pre, x, h1, h2, h3⟩ := ih hrest
        refine ⟨e :: pre, x, by simp [h1], h2, ?_⟩
        intro y hy
        rcases List.mem_cons.mp hy with rfl | hy
        · exact he
        · exact h3 y hy
      · simp only [he, if_false, Bool.and_eq_true, beq_iff_eq, List.isEmpty_iff] at hrest
        exact ⟨[], e, by simp [hrest.1], he, by simp⟩

/-- One single-register transaction is a run of its command. -/
theorem runs_single52 (c : sdio_cmd52) (ret : Int) (d : Nat) :
    runs [Cmd.c52 c] (if ret ≠ 0 then 0 else 1) [Txn.cmd52 c ret d] = true := by
  by_cases hr : ret = 0 <;> simp [runs, Txn.cmd, Txn.ret, hr]

/-- One block transaction is a run of its command. -/
theorem runs_single53 (c : sdio_cmd53) (ret : Int) :
    runs [Cmd.c53 c] (if ret ≠ 0 then 0 else 1) [Txn.cmd53 c ret] = true := by
  by_cases hr : ret = 0 <;> simp [runs, Txn.cmd, Txn.ret, hr]

/-- When the later record is the earlier one extended by `evs`, `issued` is `evs`. -/
theorem issued_of_log {σ : Type} {w w1 : World σ} {evs : List Txn}
    (hl : w1.log = w.log ++ evs) : issued w w1 = evs := by
  unfold issued
  rw [hl]
  exact List.drop_left _ _

/-! ## The register transport as a run -/

/-- The `wilc_sdio_cmd52` appends exactly one transaction to the record. -/
theorem cmd52_log {σ : Type} (h : Host σ) (w : World σ) (c : sdio_cmd52) :
    (wilc_sdio_cmd52 h w c).2.2.log =
      w.log ++ [Txn.cmd52 c (wilc_sdio_cmd52 h w c).1 (wilc_sdio_cmd52 h w c).2.1.data] := by
  unfold wilc_sdio_cmd52
  split_ifs <;> simp

/-- The `wilc_sdio_cmd52` leaves `g_sdio` and the chip variant alone. -/
theorem cmd52_frame {σ : Type} (h : Host σ) (w : World σ) (c : sdio_cmd52) :
    (wilc_sdio_cmd52 h w c).2.2.g_sdio = w.g_sdio ∧ (wilc_sdio_cmd52 h w c).2.2.chip = w.chip := by
  unfold wilc_sdio_cmd52
  split_ifs <;> simp

/-- The `wilc_sdio_cmd53` appends exactly one transaction to the record. -/
theorem cmd53_log {σ : Type} (h : Host σ) (w : World σ) (c : sdio_cmd53) (b : Nat → Nat) :
    (wilc_sdio_cmd53 h w c b).2.2.log = w.log ++ [Txn.cmd53 c (wilc_sdio_cmd53 h w c b).1] := by
  unfold wilc_sdio_cmd53
  split_ifs <;> simp

/-- The `wilc_sdio_cmd53` leaves `g_sdio` and the chip variant alone. -/
theorem cmd53_frame {σ : Type} (h : Host σ) (w : World σ) (c : sdio_cmd53) (b : Nat → Nat) :
    (wilc_sdio_cmd53 h w c b).2.2.g_sdio = w.g_sdio ∧ (wilc_sdio_cmd53 h w c b).2.2.chip = w.chip := by
  unfold wilc_sdio_cmd53
  split_ifs <;> simp

/-- The `sdio_set_func0_csa_address` is a run of the three window writes. -/
theorem csa_runs {σ : Type} (h : Host σ) (w : World σ) (adr : Nat) :
    ∃ evs, (sdio_set_func0_csa_address h w adr).2.log = w.log ++ evs ∧
      runs (window_cmds adr) (sdio_set_func0_csa_address h w adr).1 evs = true ∧
      (sdio_set_func0_csa_address h w adr).2.g_sdio = w.g_sdio := by
  unfold sdio_set_func0_csa_address
  simp only [wilc_sdio_cmd52]
  simp
  split_ifs <;> simp_all [runs, window_cmds, Txn.cmd, Txn.ret]

/-- Outside the reserved range `sdio_write_reg` is a run of the window writes and one
4-byte block write. -/
theorem write_reg_runs {σ : Type} (h : Host σ) (w : World σ) (addr data : Nat)
    (hout : ¬ (0xf0 ≤ addr ∧ addr ≤ 0xff)) :
    ∃ evs, (sdio_write_reg h w addr data).2.log = w.log ++ evs ∧
      runs (window_cmds addr ++
        [Cmd.c53 { read_write := 1, function := 0, address := 0x10f, block_mode := 0,
                   increment := 1, count := 4, block_size := w.g_sdio.block_size }])
        (sdio_write_reg h w addr data).1 evs = true := by
  obtain ⟨e0, hlog0, hr0, hg0⟩ := csa_runs h w addr
  unfold sdio_write_reg
  simp only [hout, if_false]
  by_cases hz : (sdio_set_func0_csa_address h w addr).1 = 0
  · simp only [hz, if_true]
    rw [hz] at hr0
    exact ⟨e0, hlog0, runs_fail_ext _ hr0⟩
  · have h1 : (sdio_set_func0_csa_address h w addr).1 = 1 := by
      rcases runs_result hr0 with h1 | h1
      · exact h1
      · exact absurd h1 hz
    rw [h1] at hr0
    simp only [hz, if_false]
    rw [hg0]
    have hl := cmd53_log h (sdio_set_func0_csa_address h w addr).2
      { read_write := 1, function := 0, address := 0x10f, block_mode := 0,
        increment := 1, count := 4, block_size := w.g_sdio.block_size }
      (u32_bytes h.big_endian (cpu_to_le32 h.big_endian data))
    rw [hlog0] at hl
    generalize wilc_sdio_cmd53 h (sdio_set_func0_csa_address h w addr).2 _ _ = r at hl ⊢
    refine ⟨e0 ++ [Txn.cmd53
      { read_write := 1, function := 0, address := 0x10f, block_mode := 0,
        increment := 1, count := 4, block_size := w.g_sdio.block_size } r.1], ?_, ?_⟩
    · split_ifs <;> simp [hl]
    · have := runs_append hr0 (runs_single53
        { read_write := 1, function := 0, address := 0x10f, block_mode := 0,
          increment := 1, count := 4, block_size := w.g_sdio.block_size } r.1)
      split_ifs at this ⊢ <;> simpa using this

/-- Outside the reserved range `sdio_read_reg` is a run of the window writes and one
4-byte block read. -/
theorem read_reg_runs {σ : Type} (h : Host σ) (w : World σ) (addr data0 : Nat)
    (hout : ¬ (0xf0 ≤ addr ∧ addr ≤ 0xff)) :
    ∃ evs, (sdio_read_reg h w addr data0).2.2.log = w.log ++ evs ∧
      runs (window_cmds addr ++
        [Cmd.c53 { read_write := 0, function := 0, address := 0x10f, block_mode := 0,
                   increment := 1, count := 4, block_size := w.g_sdio.block_size }])
        (sdio_read_reg h w addr data0).1 evs = true := by
  obtain ⟨e0, hlog0, hr0, hg0⟩ := csa_runs h w addr
  unfold sdio_read_reg
  simp only [hout, if_false]
  by_cases hz : (sdio_set_func0_csa_address h w addr).1 = 0
  · simp only [hz, if_true]
    rw [hz] at hr0
    exact ⟨e0, hlog0, runs_fail_ext _ hr0⟩
  · have h1 : (sdio_set_func0_csa_address h w addr).1 = 1 := by
      rcases runs_result hr0 with h1 | h1
      · exact h1
      · exact absurd h1 hz
    rw [h1] at hr0
    simp only [hz, if_false]
    rw [hg0]
    have hl := cmd53_log h (sdio_set_func0_csa_address h w addr).2
      { read_write := 0, function := 0, address := 0x10f, block_mode := 0,
        increment := 1, count := 4, block_size := w.g_sdio.block_size }
      (u32_bytes h.big_endian data0)
    rw [hlog0] at hl
    generalize wilc_sdio_cmd53 h (sdio_set_func0_csa_address h w addr).2 _ _ = r at hl ⊢
    refine ⟨e0 ++ [Txn.cmd53
      { read_write := 0, function := 0, address := 0x10f, block_mode := 0,
        increment := 1, count := 4, block_size := w.g_sdio.block_size } r.1], ?_, ?_⟩
    · split_ifs <;> simp [hl]
    · have := runs_append hr0 (runs_single53
        { read_write := 0, function := 0, address := 0x10f, block_mode := 0,
          increment := 1, count := 4, block_size := w.g_sdio.block_size } r.1)
      split_ifs at this ⊢ <;> simpa using this

/-- In the reserved range `sdio_write_reg` is a run of one single-register write. -/
theorem write_reg_direct_runs {σ : Type} (h : Host σ) (w : World σ) (addr data : Nat)
    (hin : 0xf0 ≤ addr ∧ addr ≤ 0xff) :
    ∃ evs, (sdio_write_reg h w addr data).2.log = w.log ++ evs ∧
      runs [Cmd.c52 { read_write := 1, function := 0, raw := 0, address := addr,
                      data := cpu_to_le32 h.big_endian data % 256 }]
        (sdio_write_reg h w addr data).1 evs = true := by
  unfold sdio_write_reg
  simp only [hin, and_self, if_true]
  have hl := cmd52_log h w
    { read_write := 1, function := 0, raw := 0, address := addr,
      data := cpu_to_le32 h.big_endian data % 256 }
  generalize wilc_sdio_cmd52 h w _ = r at hl ⊢
  refine ⟨[Txn.cmd52
    { read_write := 1, function := 0, raw := 0, address := addr,
      data := cpu_to_le32 h.big_endian data % 256 } r.1 r.2.1.data], ?_, ?_⟩
  · split_ifs <;> exact hl
  · have := runs_single52
      { read_write := 1, function := 0, raw := 0, address := addr,
        data := cpu_to_le32 h.big_endian data % 256 } r.1 r.2.1.data
    split_ifs at this ⊢ <;> exact this

/-- In the reserved range `sdio_read_reg` is a run of one single-register read. -/
theorem read_reg_direct_runs {σ : Type} (h : Host σ) (w : World σ) (addr data0 : Nat)
    (hin : 0xf0 ≤ addr ∧ addr ≤ 0xff) :
    ∃ evs, (sdio_read_reg h w addr data0).2.2.log = w.log ++ evs ∧
      runs [Cmd.c52 { read_write := 0, function := 0, raw := 0, address := addr, data := 0 }]
        (sdio_read_reg h w addr data0).1 evs = true := by
  unfold sdio_read_reg
  simp only [hin, and_self, if_true]
  have hl := cmd52_log h w { read_write := 0, function := 0, raw := 0, address := addr, data := 0 }
  generalize wilc_sdio_cmd52 h w _ = r at hl ⊢
  refine ⟨[Txn.cmd52
    { read_write := 0, function := 0, raw := 0, address := addr, data := 0 }
    r.1 r.2.1.data], ?_, ?_⟩
  · split_ifs <;> exact hl
  · have := runs_single52
      { read_write := 0, function := 0, raw := 0, address := addr, data := 0 } r.1 r.2.1.data
    split_ifs at this ⊢ <;> exact this

/-- The `sdio_write_reg` is a run of some plan, for every address. -/
theorem write_reg_some_runs {σ : Type} (h : Host σ) (w : World σ) (addr data : Nat) :
    ∃ plan evs, (sdio_write_reg h w addr data).2.log = w.log ++ evs ∧
      runs plan (sdio_write_reg h w addr data).1 evs = true := by
  by_cases hin : 0xf0 ≤ addr ∧ addr ≤ 0xff
  · obtain ⟨evs, h1, h2⟩ := write_reg_direct_runs h w addr data hin
    exact ⟨_, evs, h1, h2⟩
  · obtain ⟨evs, h1, h2⟩ := write_reg_runs h w addr data hin
    exact ⟨_, evs, h1, h2⟩

/-- The `sdio_read_reg` is a run of some plan, for every address. -/
theorem read_reg_some_runs {σ : Type} (h : Host σ) (w : World σ) (addr data0 : Nat) :
    ∃ plan evs, (sdio_read_reg h w addr data0).2.2.log = w.log ++ evs ∧
      runs plan (sdio_read_reg h w addr data0).1 evs = true := by
  by_cases hin : 0xf0 ≤ addr ∧ addr ≤ 0xff
  · obtain ⟨evs, h1, h2⟩ := read_reg_direct_runs h w addr data0 hin
    exact ⟨_, evs, h1, h2⟩
  · obtain ⟨evs, h1, h2⟩ := read_reg_runs h w addr data0 hin
    exact ⟨_, evs, h1, h2⟩

/-! ## The block transport as a run -/

/-- The window programming guarded by `addr > 0` is a run of the window writes, or of
nothing when the address is 0. -/
theorem win_opt_runs {σ : Type} (h : Host σ) (w : World σ) (a : Nat) :
    ∃ evs, (if a > 0 then sdio_set_func0_csa_address h w a else (1, w)).2.log = w.log ++ evs ∧
      runs (if a > 0 then window_cmds a else [])
        (if a > 0 then sdio_set_func0_csa_address h w a else (1, w)).1 evs = true ∧
      (if a > 0 then sdio_set_func0_csa_address h w a else (1, w)).2.g_sdio = w.g_sdio := by
  by_cases ha : a > 0
  · simp only [ha, if_true]
    exact csa_runs h w a
  · simp only [ha, if_false]
    refine ⟨[], ?_, ?_⟩ <;> simp [runs]

/-- One chunk of `sdio_write` (guarded window programming, then the block command),
started after a successful run of `p1`, extends it to a run of `p1` followed by
the commands of the chunk. -/
theorem chunk_stage {σ : Type} (h : Host σ) (w0 w : World σ) (pre : List Txn) (p1 : List Cmd)
    (hlog : w.log = w0.log ++ pre) (hpre : runs p1 1 pre = true) (hg : w.g_sdio = w0.g_sdio)
    (c : sdio_cmd53) (a : Nat) (buf : Nat → Nat) :
    ∃ evs,
      (if (if a > 0 then sdio_set_func0_csa_address h w a else (1, w)).1 = 0
        then ((0 : Int), (if a > 0 then sdio_set_func0_csa_address h w a else (1, w)).2)
        else if (wilc_sdio_cmd53 h (if a > 0 then sdio_set_func0_csa_address h w a else (1, w)).2
              c buf).1 ≠ 0
          then (0, (wilc_sdio_cmd53 h
              (if a > 0 then sdio_set_func0_csa_address h w a else (1, w)).2 c buf).2.2)
          else (1, (wilc_sdio_cmd53 h
              (if a > 0 then sdio_set_func0_csa_address h w a else (1, w)).2 c buf).2.2)).2.log
        = w0.log ++ evs ∧
      runs (p1 ++ ((if a > 0 then window_cmds a else []) ++ [Cmd.c53 c]))
        (if (if a > 0 then sdio_set_func0_csa_address h w a else (1, w)).1 = 0
        then ((0 : Int), (if a > 0 then sdio_set_func0_csa_address h w a else (1, w)).2)
        else if (wilc_sdio_cmd53 h (if a > 0 then sdio_set_func0_csa_address h w a else (1, w)).2
              c buf).1 ≠ 0
          then (0, (wilc_sdio_cmd53 h
              (if a > 0 then sdio_set_func0_csa_address h w a else (1, w)).2 c buf).2.2)
          else (1, (wilc_sdio_cmd53 h
              (if a > 0 then sdio_set_func0_csa_address h w a else (1, w)).2 c buf).2.2)).1
        evs = true ∧
      (if (if a > 0 then sdio_set_func0_csa_address h w a else (1, w)).1 = 0
        then ((0 : Int), (if a > 0 then sdio_set_func0_csa_address h w a else (1, w)).2)
        else if (wilc_sdio_cmd53 h (if a > 0 then sdio_set_func0_csa_address h w a else (1, w)).2
              c buf).1 ≠ 0
          then (0, (wilc_sdio_cmd53 h
              (if a > 0 then sdio_set_func0_csa_address h w a else (1, w)).2 c buf).2.2)
          else (1, (wilc_sdio_cmd53 h
              (if a > 0 then sdio_set_func0_csa_address h w a else (1, w)).2 c buf).2.2)).2.g_sdio
        = w0.g_sdio := by
  obtain ⟨e0, hlog0, hr0, hg0⟩ := win_opt_runs h w a
  generalize (if a > 0 then sdio_set_func0_csa_address h w a else (1, w)) = r0 at hlog0 hr0 hg0 ⊢
  by_cases hz : r0.1 = 0
  · simp only [hz, if_true]
    rw [hz] at hr0
    refine ⟨pre ++ e0, ?_, runs_append hpre (runs_fail_ext _ hr0), hg0.trans hg⟩
    rw [hlog0, hlog, List.append_assoc]
  · have h1 : r0.1 = 1 := by
      rcases runs_result hr0 with h1 | h1
      · exact h1
      · exact absurd h1 hz
    rw [h1] at hr0
    simp only [hz, if_false]
    have hl := cmd53_log h r0.2 c buf
    have hf := (cmd53_frame h r0.2 c buf).1
    generalize wilc_sdio_cmd53 h r0.2 c buf = r at hl hf ⊢
    refine ⟨pre ++ (e0 ++ [Txn.cmd53 c r.1]), ?_, ?_, ?_⟩
    · split_ifs <;> simp [hl, hlog0, hlog]
    · have := runs_append hpre (runs_append hr0 (runs_single53 c r.1))
      split_ifs at this ⊢ <;> simpa using this
    · split_ifs <;> simp [hf, hg0, hg]

/-- The two outcomes of a chunk, stated on its parts: the window programming failed,
or the block command was issued. -/
theorem stage_facts {σ : Type} (h : Host σ) (w0 w : World σ) (pre : List Txn) (p1 : List Cmd)
    (hlog : w.log = w0.log ++ pre) (hpre : runs p1 1 pre = true) (hg : w.g_sdio = w0.g_sdio)
    (c : sdio_cmd53) (a : Nat) (buf : Nat → Nat) :
    ((if a > 0 then sdio_set_func0_csa_address h w a else (1, w)).1 = 0 →
      ∃ evs, (if a > 0 then sdio_set_func0_csa_address h w a else (1, w)).2.log = w0.log ++ evs ∧
        runs (p1 ++ ((if a > 0 then window_cmds a else []) ++ [Cmd.c53 c])) 0 evs = true ∧
        (if a > 0 then sdio_set_func0_csa_address h w a else (1, w)).2.g_sdio = w0.g_sdio) ∧
    (¬ (if a > 0 then sdio_set_func0_csa_address h w a else (1, w)).1 = 0 →
      ∃ evs, (wilc_sdio_cmd53 h (if a > 0 then sdio_set_func0_csa_address h w a else (1, w)).2
            c buf).2.2.log = w0.log ++ evs ∧
        runs (p1 ++ ((if a > 0 then window_cmds a else []) ++ [Cmd.c53 c]))
          (if (wilc_sdio_cmd53 h (if a > 0 then sdio_set_func0_csa_address h w a else (1, w)).2
            c buf).1 = 0 then 1 else 0) evs = true ∧
        (wilc_sdio_cmd53 h (if a > 0 then sdio_set_func0_csa_address h w a else (1, w)).2
            c buf).2.2.g_sdio = w0.g_sdio) := by
  obtain ⟨evs, hl, hr, hgs⟩ := chunk_stage h w0 w pre p1 hlog hpre hg c a buf
  generalize (if a > 0 then sdio_set_func0_csa_address h w a else (1, w)) = r0 at hl hr hgs ⊢
  generalize wilc_sdio_cmd53 h r0.2 c buf = r at hl hr hgs ⊢
  constructor
  · intro hz
    simp only [hz, if_true] at hl hr hgs
    exact ⟨evs, hl, hr, hgs⟩
  · intro hz
    simp only [hz, if_false] at hl hr hgs
    by_cases hq : r.1 = 0
    · simp only [hq, ne_eq, not_true_eq_false, if_false, if_true] at hl hr hgs ⊢
      exact ⟨evs, hl, hr, hgs⟩
    · simp only [hq, ne_eq, not_false_eq_true, if_false, if_true] at hl hr hgs ⊢
      exact ⟨evs, hl, hr, hgs⟩

/-- One chunk of `sdio_read`, as `chunk_stage` for `sdio_write`. -/
theorem chunk_stage_read {σ : Type} (h : Host σ) (w w2 : World σ) (pre : List Txn)
    (p1 : List Cmd) (a off : Nat) (b0 : Nat → Nat) (hl : w2.log = w.log ++ pre)
    (hp : runs p1 1 pre = true) (hg : w2.g_sdio = w.g_sdio) (c : sdio_cmd53) :
    ∃ evs,
        (if (if a > 0 then sdio_set_func0_csa_address h w2 a else (1, w2)).1 = 0
          then ((0 : Int), b0, (if a > 0 then sdio_set_func0_csa_address h w2 a else (1, w2)).2)
          else if (wilc_sdio_cmd53 h
              (if a > 0 then sdio_set_func0_csa_address h w2 a else (1, w2)).2 c
                (fun i => b0 (off + i))).1 ≠ 0
            then (0, (fun j => if j < off then b0 j else (wilc_sdio_cmd53 h
              (if a > 0 then sdio_set_func0_csa_address h w2 a else (1, w2)).2 c
                (fun i => b0 (off + i))).2.1 (j - off)), (wilc_sdio_cmd53 h
              (if a > 0 then sdio_set_func0_csa_address h w2 a else (1, w2)).2 c
                (fun i => b0 (off + i))).2.2)
            else (1, (fun j => if j < off then b0 j else (wilc_sdio_cmd53 h
              (if a > 0 then sdio_set_func0_csa_address h w2 a else (1, w2)).2 c
                (fun i => b0 (off + i))).2.1 (j - off)), (wilc_sdio_cmd53 h
              (if a > 0 then sdio_set_func0_csa_address h w2 a else (1, w2)).2 c
                (fun i => b0 (off + i))).2.2)).2.2.log = w.log ++ evs ∧
        runs (p1 ++ ((if a > 0 then window_cmds a else []) ++ [Cmd.c53 c]))
          (if (if a > 0 then sdio_set_func0_csa_address h w2 a else (1, w2)).1 = 0
          then ((0 : Int), b0, (if a > 0 then sdio_set_func0_csa_address h w2 a else (1, w2)).2)
          else if (wilc_sdio_cmd53 h
              (if a > 0 then sdio_set_func0_csa_address h w2 a else (1, w2)).2 c
                (fun i => b0 (off + i))).1 ≠ 0
            then (0, (fun j => if j < off then b0 j else (wilc_sdio_cmd53 h
              (if a > 0 then sdio_set_func0_csa_address h w2 a else (1, w2)).2 c
                (fun i => b0 (off + i))).2.1 (j - off)), (wilc_sdio_cmd53 h
              (if a > 0 then sdio_set_func0_csa_address h w2 a else (1, w2)).2 c
                (fun i => b0 (off + i))).2.2)
            else (1, (fun j => if j < off then b0 j else (wilc_sdio_cmd53 h
              (if a > 0 then sdio_set_func0_csa_address h w2 a else (1, w2)).2 c
                (fun i => b0 (off + i))).2.1 (j - off)), (wilc_sdio_cmd53 h
              (if a > 0 then sdio_set_func0_csa_address h w2 a else (1, w2)).2 c
                (fun i => b0 (off + i))).2.2)).1 evs = true ∧
        (if (if a > 0 then sdio_set_func0_csa_address h w2 a else (1, w2)).1 = 0
          then ((0 : Int), b0, (if a > 0 then sdio_set_func0_csa_address h w2 a else (1, w2)).2)
          else if (wilc_sdio_cmd53 h
              (if a > 0 then sdio_set_func0_csa_address h w2 a else (1, w2)).2 c
                (fun i => b0 (off + i))).1 ≠ 0
            then (0, (fun j => if j < off then b0 j else (wilc_sdio_cmd53 h
              (if a > 0 then sdio_set_func0_csa_address h w2 a else (1, w2)).2 c
                (fun i => b0 (off + i))).2.1 (j - off)), (wilc_sdio_cmd53 h
              (if a > 0 then sdio_set_func0_csa_address h w2 a else (1, w2)).2 c
                (fun i => b0 (off + i))).2.2)
            else (1, (fun j => if j < off then b0 j else (wilc_sdio_cmd53 h
              (if a > 0 then sdio_set_func0_csa_address h w2 a else (1, w2)).2 c
                (fun i => b0 (off + i))).2.1 (j - off)), (wilc_sdio_cmd53 h
              (if a > 0 then sdio_set_func0_csa_address h w2 a else (1, w2)).2 c
                (fun i => b0 (off + i))).2.2)).2.2.g_sdio = w.g_sdio := by
  obtain ⟨f1, f2⟩ := stage_facts h w w2 pre p1 hl hp hg c a (fun i => b0 (off + i))
  generalize (if a > 0 then sdio_set_func0_csa_address h w2 a else (1, w2)) = r0 at f1 f2 ⊢
  generalize wilc_sdio_cmd53 h r0.2 c (fun i => b0 (off + i)) = r at f1 f2 ⊢
  by_cases hz : r0.1 = 0
  · simp only [hz, if_true]
    exact f1 hz
  · simp only [hz, if_false]
    obtain ⟨evs, e1, e2, e3⟩ := f2 hz
    by_cases hq : r.1 = 0
    · simp only [hq, ne_eq, not_true_eq_false, if_false, if_true] at e2 ⊢
      exact ⟨evs, e1, e2, e3⟩
    · simp only [hq, ne_eq, not_false_eq_true, if_false, if_true] at e2 ⊢
      exact ⟨evs, e1, e2, e3⟩

/-- Introduction of the components of a returned pair. -/
theorem some_pair_intro {α β : Type} {P : α → β → Prop} (x : α × β) (hx : P x.1 x.2) :
    ∃ a b, some x = some (a, b) ∧ P a b :=
  ⟨x.1, x.2, rfl, hx⟩

/-- Introduction of the components of a returned triple. -/
theorem some_triple_intro {α β γ : Type} {P : α → β → γ → Prop} (x : α × β × γ)
    (hx : P x.1 x.2.1 x.2.2) : ∃ a b c, some x = some (a, b, c) ∧ P a b c :=
  ⟨x.1, x.2.1, x.2.2, rfl, hx⟩

/-- With a non-zero block size `sdio_write` returns, and is a run of `chunk_plan`. -/
theorem sdio_write_runs {σ : Type} (h : Host σ) (w : World σ) (addr : Nat) (buf : Nat → Nat)
    (N : Nat) (hS : w.g_sdio.block_size ≠ 0) :
    ∃ r w1, sdio_write h w addr buf N = some (r, w1) ∧ ∃ evs, w1.log = w.log ++ evs ∧
      runs (chunk_plan 1 addr w.g_sdio.block_size N) r evs = true ∧ w1.g_sdio = w.g_sdio := by
  unfold sdio_write chunk_plan
  simp only [hS, if_false]
  generalize to_int32 (align_size N / w.g_sdio.block_size) = nblk
  generalize to_int32 (align_size N % w.g_sdio.block_size) = nleft
  by_cases hnb : nblk > 0
  · simp only [hnb, if_true, true_and]
    obtain ⟨ev1, hl1, hr1, hg1⟩ := chunk_stage h w w [] [] (by simp) (by simp [runs]) rfl
      { read_write := 1, function := if addr > 0 then 0 else 1,
        address := if addr > 0 then 0x10f else 0, block_mode := 1, increment := 1,
        count := to_u32 nblk, block_size := w.g_sdio.block_size } addr buf
    by_cases ha : addr > 0
    · simp only [ha, if_true] at hl1 hr1 hg1 ⊢
      by_cases hz : (sdio_set_func0_csa_address h w addr).1 = 0
      · simp only [hz, if_true] at hl1 hr1 hg1 ⊢
        exact some_pair_intro _ ⟨ev1, hl1, by simpa using runs_fail_ext _ hr1, hg1⟩
      · simp only [hz, if_false] at hl1 hr1 hg1 ⊢
        generalize wilc_sdio_cmd53 h (sdio_set_func0_csa_address h w addr).2 _ buf = r
          at hl1 hr1 hg1 ⊢
        by_cases hr : ¬ r.1 = 0
        · simp only [ne_eq, hr, not_false_eq_true, if_true] at hl1 hr1 hg1 ⊢
          exact some_pair_intro _ ⟨ev1, hl1, by simpa using runs_fail_ext _ hr1, hg1⟩
        · simp only [ne_eq, hr, if_false] at hl1 hr1 hg1 ⊢
          by_cases hnl : nleft > 0
          · simp only [hnl, if_true]
            obtain ⟨ev2, hl2, hr2, hg2⟩ := chunk_stage h w r.2.2 ev1 _ hl1 hr1 hg1
              { read_write := 1, function := 0, address := 0x10f, block_mode := 0, increment := 1,
                count := to_u32 nleft, block_size := w.g_sdio.block_size }
              ((addr + to_u32 nblk * w.g_sdio.block_size) % 2 ^ 32)
              (fun i => buf ((to_u32 nblk * w.g_sdio.block_size) % 2 ^ 32 + i))
            exact some_pair_intro _ ⟨ev2, hl2, by simpa using hr2, hg2⟩
          · simp only [hnl, if_false]
            exact some_pair_intro _ ⟨ev1, hl1, by simpa using hr1, hg1⟩
    · simp only [ha, if_false, one_ne_zero] at hl1 hr1 hg1 ⊢
      generalize wilc_sdio_cmd53 h w _ buf = r at hl1 hr1 hg1 ⊢
      by_cases hr : ¬ r.1 = 0
      · simp only [ne_eq, hr, not_false_eq_true, if_true] at hl1 hr1 hg1 ⊢
        exact some_pair_intro _ ⟨ev1, hl1, by simpa using runs_fail_ext _ hr1, hg1⟩
      · simp only [ne_eq, hr, if_false] at hl1 hr1 hg1 ⊢
        by_cases hnl : nleft > 0
        · simp only [hnl, if_true]
          obtain ⟨ev2, hl2, hr2, hg2⟩ := chunk_stage h w r.2.2 ev1 _ hl1 hr1 hg1
            { read_write := 1, function := 1, address := 0, block_mode := 0, increment := 1,
              count := to_u32 nleft, block_size := w.g_sdio.block_size }
            addr
            (fun i => buf ((to_u32 nblk * w.g_sdio.block_size) % 2 ^ 32 + i))
          simp only [ha, if_false, one_ne_zero] at hl2 hr2 hg2
          exact some_pair_intro _ ⟨ev2, hl2, by simpa using hr2, hg2⟩
        · simp only [hnl, if_false]
          exact some_pair_intro _ ⟨ev1, hl1, by simpa using hr1, hg1⟩
  · simp only [hnb, if_false, false_and, List.nil_append]
    by_cases hnl : nleft > 0
    · simp only [hnl, if_true]
      obtain ⟨ev2, hl2, hr2, hg2⟩ := chunk_stage h w w [] [] (by simp) (by simp [runs]) rfl
        { read_write := 1, function := if addr > 0 then 0 else 1,
          address := if addr > 0 then 0x10f else 0, block_mode := 0, increment := 1,
          count := to_u32 nleft, block_size := w.g_sdio.block_size } addr
        (fun i => buf (0 + i))
      by_cases ha : addr > 0
      · simp only [ha, if_true] at hl2 hr2 hg2 ⊢
        exact some_pair_intro _ ⟨ev2, hl2, by simpa using hr2, hg2⟩
      · simp only [ha, if_false, one_ne_zero] at hl2 hr2 hg2 ⊢
        exact some_pair_intro _ ⟨ev2, hl2, by simpa using hr2, hg2⟩
    · simp only [hnl, if_false]
      exact some_pair_intro _ ⟨[], by simp, by simp [runs], rfl⟩

/-- With a non-zero block size `sdio_read` returns, and is a run of `chunk_plan`. -/
theorem sdio_read_runs {σ : Type} (h : Host σ) (w : World σ) (addr : Nat) (buf : Nat → Nat)
    (N : Nat) (hS : w.g_sdio.block_size ≠ 0) :
    ∃ r b w1, sdio_read h w addr buf N = some (r, b, w1) ∧ ∃ evs, w1.log = w.log ++ evs ∧
      runs (chunk_plan 0 addr w.g_sdio.block_size N) r evs = true ∧ w1.g_sdio = w.g_sdio := by
  unfold sdio_read chunk_plan
  simp only [hS, if_false]
  generalize to_int32 (align_size N / w.g_sdio.block_size) = nblk
  generalize to_int32 (align_size N % w.g_sdio.block_size) = nleft
  by_cases hnb : nblk > 0
  · simp only [hnb, if_true, true_and]
    obtain ⟨f1, f2⟩ := stage_facts h w w [] [] (by simp) (by simp [runs]) rfl
      { read_write := 0, function := if addr > 0 then 0 else 1,
        address := if addr > 0 then 0x10f else 0, block_mode := 1, increment := 1,
        count := to_u32 nblk, block_size := w.g_sdio.block_size } addr buf
    by_cases ha : addr > 0
    · simp only [ha, if_true] at f1 f2 ⊢
      by_cases hz : (sdio_set_func0_csa_address h w addr).1 = 0
      · simp only [hz, if_true]
        obtain ⟨ev1, hl1, hr1, hg1⟩ := f1 hz
        exact some_triple_intro _ ⟨ev1, hl1, by simpa using runs_fail_ext _ hr1, hg1⟩
      · simp only [hz, if_false]
        obtain ⟨ev1, hl1, hr1, hg1⟩ := f2 hz
        generalize wilc_sdio_cmd53 h (sdio_set_func0_csa_address h w addr).2 _ buf = r
          at hl1 hr1 hg1 ⊢
        by_cases hr : r.1 = 0
        · simp only [ne_eq, hr, not_true_eq_false, if_false, if_true] at hr1 ⊢
          by_cases hnl : nleft > 0
          · simp only [hnl, if_true]
            obtain ⟨ev2, hl2, hr2, hg2⟩ := chunk_stage_read h w r.2.2 ev1 _
              ((addr + to_u32 nblk * w.g_sdio.block_size) % 2 ^ 32)
              ((to_u32 nblk * w.g_sdio.block_size) % 2 ^ 32) r.2.1 hl1 hr1 hg1
              { read_write := 0, function := 0, address := 0x10f, block_mode := 0, increment := 1,
                count := to_u32 nleft, block_size := w.g_sdio.block_size }
            exact some_triple_intro _ ⟨ev2, hl2, by simpa using hr2, hg2⟩
          · simp only [hnl, if_false]
            exact some_triple_intro _ ⟨ev1, hl1, by simpa using hr1, hg1⟩
        · simp only [ne_eq, hr, not_false_eq_true, if_false, if_true] at hr1 ⊢
          exact some_triple_intro _ ⟨ev1, hl1, by simpa using runs_fail_ext _ hr1, hg1⟩
    · simp only [ha, if_false, one_ne_zero, not_false_eq_true, forall_true_left, false_implies]
        at f1 f2 ⊢
      obtain ⟨ev1, hl1, hr1, hg1⟩ := f2
      generalize wilc_sdio_cmd53 h w _ buf = r at hl1 hr1 hg1 ⊢
      by_cases hr : r.1 = 0
      · simp only [ne_eq, hr, not_true_eq_false, if_false, if_true] at hr1 ⊢
        by_cases hnl : nleft > 0
        · simp only [hnl, if_true]
          obtain ⟨ev2, hl2, hr2, hg2⟩ := chunk_stage_read h w r.2.2 ev1 _
            addr ((to_u32 nblk * w.g_sdio.block_size) % 2 ^ 32) r.2.1 hl1 hr1 hg1
            { read_write := 0, function := 1, address := 0, block_mode := 0, increment := 1,
              count := to_u32 nleft, block_size := w.g_sdio.block_size }
          simp only [ha, if_false, one_ne_zero] at hl2 hr2 hg2
          exact some_triple_intro _ ⟨ev2, hl2, by simpa using hr2, hg2⟩
        · simp only [hnl, if_false]
          exact some_triple_intro _ ⟨ev1, hl1, by simpa using hr1, hg1⟩
      · simp only [ne_eq, hr, not_false_eq_true, if_false, if_true] at hr1 ⊢
        exact some_triple_intro _ ⟨ev1, hl1, by simpa using runs_fail_ext _ hr1, hg1⟩
  · simp only [hnb, if_false, false_and, List.nil_append]
    by_cases hnl : nleft > 0
    · simp only [hnl, if_true]
      obtain ⟨ev2, hl2, hr2, hg2⟩ := chunk_stage_read h w w [] [] addr 0 buf (by simp)
        (by simp [runs]) rfl
        { read_write := 0, function := if addr > 0 then 0 else 1,
          address := if addr > 0 then 0x10f else 0, block_mode := 0, increment := 1,
          count := to_u32 nleft, block_size := w.g_sdio.block_size }
      by_cases ha : addr > 0
      · simp only [ha, if_true] at hl2 hr2 hg2 ⊢
        exact some_triple_intro _ ⟨ev2, hl2, by simpa using hr2, hg2⟩
      · simp only [ha, if_false, one_ne_zero] at hl2 hr2 hg2 ⊢
        exact some_triple_intro _ ⟨ev2, hl2, by simpa using hr2, hg2⟩
    · simp only [hnl, if_false]
      exact some_triple_intro _ ⟨[], by simp, by simp [runs], rfl⟩

/-- With block size 0 `sdio_write` stops at the division. -/
theorem sdio_write_none {σ : Type} (h : Host σ) (w : World σ) (addr : Nat) (buf : Nat → Nat)
    (N : Nat) (hS : w.g_sdio.block_size = 0) : sdio_write h w addr buf N = none := by
  unfold sdio_write
  simp [hS]

/-- With block size 0 `sdio_read` stops at the division. -/
theorem sdio_read_none {σ : Type} (h : Host σ) (w : World σ) (addr : Nat) (buf : Nat → Nat)
    (N : Nat) (hS : w.g_sdio.block_size = 0) : sdio_read h w addr buf N = none := by
  unfold sdio_read
  simp [hS]

/-! ## Arithmetic of sizes, addresses and bytes -/

/-- Masking a 32-bit value with `~0x3` clears its two low bits. -/
theorem and_not3 (y : Nat) (hy : y < 2 ^ 32) : y &&& 0xFFFFFFFC = y / 4 * 4 := by
  apply Nat.eq_of_testBit_eq
  intro i
  have hc : (0xFFFFFFFC : Nat) = 2 ^ 2 * (2 ^ 30 - 1) := by norm_num
  have hd : y / 4 * 4 = 2 ^ 2 * (y / 2 ^ 2) := by norm_num; ring
  rw [Nat.testBit_and, hc, hd, Nat.testBit_mul_pow_two, Nat.testBit_mul_pow_two,
    Nat.testBit_two_pow_sub_one, ← Nat.shiftRight_eq_div_pow, Nat.testBit_shiftRight]
  by_cases h2 : i ≥ 2
  · have e : 2 + (i - 2) = i := by omega
    simp only [h2, decide_True, Bool.true_and, e]
    by_cases h30 : i - 2 < 30
    · simp [h30]
    · have : y.testBit i = false := by
        apply Nat.testBit_lt_two_pow
        calc y < 2 ^ 32 := hy
          _ ≤ 2 ^ i := Nat.pow_le_pow_right (by norm_num) (by omega)
      simp [h30, this]
  · simp [h2]

/-- The alignment step in terms of division and remainder. -/
theorem align_size_eq (N : Nat) :
    align_size N = if N % 4 ≠ 0 then (N + 4) % 2 ^ 32 / 4 * 4 else N := by
  unfold align_size
  have h3 : N &&& 3 = N % 4 := Nat.and_pow_two_sub_one_eq_mod N 2
  rw [h3, and_not3 _ (Nat.mod_lt _ (by norm_num))]

/-- Values below `2^31` convert to the same `int`. -/
theorem to_int32_of_lt {x : Nat} (hx : x < 2 ^ 31) : to_int32 x = (x : Int) := by
  unfold to_int32
  have h1 : x % 2 ^ 32 = x := Nat.mod_eq_of_lt (by omega)
  rw [h1, if_pos hx]

/-- Non-negative `int` values below `2^32` convert back to themselves. -/
theorem to_u32_natCast {x : Nat} (hx : x < 2 ^ 32) : to_u32 (x : Int) = x := by
  unfold to_u32
  have : ((x : Int) % 2 ^ 32) = (x : Int) := Int.emod_eq_of_lt (by omega) (by exact_mod_cast hx)
  rw [this]
  simp

/-- The block commands of a concatenation. -/
theorem cmd53_of_append (a b : List Cmd) : cmd53_of (a ++ b) = cmd53_of a ++ cmd53_of b := by
  induction a with
  | nil => rfl
  | cons c cs ih => cases c <;> simp [cmd53_of, ih]

/-- The window programming holds no block command. -/
theorem cmd53_of_window (adr : Nat) : cmd53_of (window_cmds adr) = [] := rfl

/-- The window bytes of an address depend on it modulo `2^32` only. -/
theorem window_cmds_mod (x : Nat) : window_cmds (x % 2 ^ 32) = window_cmds x := by
  unfold window_cmds
  have h1 : x % 2 ^ 32 % 256 = x % 256 := by omega
  have h2 : x % 2 ^ 32 / 2 ^ 8 % 256 = x / 2 ^ 8 % 256 := by omega
  have h3 : x % 2 ^ 32 / 2 ^ 16 % 256 = x / 2 ^ 16 % 256 := by omega
  rw [h1, h2, h3]

/-- The plan of `sdio_read` / `sdio_write` when block count and remainder fit an `int`. -/
theorem chunk_plan_eq (rw addr S N : Nat) (hblk : align_size N / S < 2 ^ 31)
    (hrem : align_size N % S < 2 ^ 31) :
    chunk_plan rw addr S N =
      (if align_size N / S > 0 then
        (if addr > 0 then window_cmds addr else []) ++
          [Cmd.c53 { read_write := rw, function := if addr > 0 then 0 else 1,
                     address := if addr > 0 then 0x10f else 0, block_mode := 1, increment := 1,
                     count := align_size N / S, block_size := S }]
       else []) ++
      (if align_size N % S > 0 then
        (if (if align_size N / S > 0 ∧ addr > 0
              then (addr + align_size N / S * S) % 2 ^ 32 else addr) > 0
          then window_cmds (addr + align_size N / S * S) else []) ++
          [Cmd.c53 { read_write := rw, function := if addr > 0 then 0 else 1,
                     address := if addr > 0 then 0x10f else 0, block_mode := 0, increment := 1,
                     count := align_size N % S, block_size := S }]
       else []) := by
  unfold chunk_plan
  simp only [to_int32_of_lt hblk, to_int32_of_lt hrem, to_u32_natCast (show align_size N / S < 2 ^ 32 by omega),
    to_u32_natCast (show align_size N % S < 2 ^ 32 by omega), gt_iff_lt, Nat.cast_pos]
  by_cases hb : 0 < align_size N / S
  · by_cases ha : 0 < addr
    · simp only [hb, ha, and_self, if_true, window_cmds_mod]
    · have ha0 : addr = 0 := by omega
      subst ha0
      simp
  · have hb0 : align_size N / S = 0 := Nat.eq_zero_of_not_pos hb
    simp only [hb0, lt_irrefl, false_and, if_false, Nat.zero_mul, Nat.add_zero]

/-- For address 0 every command of the plan is a block command on function 1 at
address 0. -/
theorem plan_zero_mem {rw S N : Nat} {c : Cmd} (hc : c ∈ chunk_plan rw 0 S N) :
    ∃ c5, c = Cmd.c53 c5 ∧ c5.function = 1 ∧ c5.address = 0 ∧ c5.read_write = rw := by
  unfold chunk_plan at hc
  simp only [gt_iff_lt, lt_irrefl, if_false, and_false, List.nil_append, List.mem_append] at hc
  rcases hc with hc | hc
  · split_ifs at hc
    · simp only [List.mem_singleton] at hc
      exact ⟨_, hc, rfl, rfl, rfl⟩
    · simp at hc
  · split_ifs at hc
    · simp only [List.mem_singleton] at hc
      exact ⟨_, hc, rfl, rfl, rfl⟩
    · simp at hc

/-- The four bytes of a 32-bit value assembled from four bytes. -/
theorem byte_split (a b c d : Nat) (ha : a < 256) (hb : b < 256) (hc : c < 256) (hd : d < 256) :
    (a * 2 ^ 24 + b * 2 ^ 16 + c * 2 ^ 8 + d) % 256 = d ∧
    (a * 2 ^ 24 + b * 2 ^ 16 + c * 2 ^ 8 + d) / 2 ^ 8 % 256 = c ∧
    (a * 2 ^ 24 + b * 2 ^ 16 + c * 2 ^ 8 + d) / 2 ^ 16 % 256 = b ∧
    (a * 2 ^ 24 + b * 2 ^ 16 + c * 2 ^ 8 + d) / 2 ^ 24 % 256 = a := by
  refine ⟨by omega, by omega, by omega, by omega⟩

/-- Swapping the bytes twice gives back a 32-bit value. -/
theorem bswap32_bswap32 (v : Nat) (hv : v < 2 ^ 32) : bswap32 (bswap32 v) = v := by
  obtain ⟨e0, e1, e2, e3⟩ := byte_split (v % 256) (v / 2 ^ 8 % 256) (v / 2 ^ 16 % 256)
    (v / 2 ^ 24 % 256) (Nat.mod_lt _ (by norm_num)) (Nat.mod_lt _ (by norm_num))
    (Nat.mod_lt _ (by norm_num)) (Nat.mod_lt _ (by norm_num))
  have e : bswap32 (bswap32 v) = bswap32 v % 256 * 2 ^ 24 + bswap32 v / 2 ^ 8 % 256 * 2 ^ 16 +
      bswap32 v / 2 ^ 16 % 256 * 2 ^ 8 + bswap32 v / 2 ^ 24 % 256 := rfl
  have d : bswap32 v = v % 256 * 2 ^ 24 + v / 2 ^ 8 % 256 * 2 ^ 16 + v / 2 ^ 16 % 256 * 2 ^ 8 +
      v / 2 ^ 24 % 256 := rfl
  rw [e, d, e0, e1, e2, e3]
  clear e d e0 e1 e2 e3
  omega

/-- A byte swap yields a 32-bit value. -/
theorem bswap32_lt (v : Nat) : bswap32 v < 2 ^ 32 := by
  unfold bswap32
  omega

/-! ## Steps of the bring-up -/

/-- The readiness poll entered with `loop = n` issues at most `n + 1` polls and only
polls, and leaves the loop with `loop > 0` only if one of the first `n` polls
returned `0x2`. -/
theorem poll_spec {σ : Type} (h : Host σ) (n : Nat) (w : World σ) :
    ∃ evs, (sdio_init_poll h n w).2.2.log = w.log ++ evs ∧
      (sdio_init_poll h n w).2.2.g_sdio = w.g_sdio ∧
      (sdio_init_poll h n w).2.2.chip = w.chip ∧
      (∀ e ∈ evs, e.is_ior_poll = true) ∧ evs.length ≤ n + 1 ∧
      ((sdio_init_poll h n w).1 = 0 → 0 < (sdio_init_poll h n w).2.1 →
        ∃ e ∈ evs.take n, e.data = 2) := by
  induction n generalizing w with
  | zero =>
    unfold sdio_init_poll
    simp only []
    have hl := cmd52_log h w { read_write := 0, function := 0, raw := 0, address := 0x3, data := 0 }
    have hf := cmd52_frame h w { read_write := 0, function := 0, raw := 0, address := 0x3, data := 0 }
    generalize wilc_sdio_cmd52 h w _ = r at hl hf ⊢
    refine ⟨[Txn.cmd52 { read_write := 0, function := 0, raw := 0, address := 0x3, data := 0 }
      r.1 r.2.1.data], ?_, ?_, ?_, ?_, ?_, ?_⟩
    · split_ifs <;> exact hl
    · split_ifs <;> exact hf.1
    · split_ifs <;> exact hf.2
    · simp [Txn.is_ior_poll]
    · simp
    · split_ifs with h1 h2 <;> simp_all
  | succ k ih =>
    unfold sdio_init_poll
    simp only []
    have hl := cmd52_log h w { read_write := 0, function := 0, raw := 0, address := 0x3, data := 0 }
    have hf := cmd52_frame h w { read_write := 0, function := 0, raw := 0, address := 0x3, data := 0 }
    generalize wilc_sdio_cmd52 h w _ = r at hl hf ⊢
    by_cases h1 : r.1 = 0
    · by_cases h2 : r.2.1.data = 2
      · simp only [h1, h2, ne_eq, not_true_eq_false, if_false, if_true]
        refine ⟨[Txn.cmd52 { read_write := 0, function := 0, raw := 0, address := 0x3, data := 0 }
          r.1 r.2.1.data], hl, hf.1, hf.2, ?_, ?_, ?_⟩
        · simp [Txn.is_ior_poll]
        · simp
        · intro _ _
          exact ⟨Txn.cmd52 { read_write := 0, function := 0, raw := 0, address := 0x3, data := 0 }
            r.1 r.2.1.data, by simp, h2⟩
      · simp only [h1, h2, ne_eq, not_true_eq_false, if_false]
        obtain ⟨evs, e1, e2, e3, e4, e5, e6⟩ := ih r.2.2
        refine ⟨Txn.cmd52 { read_write := 0, function := 0, raw := 0, address := 0x3, data := 0 }
          r.1 r.2.1.data :: evs, ?_, e2.trans hf.1, e3.trans hf.2, ?_, ?_, ?_⟩
        · rw [e1, hl]; simp
        · intro e he
          rcases List.mem_cons.mp he with rfl | he
          · simp [Txn.is_ior_poll]
          · exact e4 e he
        · simp; omega
        · intro a b
          obtain ⟨e, he, hd⟩ := e6 a b
          exact ⟨e, by simp [List.take_succ_cons, he], hd⟩
    · simp only [h1, ne_eq, not_false_eq_true, if_true]
      refine ⟨[Txn.cmd52 { read_write := 0, function := 0, raw := 0, address := 0x3, data := 0 }
        r.1 r.2.1.data], hl, hf.1, hf.2, ?_, ?_, ?_⟩
      · simp [Txn.is_ior_poll]
      · simp
      · intro a; exact a.elim

/-- The `sdio_set_func0_block_size` appends writes only and leaves `g_sdio` alone. -/
theorem blk0_spec {σ : Type} (h : Host σ) (w : World σ) (bs : Nat) :
    ∃ evs, (sdio_set_func0_block_size h w bs).2.log = w.log ++ evs ∧
      (sdio_set_func0_block_size h w bs).2.g_sdio = w.g_sdio ∧
      (sdio_set_func0_block_size h w bs).2.chip = w.chip ∧
      (∀ e ∈ evs, e.is_ior_poll = false) := by
  unfold sdio_set_func0_block_size
  simp only [wilc_sdio_cmd52]
  simp
  split_ifs <;> simp [Txn.is_ior_poll]

/-- The `sdio_set_func1_block_size` appends writes only and leaves `g_sdio` alone. -/
theorem blk1_spec {σ : Type} (h : Host σ) (w : World σ) (bs : Nat) :
    ∃ evs, (sdio_set_func1_block_size h w bs).2.log = w.log ++ evs ∧
      (sdio_set_func1_block_size h w bs).2.g_sdio = w.g_sdio ∧
      (sdio_set_func1_block_size h w bs).2.chip = w.chip ∧
      (∀ e ∈ evs, e.is_ior_poll = false) := by
  unfold sdio_set_func1_block_size
  simp only [wilc_sdio_cmd52]
  simp
  split_ifs <;> simp [Txn.is_ior_poll]

/-- A ready poll among the first 3 of a block of polls that follows poll-free
transactions is among the first 3 polls of the whole record. -/
theorem poll_found {pre evs post : List Txn} (hpre : ∀ e ∈ pre, e.is_ior_poll = false)
    (hevs : ∀ e ∈ evs, e.is_ior_poll = true) (hex : ∃ e ∈ evs.take 3, e.data = 2) :
    ∃ e ∈ ((pre ++ (evs ++ post)).filter Txn.is_ior_poll).take 3, e.data = 2 := by
  obtain ⟨e, he, hd⟩ := hex
  refine ⟨e, ?_, hd⟩
  have h1 : pre.filter Txn.is_ior_poll = [] := by
    rw [List.filter_eq_nil_iff]
    intro a ha
    simp [hpre a ha]
  have h2 : evs.filter Txn.is_ior_poll = evs := by
    rw [List.filter_eq_self]
    exact hevs
  rw [List.filter_append, List.filter_append, h1, h2, List.nil_append,
    List.take_append_eq_append_take]
  exact List.mem_append_left _ he

/-- The `sdio_init` only appends to the record of bus commands. -/
theorem init_log_extends {σ : Type} (h : Host σ) (ci : ChipIdent σ) (w : World σ) (resume : Bool) :
    (sdio_init h ci w resume).2.log = w.log ++ issued w (sdio_init h ci w resume).2 := by
  suffices hx : ∃ evs, (sdio_init h ci w resume).2.log = w.log ++ evs by
    obtain ⟨evs, hl⟩ := hx
    rw [issued_of_log hl]
    exact hl
  unfold sdio_init
  simp only []
  have l1 := cmd52_log h { w with g_sdio := { w.g_sdio with irq_gpio := w.io_type_gpio_irq } }
    { read_write := 1, function := 0, raw := 1, address := 0x100, data := 0x80 }
  generalize wilc_sdio_cmd52 h { w with g_sdio := { w.g_sdio with irq_gpio := w.io_type_gpio_irq } }
    { read_write := 1, function := 0, raw := 1, address := 0x100, data := 0x80 } = r1 at l1 ⊢
  replace l1 : ∃ evs, r1.2.2.log = w.log ++ evs := ⟨_, l1⟩
  by_cases h1 : r1.1 = 0
  swap
  · simp only [h1, ne_eq, not_false_eq_true, if_true]
    exact l1
  simp only [h1, ne_eq, not_true_eq_false, if_false]
  obtain ⟨ev1, l1⟩ := l1
  obtain ⟨ev2, l2, -⟩ := blk0_spec h r1.2.2 WILC_SDIO_BLOCK_SIZE
  generalize sdio_set_func0_block_size h r1.2.2 WILC_SDIO_BLOCK_SIZE = r2 at l2 ⊢
  replace l2 : r2.2.log = w.log ++ (ev1 ++ ev2) := by rw [l2, l1, List.append_assoc]
  by_cases h2 : r2.1 = 0
  · simp only [h2, if_true]
    exact ⟨_, l2⟩
  simp only [h2, if_false]
  have l3 := cmd52_log h
    { r2.2 with g_sdio := { r2.2.g_sdio with block_size := WILC_SDIO_BLOCK_SIZE } }
    { read_write := 1, function := 0, raw := 1, address := 0x2, data := 0x2 }
  generalize wilc_sdio_cmd52 h
    { r2.2 with g_sdio := { r2.2.g_sdio with block_size := WILC_SDIO_BLOCK_SIZE } }
    { read_write := 1, function := 0, raw := 1, address := 0x2, data := 0x2 } = r3 at l3 ⊢
  replace l3 : ∃ evs, r3.2.2.log = w.log ++ evs :=
    ⟨(ev1 ++ ev2) ++ _, by rw [l3]; simp only [l2, List.append_assoc]; rfl⟩
  by_cases h3 : r3.1 = 0
  swap
  · simp only [h3, ne_eq, not_false_eq_true, if_true]
    exact l3
  simp only [h3, ne_eq, not_true_eq_false, if_false]
  obtain ⟨ev3, l3⟩ := l3
  obtain ⟨ev4, l4, -⟩ := poll_spec h 3 r3.2.2
  generalize sdio_init_poll h 3 r3.2.2 = r4 at l4 ⊢
  replace l4 : r4.2.2.log = w.log ++ (ev3 ++ ev4) := by rw [l4, l3, List.append_assoc]
  by_cases h4 : r4.1 = 0
  swap
  · simp only [h4, ne_eq, not_false_eq_true, if_true]
    exact ⟨_, l4⟩
  simp only [h4, ne_eq, not_true_eq_false, if_false]
  by_cases h4b : r4.2.1 ≤ 0
  · simp only [h4b, if_true]
    exact ⟨_, l4⟩
  simp only [h4b, if_false]
  obtain ⟨ev5, l5, -⟩ := blk1_spec h r4.2.2 WILC_SDIO_BLOCK_SIZE
  generalize sdio_set_func1_block_size h r4.2.2 WILC_SDIO_BLOCK_SIZE = r5 at l5 ⊢
  replace l5 : r5.2.log = w.log ++ (ev3 ++ ev4 ++ ev5) := by
    rw [l5, l4]; simp only [List.append_assoc]
  by_cases h5 : r5.1 = 0
  · simp only [h5, if_true]
    exact ⟨_, l5⟩
  simp only [h5, if_false]
  have l6 := cmd52_log h r5.2
    { read_write := 1, function := 0, raw := 1, address := 0x4, data := 0x3 }
  generalize wilc_sdio_cmd52 h r5.2
    { read_write := 1, function := 0, raw := 1, address := 0x4, data := 0x3 } = r6 at l6 ⊢
  replace l6 : ∃ evs, r6.2.2.log = w.log ++ evs :=
    ⟨(ev3 ++ ev4 ++ ev5) ++ _, by rw [l6, l5]; simp only [List.append_assoc]; rfl⟩
  obtain ⟨ev6, l6⟩ := l6
  by_cases h6 : r6.1 = 0
  swap
  · simp only [h6, ne_eq, not_false_eq_true, if_true]
    exact ⟨_, l6⟩
  simp only [h6, ne_eq, not_true_eq_false, if_false]
  split_ifs
  · exact ⟨ev6 ++ (ci.wilc_get_chipid h r6.2.2).2.2, by simp only [l6, List.append_assoc]⟩
  · exact ⟨ev6 ++ (ci.wilc_get_chipid h r6.2.2).2.2, by simp only [l6, List.append_assoc]⟩
  · exact ⟨ev6 ++ (ci.wilc_get_chipid h r6.2.2).2.2, by simp only [l6, List.append_assoc]⟩
  · exact ⟨_, l6⟩

/-- A call of `sdio_init` none of whose first 3 readiness polls returned `0x2` fails
and leaves `is_init` as it was. -/
theorem init_poll_core {σ : Type} (h : Host σ) (ci : ChipIdent σ) (w : World σ)
    (resume : Bool)
    (hpoll : ∀ e ∈ ((issued w (sdio_init h ci w resume).2).filter Txn.is_ior_poll).take 3,
      e.data ≠ 2) :
    (sdio_init h ci w resume).1 = 0 ∧
    (sdio_init h ci w resume).2.g_sdio.is_init = w.g_sdio.is_init := by
  revert hpoll
  unfold sdio_init
  simp only []
  -- step 1: CSA enable
  have l1 := cmd52_log h { w with g_sdio := { w.g_sdio with irq_gpio := w.io_type_gpio_irq } }
    { read_write := 1, function := 0, raw := 1, address := 0x100, data := 0x80 }
  have f1 := (cmd52_frame h { w with g_sdio := { w.g_sdio with irq_gpio := w.io_type_gpio_irq } }
    { read_write := 1, function := 0, raw := 1, address := 0x100, data := 0x80 }).1
  generalize wilc_sdio_cmd52 h { w with g_sdio := { w.g_sdio with irq_gpio := w.io_type_gpio_irq } }
    { read_write := 1, function := 0, raw := 1, address := 0x100, data := 0x80 } = r1 at l1 f1 ⊢
  by_cases h1 : r1.1 = 0
  swap
  · simp [h1, f1]
  simp only [h1, ne_eq, not_true_eq_false, if_false]
  -- step 2: function 0 block size
  obtain ⟨ev2, l2, f2, -, p2⟩ := blk0_spec h r1.2.2 WILC_SDIO_BLOCK_SIZE
  generalize sdio_set_func0_block_size h r1.2.2 WILC_SDIO_BLOCK_SIZE = r2 at l2 f2 ⊢
  by_cases h2 : r2.1 = 0
  · simp [h2, f2, f1]
  simp only [h2, if_false]
  -- step 3: IOE
  have l3 := cmd52_log h
    { r2.2 with g_sdio := { r2.2.g_sdio with block_size := WILC_SDIO_BLOCK_SIZE } }
    { read_write := 1, function := 0, raw := 1, address := 0x2, data := 0x2 }
  have f3 := (cmd52_frame h
    { r2.2 with g_sdio := { r2.2.g_sdio with block_size := WILC_SDIO_BLOCK_SIZE } }
    { read_write := 1, function := 0, raw := 1, address := 0x2, data := 0x2 }).1
  generalize wilc_sdio_cmd52 h
    { r2.2 with g_sdio := { r2.2.g_sdio with block_size := WILC_SDIO_BLOCK_SIZE } }
    { read_write := 1, function := 0, raw := 1, address := 0x2, data := 0x2 } = r3 at l3 f3 ⊢
  by_cases h3 : r3.1 = 0
  swap
  · simp [h3, f3, f2, f1]
  simp only [h3, ne_eq, not_true_eq_false, if_false]
  -- step 4: readiness poll
  obtain ⟨ev4, l4, f4, -, p4, -, q4⟩ := poll_spec h 3 r3.2.2
  generalize sdio_init_poll h 3 r3.2.2 = r4 at l4 f4 q4 ⊢
  by_cases h4 : r4.1 = 0
  swap
  · simp [h4, f4, f3, f2, f1]
  simp only [h4, ne_eq, not_true_eq_false, if_false]
  by_cases h4b : r4.2.1 ≤ 0
  · simp [h4b, f4, f3, f2, f1]
  simp only [h4b, if_false]
  have hfound := q4 h4 (by omega)
  -- step 5: function 1 block size
  obtain ⟨ev5, l5, f5, -, -⟩ := blk1_spec h r4.2.2 WILC_SDIO_BLOCK_SIZE
  generalize sdio_set_func1_block_size h r4.2.2 WILC_SDIO_BLOCK_SIZE = r5 at l5 f5 ⊢
  by_cases h5 : r5.1 = 0
  · simp [h5, f5, f4, f3, f2, f1]
  simp only [h5, if_false]
  -- step 6: IEN
  have l6 := cmd52_log h r5.2
    { read_write := 1, function := 0, raw := 1, address := 0x4, data := 0x3 }
  have f6 := (cmd52_frame h r5.2
    { read_write := 1, function := 0, raw := 1, address := 0x4, data := 0x3 }).1
  generalize wilc_sdio_cmd52 h r5.2
    { read_write := 1, function := 0, raw := 1, address := 0x4, data := 0x3 } = r6 at l6 f6 ⊢
  by_cases h6 : r6.1 = 0
  swap
  · simp [h6, f6, f5, f4, f3, f2, f1]
  simp only [h6, ne_eq, not_true_eq_false, if_false]
  -- the record up to here
  have hpre : ∀ e ∈
      Txn.cmd52 { read_write := 1, function := 0, raw := 1, address := 0x100, data := 0x80 }
          r1.1 r1.2.1.data ::
        (ev2 ++ [Txn.cmd52 { read_write := 1, function := 0, raw := 1, address := 0x2, data := 0x2 }
          r3.1 r3.2.1.data]),
      e.is_ior_poll = false := by
    intro e he
    simp only [List.mem_cons, List.mem_append, List.mem_singleton, List.not_mem_nil,
      or_false] at he
    rcases he with rfl | he | rfl
    · rfl
    · exact p2 e he
    · rfl
  have hlog : ∀ post : List Txn, r6.2.2.log ++ post = w.log ++
      ((Txn.cmd52 { read_write := 1, function := 0, raw := 1, address := 0x100, data := 0x80 }
          r1.1 r1.2.1.data ::
        (ev2 ++ [Txn.cmd52 { read_write := 1, function := 0, raw := 1, address := 0x2, data := 0x2 }
          r3.1 r3.2.1.data])) ++
      (ev4 ++ (ev5 ++
        Txn.cmd52 { read_write := 1, function := 0, raw := 1, address := 0x4, data := 0x3 }
          r6.1 r6.2.1.data :: post))) := by
    intro post
    rw [l6, l5, l4, l3, l2, l1]
    simp
  have hbad : ∀ (wf : World σ) (post : List Txn), wf.log = r6.2.2.log ++ post →
      (∀ e ∈ ((issued w wf).filter Txn.is_ior_poll).take 3, e.data ≠ 2) → False := by
    intro wf post hwf hp
    rw [issued_of_log (hwf.trans (hlog post))] at hp
    obtain ⟨e, he, hd⟩ := poll_found hpre p4 hfound
    exact hp e he hd
  by_cases hres : resume = false
  · simp only [hres, if_true]
    split_ifs
    · intro hp
      exact (hbad _ ((ci.wilc_get_chipid h r6.2.2).2.2) rfl hp).elim
    · intro hp
      exact (hbad _ ((ci.wilc_get_chipid h r6.2.2).2.2) rfl hp).elim
    · intro _
      simp [f6, f5, f4, f3, f2, f1]
  · simp only [hres, if_false]
    intro hp
    exact (hbad _ [] (by simp) hp).elim

/-! ## Register transport: the reserved range -/

/-- C1: for every address in `[0xF0, 0xFF]`, `sdio_write_reg` and `sdio_read_reg`
each issue exactly one bus transaction, a single-register access on function 0
at that address in the matching direction; that transaction is no write to a
window-base register and no block transaction. -/
theorem reg_access_direct {σ : Type} (h : Host σ) (w : World σ) (addr data data0 : Nat)
    (hlo : 0xF0 ≤ addr) (hhi : addr ≤ 0xFF) :
    (∃ ret d, (sdio_write_reg h w addr data).2.log = w.log ++
        [Txn.cmd52 { read_write := 1, function := 0, raw := 0, address := addr,
                     data := cpu_to_le32 h.big_endian data % 256 } ret d] ∧
      (Txn.cmd52 { read_write := 1, function := 0, raw := 0, address := addr,
                   data := cpu_to_le32 h.big_endian data % 256 } ret d).is_window_write = false) ∧
    (∃ ret d, (sdio_read_reg h w addr data0).2.2.log = w.log ++
        [Txn.cmd52 { read_write := 0, function := 0, raw := 0, address := addr,
                     data := 0 } ret d] ∧
      (Txn.cmd52 { read_write := 0, function := 0, raw := 0, address := addr,
                   data := 0 } ret d).is_window_write = false) := by
  have hw : ¬ (0x10c ≤ addr) := by omega
  constructor
  · simp only [sdio_write_reg, hlo, hhi, and_self, if_true, wilc_sdio_cmd52]
    simp [Txn.is_window_write, hw]
    split_ifs <;> simp
  · simp only [sdio_read_reg, hlo, hhi, and_self, if_true, wilc_sdio_cmd52]
    simp [Txn.is_window_write]
    split_ifs <;> simp

/-- Instance of `reg_access_direct`: write and read of register `0xf2` on the
storing chip. -/
theorem reg_access_direct_witness :
    (0xF0 ≤ 0xF2 ∧ 0xF2 ≤ 0xFF) ∧
    ((∃ ret d, (sdio_write_reg (storing_host false) (World.ready Chip.zero) 0xF2 0x1234).2.log =
        (World.ready Chip.zero).log ++
        [Txn.cmd52 { read_write := 1, function := 0, raw := 0, address := 0xF2,
                     data := cpu_to_le32 (storing_host false).big_endian 0x1234 % 256 } ret d] ∧
      (Txn.cmd52 { read_write := 1, function := 0, raw := 0, address := 0xF2,
                   data := cpu_to_le32 (storing_host false).big_endian 0x1234 % 256 }
        ret d).is_window_write = false) ∧
    (∃ ret d, (sdio_read_reg (storing_host false) (World.ready Chip.zero) 0xF2 0).2.2.log =
        (World.ready Chip.zero).log ++
        [Txn.cmd52 { read_write := 0, function := 0, raw := 0, address := 0xF2,
                     data := 0 } ret d] ∧
      (Txn.cmd52 { read_write := 0, function := 0, raw := 0, address := 0xF2,
                   data := 0 } ret d).is_window_write = false)) :=
  ⟨by decide, reg_access_direct (storing_host false) (World.ready Chip.zero) 0xF2 0x1234 0
    (by decide) (by decide)⟩

/-! ## Register transport: windowed access -/

/-- C2: for every address outside `[0xF0, 0xFF]`, when every transaction of the
call succeeds, `sdio_write_reg` and `sdio_read_reg` issue exactly: the three
window writes of bits 7..0, 15..8, 23..16 of the address to `0x10c`, `0x10d`,
`0x10e`, in that order, then one byte-mode, auto-increment cmd53 of count 4 on
function 0 at `0x10f` in the requested direction; and they return 1. -/
theorem reg_access_windowed {σ : Type} (h : Host σ) (w : World σ) (addr data data0 : Nat)
    (hout : addr < 0xF0 ∨ 0xFF < addr) :
    ((sdio_write_reg h w addr data).2.log = w.log ++ issued w (sdio_write_reg h w addr data).2 ∧
      ((∀ e ∈ issued w (sdio_write_reg h w addr data).2, e.ret = 0) →
        (issued w (sdio_write_reg h w addr data).2).map Txn.cmd =
          [Cmd.c52 { read_write := 1, function := 0, raw := 0, address := 0x10c,
                     data := addr % 256 },
           Cmd.c52 { read_write := 1, function := 0, raw := 0, address := 0x10d,
                     data := addr / 2 ^ 8 % 256 },
           Cmd.c52 { read_write := 1, function := 0, raw := 0, address := 0x10e,
                     data := addr / 2 ^ 16 % 256 },
           Cmd.c53 { read_write := 1, function := 0, address := 0x10f, block_mode := 0,
                     increment := 1, count := 4, block_size := w.g_sdio.block_size }] ∧
        (sdio_write_reg h w addr data).1 = 1)) ∧
    ((sdio_read_reg h w addr data0).2.2.log =
        w.log ++ issued w (sdio_read_reg h w addr data0).2.2 ∧
      ((∀ e ∈ issued w (sdio_read_reg h w addr data0).2.2, e.ret = 0) →
        (issued w (sdio_read_reg h w addr data0).2.2).map Txn.cmd =
          [Cmd.c52 { read_write := 1, function := 0, raw := 0, address := 0x10c,
                     data := addr % 256 },
           Cmd.c52 { read_write := 1, function := 0, raw := 0, address := 0x10d,
                     data := addr / 2 ^ 8 % 256 },
           Cmd.c52 { read_write := 1, function := 0, raw := 0, address := 0x10e,
                     data := addr / 2 ^ 16 % 256 },
           Cmd.c53 { read_write := 0, function := 0, address := 0x10f, block_mode := 0,
                     increment := 1, count := 4, block_size := w.g_sdio.block_size }] ∧
        (sdio_read_reg h w addr data0).1 = 1)) := by
  have hout2 : ¬ (0xf0 ≤ addr ∧ addr ≤ 0xff) := by omega
  constructor
  · obtain ⟨evs, hl, hr⟩ := write_reg_runs h w addr data hout2
    rw [issued_of_log hl]
    exact ⟨hl, fun hok => by simpa [window_cmds] using runs_complete hr hok⟩
  · obtain ⟨evs, hl, hr⟩ := read_reg_runs h w addr data0 hout2
    rw [issued_of_log hl]
    exact ⟨hl, fun hok => by simpa [window_cmds] using runs_complete hr hok⟩

/-- Instance of `reg_access_windowed` on the storing chip: `read_reg(0x0000)`
programs the window `{0, 0, 0}` and issues a 4-byte read at port `0x10f`;
`write_reg(0x0000, 0x1234)` likewise in the write direction. -/
theorem reg_access_windowed_witness :
    (issued (World.ready Chip.zero)
        (sdio_read_reg (storing_host false) (World.ready Chip.zero) 0 0).2.2).map Txn.cmd =
      [Cmd.c52 { read_write := 1, function := 0, raw := 0, address := 0x10c, data := 0 },
       Cmd.c52 { read_write := 1, function := 0, raw := 0, address := 0x10d, data := 0 },
       Cmd.c52 { read_write := 1, function := 0, raw := 0, address := 0x10e, data := 0 },
       Cmd.c53 { read_write := 0, function := 0, address := 0x10f, block_mode := 0,
                 increment := 1, count := 4, block_size := 512 }] ∧
    (issued (World.ready Chip.zero)
        (sdio_write_reg (storing_host false) (World.ready Chip.zero) 0 0x1234).2).map Txn.cmd =
      [Cmd.c52 { read_write := 1, function := 0, raw := 0, address := 0x10c, data := 0 },
       Cmd.c52 { read_write := 1, function := 0, raw := 0, address := 0x10d, data := 0 },
       Cmd.c52 { read_write := 1, function := 0, raw := 0, address := 0x10e, data := 0 },
       Cmd.c53 { read_write := 1, function := 0, address := 0x10f, block_mode := 0,
                 increment := 1, count := 4, block_size := 512 }] :=
  ⟨((reg_access_windowed (storing_host false) (World.ready Chip.zero) 0 0x1234 0
      (Or.inl (by decide))).2.2 (by decide)).1,
   ((reg_access_windowed (storing_host false) (World.ready Chip.zero) 0 0x1234 0
      (Or.inl (by decide))).1.2 (by decide)).1⟩

/-! ## Block transport -/

/-- C3 (as amended): for a non-zero block size `S` and a size `N` whose block count
`N' / S` and remainder `N' % S` fit a C `int`, where `N'` is the 32-bit rounded
size `align_size N`, and with every transaction of the call succeeding, the
block (cmd53) commands of `sdio_write` / `sdio_read` are: one block-mode command
of `N' / S` blocks of `S` bytes when `N' / S > 0`, then one byte-mode command of
`N' % S` bytes when `N' % S > 0`; and the call returns 1. -/
theorem chunking {σ : Type} (h : Host σ) (w : World σ) (addr : Nat) (buf : Nat → Nat) (N : Nat)
    (hS : w.g_sdio.block_size ≠ 0)
    (hblk : align_size N / w.g_sdio.block_size < 2 ^ 31)
    (hrem : align_size N % w.g_sdio.block_size < 2 ^ 31) :
    (∃ r w1, sdio_write h w addr buf N = some (r, w1) ∧ w1.log = w.log ++ issued w w1 ∧
      ((∀ e ∈ issued w w1, e.ret = 0) →
        r = 1 ∧ cmd53_of ((issued w w1).map Txn.cmd) =
          (if align_size N / w.g_sdio.block_size > 0 then
            [{ read_write := 1, function := if addr > 0 then 0 else 1,
               address := if addr > 0 then 0x10f else 0, block_mode := 1, increment := 1,
               count := align_size N / w.g_sdio.block_size,
               block_size := w.g_sdio.block_size }]
           else []) ++
          (if align_size N % w.g_sdio.block_size > 0 then
            [{ read_write := 1, function := if addr > 0 then 0 else 1,
               address := if addr > 0 then 0x10f else 0, block_mode := 0, increment := 1,
               count := align_size N % w.g_sdio.block_size,
               block_size := w.g_sdio.block_size }]
           else []))) ∧
    (∃ r b w1, sdio_read h w addr buf N = some (r, b, w1) ∧ w1.log = w.log ++ issued w w1 ∧
      ((∀ e ∈ issued w w1, e.ret = 0) →
        r = 1 ∧ cmd53_of ((issued w w1).map Txn.cmd) =
          (if align_size N / w.g_sdio.block_size > 0 then
            [{ read_write := 0, function := if addr > 0 then 0 else 1,
               address := if addr > 0 then 0x10f else 0, block_mode := 1, increment := 1,
               count := align_size N / w.g_sdio.block_size,
               block_size := w.g_sdio.block_size }]
           else []) ++
          (if align_size N % w.g_sdio.block_size > 0 then
            [{ read_write := 0, function := if addr > 0 then 0 else 1,
               address := if addr > 0 then 0x10f else 0, block_mode := 0, increment := 1,
               count := align_size N % w.g_sdio.block_size,
               block_size := w.g_sdio.block_size }]
           else []))) := by
  constructor
  · obtain ⟨r, w1, hw, evs, hl, hr, -⟩ := sdio_write_runs h w addr buf N hS
    refine ⟨r, w1, hw, ?_, ?_⟩
    · rw [issued_of_log hl]; exact hl
    · rw [issued_of_log hl]
      intro hok
      obtain ⟨hm, h1⟩ := runs_complete hr hok
      refine ⟨h1, ?_⟩
      rw [hm, chunk_plan_eq _ _ _ _ hblk hrem]
      split_ifs <;> simp [cmd53_of_append, cmd53_of_window, cmd53_of]
  · obtain ⟨r, b, w1, hw, evs, hl, hr, -⟩ := sdio_read_runs h w addr buf N hS
    refine ⟨r, b, w1, hw, ?_, ?_⟩
    · rw [issued_of_log hl]; exact hl
    · rw [issued_of_log hl]
      intro hok
      obtain ⟨hm, h1⟩ := runs_complete hr hok
      refine ⟨h1, ?_⟩
      rw [hm, chunk_plan_eq _ _ _ _ hblk hrem]
      split_ifs <;> simp [cmd53_of_append, cmd53_of_window, cmd53_of]

/-- Instance of `chunking` on the storing chip: `write_block(0, buf, 1030)` with
block size 512 moves 1032 bytes as one block-mode command of 2 blocks and one
byte-mode command of 8 bytes. -/
theorem chunking_witness :
    ((World.ready Chip.zero).g_sdio.block_size ≠ 0 ∧
      align_size 1030 / (World.ready Chip.zero).g_sdio.block_size < 2 ^ 31 ∧
      align_size 1030 % (World.ready Chip.zero).g_sdio.block_size < 2 ^ 31) ∧
    ∃ r w1, sdio_write (storing_host false) (World.ready Chip.zero) 0 (fun _ => 0) 1030
        = some (r, w1) ∧ r = 1 ∧
      cmd53_of ((issued (World.ready Chip.zero) w1).map Txn.cmd) =
        [{ read_write := 1, function := 1, address := 0, block_mode := 1, increment := 1,
           count := 2, block_size := 512 },
         { read_write := 1, function := 1, address := 0, block_mode := 0, increment := 1,
           count := 8, block_size := 512 }] := by
  refine ⟨by decide, ?_⟩
  obtain ⟨r, w1, hw, -, himp⟩ := (chunking (storing_host false) (World.ready Chip.zero) 0
    (fun _ => 0) 1030 (by decide) (by decide) (by decide)).1
  have hev : (sdio_write (storing_host false) (World.ready Chip.zero) 0 (fun _ => 0) 1030).map
      (fun p => (issued (World.ready Chip.zero) p.2).map Txn.ret) = some [0, 0] := by decide
  rw [hw] at hev
  simp only [Option.map_some', Option.some.injEq] at hev
  have hok : ∀ e ∈ issued (World.ready Chip.zero) w1, e.ret = 0 := by
    intro e he
    have hm := List.mem_map_of_mem Txn.ret he
    rw [hev] at hm
    simpa using hm
  obtain ⟨h1, h2⟩ := himp hok
  refine ⟨r, w1, hw, h1, ?_⟩
  rw [h2]
  decide

/-- Counterexamples to C3 as stated.  With block size 512 and `N = 0xFFFFFFFF` the
size rounded up to a multiple of 4 is `2^32`, that is 8388608 blocks, but the
call succeeds without any block command.  With block size 1 and `N = 2^31` the
claim has `2^31` one-byte blocks, but the call succeeds without any block
command. -/
theorem chunking_counterexample :
    (sdio_write (storing_host false) (World.ready Chip.zero) 0 (fun _ => 0) 0xFFFFFFFF).map
        (fun p => (p.1, cmd53_of ((issued (World.ready Chip.zero) p.2).map Txn.cmd)))
      = some (1, []) ∧
    round_up4 0xFFFFFFFF / 512 = 8388608 ∧
    (sdio_write (storing_host false)
        { World.ready Chip.zero with
          g_sdio := { irq_gpio := false, block_size := 1, nint := 0, is_init := true } }
        0 (fun _ => 0) (2 ^ 31)).map
        (fun p => (p.1, cmd53_of ((issued
          { World.ready Chip.zero with
            g_sdio := { irq_gpio := false, block_size := 1, nint := 0, is_init := true } }
          p.2).map Txn.cmd)))
      = some (1, []) ∧
    round_up4 (2 ^ 31) / 1 = 2 ^ 31 := by
  refine ⟨by decide, by decide, by decide, by decide⟩

/-- C4: for address 0 and every size and buffer, `sdio_write` and `sdio_read` issue no
window write, and every transaction they issue is a block command on function 1
at address 0 (with block size 0 the call stops at the division, before any bus
command).  With block size 512 and every transaction succeeding,
`write_block(0, buf, 1000)` issues exactly one block-mode command of 1 block of
512 bytes and then one byte-mode command of 488 bytes. -/
theorem data_path_zero {σ : Type} (h : Host σ) (w : World σ) (buf : Nat → Nat) (N : Nat) :
    (w.g_sdio.block_size = 0 → sdio_write h w 0 buf N = none ∧ sdio_read h w 0 buf N = none) ∧
    (w.g_sdio.block_size ≠ 0 →
      (∃ r w1, sdio_write h w 0 buf N = some (r, w1) ∧ w1.log = w.log ++ issued w w1 ∧
        ∀ e ∈ issued w w1, e.is_window_write = false ∧
          ∃ c ret, e = Txn.cmd53 c ret ∧ c.function = 1 ∧ c.address = 0 ∧ c.read_write = 1) ∧
      (∃ r b w1, sdio_read h w 0 buf N = some (r, b, w1) ∧ w1.log = w.log ++ issued w w1 ∧
        ∀ e ∈ issued w w1, e.is_window_write = false ∧
          ∃ c ret, e = Txn.cmd53 c ret ∧ c.function = 1 ∧ c.address = 0 ∧ c.read_write = 0)) ∧
    (w.g_sdio.block_size = 512 →
      ∃ r w1, sdio_write h w 0 buf 1000 = some (r, w1) ∧
        ((∀ e ∈ issued w w1, e.ret = 0) →
          r = 1 ∧ (issued w w1).map Txn.cmd =
            [Cmd.c53 { read_write := 1, function := 1, address := 0, block_mode := 1,
                       increment := 1, count := 1, block_size := 512 },
             Cmd.c53 { read_write := 1, function := 1, address := 0, block_mode := 0,
                       increment := 1, count := 488, block_size := 512 }])) := by
  have key : ∀ (rw : Nat) (r : Int) (evs : List Txn),
      runs (chunk_plan rw 0 w.g_sdio.block_size N) r evs = true →
      ∀ e ∈ evs, e.is_window_write = false ∧
        ∃ c ret, e = Txn.cmd53 c ret ∧ c.function = 1 ∧ c.address = 0 ∧ c.read_write = rw := by
    intro rw r evs hr e he
    obtain ⟨c5, hc, h1, h2, h3⟩ := plan_zero_mem (runs_mem hr e he)
    cases e with
    | cmd52 c ret d => simp [Txn.cmd] at hc
    | cmd53 c ret =>
      simp only [Txn.cmd, Cmd.c53.injEq] at hc
      subst hc
      exact ⟨rfl, c, ret, rfl, h1, h2, h3⟩
  refine ⟨fun hS => ⟨sdio_write_none h w 0 buf N hS, sdio_read_none h w 0 buf N hS⟩,
    fun hS => ⟨?_, ?_⟩, fun h512 => ?_⟩
  · obtain ⟨r, w1, hw, evs, hl, hr, -⟩ := sdio_write_runs h w 0 buf N hS
    refine ⟨r, w1, hw, ?_, ?_⟩
    · rw [issued_of_log hl]; exact hl
    · rw [issued_of_log hl]; exact key 1 r evs hr
  · obtain ⟨r, b, w1, hw, evs, hl, hr, -⟩ := sdio_read_runs h w 0 buf N hS
    refine ⟨r, b, w1, hw, ?_, ?_⟩
    · rw [issued_of_log hl]; exact hl
    · rw [issued_of_log hl]; exact key 0 r evs hr
  · obtain ⟨r, w1, hw, evs, hl, hr, -⟩ := sdio_write_runs h w 0 buf 1000 (by rw [h512]; decide)
    refine ⟨r, w1, hw, ?_⟩
    rw [issued_of_log hl]
    intro hok
    obtain ⟨hm, h1⟩ := runs_complete hr hok
    refine ⟨h1, ?_⟩
    rw [hm, h512]
    decide

/-- Instance of `data_path_zero` on the storing chip after bring-up:
`write_block(0, buf, 1000)` with block size 512. -/
theorem data_path_zero_witness :
    (World.ready Chip.zero).g_sdio.block_size = 512 ∧
    ∃ r w1, sdio_write (storing_host false) (World.ready Chip.zero) 0 (fun _ => 0) 1000
        = some (r, w1) ∧ r = 1 ∧
      (issued (World.ready Chip.zero) w1).map Txn.cmd =
        [Cmd.c53 { read_write := 1, function := 1, address := 0, block_mode := 1,
                   increment := 1, count := 1, block_size := 512 },
         Cmd.c53 { read_write := 1, function := 1, address := 0, block_mode := 0,
                   increment := 1, count := 488, block_size := 512 }] := by
  refine ⟨rfl, ?_⟩
  obtain ⟨r, w1, hw, himp⟩ := (data_path_zero (storing_host false) (World.ready Chip.zero)
    (fun _ => 0) 1000).2.2 rfl
  have hev : (sdio_write (storing_host false) (World.ready Chip.zero) 0 (fun _ => 0) 1000).map
      (fun p => (issued (World.ready Chip.zero) p.2).map Txn.ret) = some [0, 0] := by decide
  rw [hw] at hev
  simp only [Option.map_some', Option.some.injEq] at hev
  have hok : ∀ e ∈ issued (World.ready Chip.zero) w1, e.ret = 0 := by
    intro e he
    have hm := List.mem_map_of_mem Txn.ret he
    rw [hev] at hm
    simpa using hm
  exact ⟨r, w1, hw, himp hok⟩

/-- C5 (as amended): for a non-zero address, a non-zero block size `S` and a size `N`
whose block count `N' / S` and remainder `N' % S` fit a C `int` (`N'` the 32-bit
rounded size) and whose advanced address `addr + (N' / S) * S` is not 0 modulo
`2^32`, with every transaction of the call succeeding, `sdio_write` / `sdio_read`
issue on function 0 at port `0x10f`: the three window writes of `addr` and the
block-mode command when `N' / S > 0`, then the three window writes of
`addr + (N' / S) * S` and the byte-mode command when `N' % S > 0`. -/
theorem windowed_chunks {σ : Type} (h : Host σ) (w : World σ) (addr : Nat) (buf : Nat → Nat)
    (N : Nat) (hS : w.g_sdio.block_size ≠ 0) (ha : 0 < addr)
    (hblk : align_size N / w.g_sdio.block_size < 2 ^ 31)
    (hrem : align_size N % w.g_sdio.block_size < 2 ^ 31)
    (hwrap : (addr + align_size N / w.g_sdio.block_size * w.g_sdio.block_size) % 2 ^ 32 ≠ 0) :
    (∃ r w1, sdio_write h w addr buf N = some (r, w1) ∧ w1.log = w.log ++ issued w w1 ∧
      ((∀ e ∈ issued w w1, e.ret = 0) →
        r = 1 ∧ (issued w w1).map Txn.cmd =
          (if align_size N / w.g_sdio.block_size > 0 then
            window_cmds addr ++
            [Cmd.c53 { read_write := 1, function := 0, address := 0x10f, block_mode := 1,
                       increment := 1, count := align_size N / w.g_sdio.block_size,
                       block_size := w.g_sdio.block_size }]
           else []) ++
          (if align_size N % w.g_sdio.block_size > 0 then
            window_cmds (addr + align_size N / w.g_sdio.block_size * w.g_sdio.block_size) ++
            [Cmd.c53 { read_write := 1, function := 0, address := 0x10f, block_mode := 0,
                       increment := 1, count := align_size N % w.g_sdio.block_size,
                       block_size := w.g_sdio.block_size }]
           else []))) ∧
    (∃ r b w1, sdio_read h w addr buf N = some (r, b, w1) ∧ w1.log = w.log ++ issued w w1 ∧
      ((∀ e ∈ issued w w1, e.ret = 0) →
        r = 1 ∧ (issued w w1).map Txn.cmd =
          (if align_size N / w.g_sdio.block_size > 0 then
            window_cmds addr ++
            [Cmd.c53 { read_write := 0, function := 0, address := 0x10f, block_mode := 1,
                       increment := 1, count := align_size N / w.g_sdio.block_size,
                       block_size := w.g_sdio.block_size }]
           else []) ++
          (if align_size N % w.g_sdio.block_size > 0 then
            window_cmds (addr + align_size N / w.g_sdio.block_size * w.g_sdio.block_size) ++
            [Cmd.c53 { read_write := 0, function := 0, address := 0x10f, block_mode := 0,
                       increment := 1, count := align_size N % w.g_sdio.block_size,
                       block_size := w.g_sdio.block_size }]
           else []))) := by
  have hplan : ∀ rw : Nat, chunk_plan rw addr w.g_sdio.block_size N =
      (if align_size N / w.g_sdio.block_size > 0 then
        window_cmds addr ++
        [Cmd.c53 { read_write := rw, function := 0, address := 0x10f, block_mode := 1,
                   increment := 1, count := align_size N / w.g_sdio.block_size,
                   block_size := w.g_sdio.block_size }]
       else []) ++
      (if align_size N % w.g_sdio.block_size > 0 then
        window_cmds (addr + align_size N / w.g_sdio.block_size * w.g_sdio.block_size) ++
        [Cmd.c53 { read_write := rw, function := 0, address := 0x10f, block_mode := 0,
                   increment := 1, count := align_size N % w.g_sdio.block_size,
                   block_size := w.g_sdio.block_size }]
       else []) := by
    intro rw
    rw [chunk_plan_eq _ _ _ _ hblk hrem]
    have hw2 : 0 < (addr + align_size N / w.g_sdio.block_size * w.g_sdio.block_size) % 2 ^ 32 :=
      Nat.pos_of_ne_zero hwrap
    have ha2 : addr > 0 := ha
    simp only [ha2, and_true, if_true]
    by_cases hb : align_size N / w.g_sdio.block_size > 0
    · simp only [hb, if_true, hw2, gt_iff_lt]
    · simp only [hb, if_false, ha2, if_true]
  constructor
  · obtain ⟨r, w1, hw, evs, hl, hr, -⟩ := sdio_write_runs h w addr buf N hS
    refine ⟨r, w1, hw, ?_, ?_⟩
    · rw [issued_of_log hl]; exact hl
    · rw [issued_of_log hl]
      intro hok
      obtain ⟨hm, h1⟩ := runs_complete hr hok
      exact ⟨h1, by rw [hm, hplan]⟩
  · obtain ⟨r, b, w1, hw, evs, hl, hr, -⟩ := sdio_read_runs h w addr buf N hS
    refine ⟨r, b, w1, hw, ?_, ?_⟩
    · rw [issued_of_log hl]; exact hl
    · rw [issued_of_log hl]
      intro hok
      obtain ⟨hm, h1⟩ := runs_complete hr hok
      exact ⟨h1, by rw [hm, hplan]⟩

/-- Instance of `windowed_chunks` on the storing chip: `write_block(0x1000, buf, 1000)`
with block size 512 programs the window `{0x00, 0x10, 0x00}`, issues the
block-mode command, programs the window `{0x00, 0x12, 0x00}` and issues the
byte-mode command of 488 bytes. -/
theorem windowed_chunks_witness :
    ((World.ready Chip.zero).g_sdio.block_size ≠ 0 ∧ 0 < 0x1000 ∧
      align_size 1000 / (World.ready Chip.zero).g_sdio.block_size < 2 ^ 31 ∧
      align_size 1000 % (World.ready Chip.zero).g_sdio.block_size < 2 ^ 31 ∧
      (0x1000 + align_size 1000 / (World.ready Chip.zero).g_sdio.block_size *
        (World.ready Chip.zero).g_sdio.block_size) % 2 ^ 32 ≠ 0) ∧
    ∃ r w1, sdio_write (storing_host false) (World.ready Chip.zero) 0x1000 (fun _ => 0) 1000
        = some (r, w1) ∧ r = 1 ∧
      (issued (World.ready Chip.zero) w1).map Txn.cmd =
        [Cmd.c52 { read_write := 1, function := 0, raw := 0, address := 0x10c, data := 0x00 },
         Cmd.c52 { read_write := 1, function := 0, raw := 0, address := 0x10d, data := 0x10 },
         Cmd.c52 { read_write := 1, function := 0, raw := 0, address := 0x10e, data := 0x00 },
         Cmd.c53 { read_write := 1, function := 0, address := 0x10f, block_mode := 1,
                   increment := 1, count := 1, block_size := 512 },
         Cmd.c52 { read_write := 1, function := 0, raw := 0, address := 0x10c, data := 0x00 },
         Cmd.c52 { read_write := 1, function := 0, raw := 0, address := 0x10d, data := 0x12 },
         Cmd.c52 { read_write := 1, function := 0, raw := 0, address := 0x10e, data := 0x00 },
         Cmd.c53 { read_write := 1, function := 0, address := 0x10f, block_mode := 0,
                   increment := 1, count := 488, block_size := 512 }] := by
  refine ⟨by decide, ?_⟩
  obtain ⟨r, w1, hw, -, himp⟩ := (windowed_chunks (storing_host false) (World.ready Chip.zero)
    0x1000 (fun _ => 0) 1000 (by decide) (by decide) (by decide) (by decide) (by decide)).1
  have hev : (sdio_write (storing_host false) (World.ready Chip.zero) 0x1000 (fun _ => 0)
      1000).map (fun p => (issued (World.ready Chip.zero) p.2).map Txn.ret)
      = some [0, 0, 0, 0, 0, 0, 0, 0] := by decide
  rw [hw] at hev
  simp only [Option.map_some', Option.some.injEq] at hev
  have hok : ∀ e ∈ issued (World.ready Chip.zero) w1, e.ret = 0 := by
    intro e he
    have hm := List.mem_map_of_mem Txn.ret he
    rw [hev] at hm
    simpa using hm
  obtain ⟨h1, h2⟩ := himp hok
  refine ⟨r, w1, hw, h1, ?_⟩
  rw [h2]
  decide

/-- Counterexample to C5 as stated: for the non-zero address `0xFFFFFE00`, block
size 512 and size 516, every transaction succeeds, the address advanced by the
512 bytes of the block-mode chunk wraps to 0, and the byte-mode remainder is
issued at port `0x10f` directly after the block-mode command, without any
window write before it. -/
theorem windowed_chunks_counterexample :
    (sdio_write (storing_host false) (World.ready Chip.zero) 0xFFFFFE00 (fun _ => 0) 516).map
        (fun p => (p.1, (issued (World.ready Chip.zero) p.2).map Txn.ret,
          (issued (World.ready Chip.zero) p.2).map Txn.cmd))
      = some (1, [0, 0, 0, 0, 0],
         [Cmd.c52 { read_write := 1, function := 0, raw := 0, address := 0x10c, data := 0x00 },
          Cmd.c52 { read_write := 1, function := 0, raw := 0, address := 0x10d, data := 0xFE },
          Cmd.c52 { read_write := 1, function := 0, raw := 0, address := 0x10e, data := 0xFF },
          Cmd.c53 { read_write := 1, function := 0, address := 0x10f, block_mode := 1,
                    increment := 1, count := 1, block_size := 512 },
          Cmd.c53 { read_write := 1, function := 0, address := 0x10f, block_mode := 0,
                    increment := 1, count := 4, block_size := 512 }]) := by
  decide

/-- C6 (as amended): the effective size `N'` of `sdio_read` / `sdio_write` for a
32-bit size `N` is a multiple of 4 below `2^32`, and for `N ≤ 2^32 - 4` it is `N`
rounded up to a 4-byte boundary: `N ≤ N'` and `N' - N < 4`. -/
theorem effective_size (N : Nat) (hN : N < 2 ^ 32) :
    align_size N % 4 = 0 ∧ align_size N < 2 ^ 32 ∧
    (N ≤ 2 ^ 32 - 4 → N ≤ align_size N ∧ align_size N - N < 4 ∧ align_size N = round_up4 N) := by
  rw [align_size_eq]
  unfold round_up4
  split_ifs with h4 <;> omega

/-- Instance of `effective_size` at `N = 1001`. -/
theorem effective_size_witness :
    1001 < 2 ^ 32 ∧ 1001 ≤ 2 ^ 32 - 4 ∧
    (1001 ≤ align_size 1001 ∧ align_size 1001 - 1001 < 4 ∧ align_size 1001 = round_up4 1001) :=
  ⟨by decide, by decide, (effective_size 1001 (by decide)).2.2 (by decide)⟩

/-- Counterexample to C6 as stated: for the 32-bit size `0xFFFFFFFF` the effective
size is 0, which is below the size. -/
theorem effective_size_counterexample :
    (0xFFFFFFFF : Nat) < 2 ^ 32 ∧ align_size 0xFFFFFFFF = 0 ∧
    ¬ (0xFFFFFFFF ≤ align_size 0xFFFFFFFF) := by
  decide

/-! ## Round trip on the storing chip -/

/-- C7 (as amended): on the chip that stores what is written, for every address and
every 32-bit value `v`, `sdio_write_reg` followed by `sdio_read_reg` of the same
address succeeds; outside `[0xF0, 0xFF]` the read returns `v` (on either host
endianness); inside `[0xF0, 0xFF]` the single-register access carries one byte
and on a little-endian host the read returns `v % 256`. -/
theorem reg_round_trip (be : Bool) (w : World Chip) (addr v d0 : Nat) (hv : v < 2 ^ 32) :
    (sdio_write_reg (storing_host be) w addr v).1 = 1 ∧
    (sdio_read_reg (storing_host be) (sdio_write_reg (storing_host be) w addr v).2 addr d0).1
      = 1 ∧
    ((addr < 0xF0 ∨ 0xFF < addr) →
      (sdio_read_reg (storing_host be) (sdio_write_reg (storing_host be) w addr v).2
        addr d0).2.1 = v) ∧
    ((0xF0 ≤ addr ∧ addr ≤ 0xFF) → be = false →
      (sdio_read_reg (storing_host be) (sdio_write_reg (storing_host be) w addr v).2
        addr d0).2.1 = v % 256) := by
  by_cases hin : 0xf0 ≤ addr ∧ addr ≤ 0xff
  · have hno : ¬ (addr < 0xF0 ∨ 0xFF < addr) := by omega
    simp only [sdio_write_reg, sdio_read_reg, hin, and_self, if_true, wilc_sdio_cmd52, storing_host,
      hno, false_implies, true_and]
    simp
    intro hbe
    subst hbe
    simp [cpu_to_le32]
  · have hout : addr < 0xF0 ∨ 0xFF < addr := by omega
    simp only [sdio_write_reg, sdio_read_reg, hin, if_false, hout, true_implies, false_implies,
      and_true, sdio_set_func0_csa_address, wilc_sdio_cmd52, wilc_sdio_cmd53, storing_host]
    simp only [Chip.window]
    simp
    have h4 : to_int32 4 = 4 := by decide
    rw [h4]
    cases be
    · simp [cpu_to_le32, bytes_u32, u32_bytes]
      omega
    · have hb := bswap32_bswap32 v hv
      have hlt := bswap32_lt v
      simp only [cpu_to_le32, bytes_u32, u32_bytes, if_true]
      norm_num
      have hy : bswap32 v / 16777216 % 256 * 16777216 + bswap32 v / 65536 % 256 * 65536 +
          bswap32 v / 256 % 256 * 256 + bswap32 v % 256 = bswap32 v := by
        generalize bswap32 v = y at hlt
        omega
      rw [hy, hb]

/-- Instance of `reg_round_trip`: `0xDEADBEEF` written to and read back from `0x1000`
on a little-endian host. -/
theorem reg_round_trip_witness :
    (0xDEADBEEF : Nat) < 2 ^ 32 ∧ ((0x1000 : Nat) < 0xF0 ∨ 0xFF < (0x1000 : Nat)) ∧
    (sdio_read_reg (storing_host false)
      (sdio_write_reg (storing_host false) (World.ready Chip.zero) 0x1000 0xDEADBEEF).2
      0x1000 0).2.1 = 0xDEADBEEF :=
  ⟨by decide, by decide,
    (reg_round_trip false (World.ready Chip.zero) 0x1000 0xDEADBEEF 0 (by decide)).2.2.1
      (by decide)⟩

/-- Counterexample to C7 as stated: the 32-bit value `0x100` written to register
`0xF0` and read back, both successfully, comes back as `0`. -/
theorem reg_round_trip_counterexample :
    (sdio_write_reg (storing_host false) (World.ready Chip.zero) 0xF0 0x100).1 = 1 ∧
    (sdio_read_reg (storing_host false)
      (sdio_write_reg (storing_host false) (World.ready Chip.zero) 0xF0 0x100).2 0xF0 0).1 = 1 ∧
    (sdio_read_reg (storing_host false)
      (sdio_write_reg (storing_host false) (World.ready Chip.zero) 0xF0 0x100).2 0xF0 0).2.1 = 0 ∧
    (0 : Nat) ≠ 0x100 := by
  decide

/-! ## Failure of a chunk or of the window programming -/

/-- C8: in `sdio_write` / `sdio_read` the commands are issued in the order block-mode
chunk (after its window programming), byte-mode remainder (after its window
programming), and a failing transaction ends the operation: nothing is issued
after it and the result is 0.  So a failure in the block-mode chunk leaves the
remainder unattempted; and when the result is 0, the record ends with the
failing transaction while the transactions before it, which succeeded, stay
done. -/
theorem chunk_failure_aborts {σ : Type} (h : Host σ) (w : World σ) (addr : Nat)
    (buf : Nat → Nat) (N : Nat) (hS : w.g_sdio.block_size ≠ 0) :
    (∃ r w1, sdio_write h w addr buf N = some (r, w1) ∧ w1.log = w.log ++ issued w w1 ∧
      (issued w w1).map Txn.cmd <+: chunk_plan 1 addr w.g_sdio.block_size N ∧
      (∀ pre e post, issued w w1 = pre ++ e :: post → e.ret ≠ 0 → post = [] ∧ r = 0) ∧
      (r = 1 ∨ r = 0) ∧
      (r = 0 → ∃ pre e, issued w w1 = pre ++ [e] ∧ e.ret ≠ 0 ∧ ∀ x ∈ pre, x.ret = 0)) ∧
    (∃ r b w1, sdio_read h w addr buf N = some (r, b, w1) ∧ w1.log = w.log ++ issued w w1 ∧
      (issued w w1).map Txn.cmd <+: chunk_plan 0 addr w.g_sdio.block_size N ∧
      (∀ pre e post, issued w w1 = pre ++ e :: post → e.ret ≠ 0 → post = [] ∧ r = 0) ∧
      (r = 1 ∨ r = 0) ∧
      (r = 0 → ∃ pre e, issued w w1 = pre ++ [e] ∧ e.ret ≠ 0 ∧ ∀ x ∈ pre, x.ret = 0)) := by
  constructor
  · obtain ⟨r, w1, hw, evs, hl, hr, -⟩ := sdio_write_runs h w addr buf N hS
    refine ⟨r, w1, hw, ?_, ?_, ?_, runs_result hr, ?_⟩
    · rw [issued_of_log hl]; exact hl
    · rw [issued_of_log hl]; exact runs_initial hr
    · rw [issued_of_log hl]; exact runs_fail_stop hr
    · rw [issued_of_log hl]; intro h0; subst h0; exact runs_fail_shape hr
  · obtain ⟨r, b, w1, hw, evs, hl, hr, -⟩ := sdio_read_runs h w addr buf N hS
    refine ⟨r, b, w1, hw, ?_, ?_, ?_, runs_result hr, ?_⟩
    · rw [issued_of_log hl]; exact hl
    · rw [issued_of_log hl]; exact runs_initial hr
    · rw [issued_of_log hl]; exact runs_fail_stop hr
    · rw [issued_of_log hl]; intro h0; subst h0; exact runs_fail_shape hr

/-- Instance of `chunk_failure_aborts` on a host whose second transaction fails:
`write_block(0, buf, 1000)` with block size 512 returns 0 after the block-mode
command succeeded and the byte-mode command failed. -/
theorem chunk_failure_aborts_witness :
    (World.ready (1 : Nat)).g_sdio.block_size ≠ 0 ∧
    ∃ r w1, sdio_write failing_host (World.ready 1) 0 (fun _ => 0) 1000 = some (r, w1) ∧
      r = 0 ∧ (issued (World.ready 1) w1).map Txn.ret = [0, -5] := by
  refine ⟨by decide, ?_⟩
  obtain ⟨r, w1, hw, -, -, hstop, -, -⟩ := (chunk_failure_aborts failing_host (World.ready 1) 0
    (fun _ => 0) 1000 (by decide)).1
  have hev : (sdio_write failing_host (World.ready 1) 0 (fun _ => 0) 1000).map
      (fun p => issued (World.ready 1) p.2) =
      some ([Txn.cmd53 { read_write := 1, function := 1, address := 0, block_mode := 1,
                         increment := 1, count := 1, block_size := 512 } 0] ++
        Txn.cmd53 { read_write := 1, function := 1, address := 0, block_mode := 0,
                    increment := 1, count := 488, block_size := 512 } (-5) :: []) := by decide
  rw [hw] at hev
  simp only [Option.map_some', Option.some.injEq] at hev
  exact ⟨r, w1, hw, (hstop _ _ _ hev (by decide)).2, by rw [hev]; decide⟩

/-- C9: `sdio_set_func0_csa_address` issues the window writes to `0x10c`, `0x10d`,
`0x10e` in order, returns 1 exactly when all three were issued and succeeded,
and stops at the first failing write with result 0.  In each caller
(`sdio_write_reg`, `sdio_read_reg`, `sdio_write`, `sdio_read`) a failing window
write is the last transaction of the call, so the data command is not issued,
and the caller returns 0. -/
theorem window_failure {σ : Type} (h : Host σ) (w : World σ) (adr addr data data0 : Nat)
    (buf : Nat → Nat) (N : Nat) :
    ((sdio_set_func0_csa_address h w adr).2.log =
        w.log ++ issued w (sdio_set_func0_csa_address h w adr).2 ∧
      (issued w (sdio_set_func0_csa_address h w adr).2).map Txn.cmd <+: window_cmds adr ∧
      ((sdio_set_func0_csa_address h w adr).1 = 1 ↔
        ((issued w (sdio_set_func0_csa_address h w adr).2).map Txn.cmd = window_cmds adr ∧
          ∀ e ∈ issued w (sdio_set_func0_csa_address h w adr).2, e.ret = 0)) ∧
      ((sdio_set_func0_csa_address h w adr).1 = 1 ∨ (sdio_set_func0_csa_address h w adr).1 = 0) ∧
      (∀ pre e post, issued w (sdio_set_func0_csa_address h w adr).2 = pre ++ e :: post →
        e.ret ≠ 0 → post = [] ∧ (sdio_set_func0_csa_address h w adr).1 = 0)) ∧
    (∀ pre e post, issued w (sdio_write_reg h w addr data).2 = pre ++ e :: post →
      e.is_window_write = true → e.ret ≠ 0 →
      post = [] ∧ (sdio_write_reg h w addr data).1 = 0) ∧
    (∀ pre e post, issued w (sdio_read_reg h w addr data0).2.2 = pre ++ e :: post →
      e.is_window_write = true → e.ret ≠ 0 →
      post = [] ∧ (sdio_read_reg h w addr data0).1 = 0) ∧
    (∀ r w1, sdio_write h w addr buf N = some (r, w1) →
      ∀ pre e post, issued w w1 = pre ++ e :: post →
      e.is_window_write = true → e.ret ≠ 0 → post = [] ∧ r = 0) ∧
    (∀ r b w1, sdio_read h w addr buf N = some (r, b, w1) →
      ∀ pre e post, issued w w1 = pre ++ e :: post →
      e.is_window_write = true → e.ret ≠ 0 → post = [] ∧ r = 0) := by
  refine ⟨?_, ?_, ?_, ?_, ?_⟩
  · obtain ⟨evs, hl, hr, -⟩ := csa_runs h w adr
    rw [issued_of_log hl]
    refine ⟨hl, runs_initial hr, ⟨fun h1 => ?_, fun h2 => (runs_complete hr h2.2).2⟩,
      runs_result hr, runs_fail_stop hr⟩
    rw [h1] at hr
    exact ⟨(runs_all_ok hr).2, (runs_all_ok hr).1⟩
  · obtain ⟨plan, evs, hl, hr⟩ := write_reg_some_runs h w addr data
    rw [issued_of_log hl]
    exact fun pre e post he _ hne => runs_fail_stop hr pre e post he hne
  · obtain ⟨plan, evs, hl, hr⟩ := read_reg_some_runs h w addr data0
    rw [issued_of_log hl]
    exact fun pre e post he _ hne => runs_fail_stop hr pre e post he hne
  · intro r w1 hw
    by_cases hS : w.g_sdio.block_size = 0
    · rw [sdio_write_none h w addr buf N hS] at hw
      exact absurd hw (by simp)
    · obtain ⟨r2, w2, hw2, evs, hl, hr, -⟩ := sdio_write_runs h w addr buf N hS
      rw [hw2] at hw
      simp only [Option.some.injEq, Prod.mk.injEq] at hw
      obtain ⟨rfl, rfl⟩ := hw
      rw [issued_of_log hl]
      exact fun pre e post he _ hne => runs_fail_stop hr pre e post he hne
  · intro r b w1 hw
    by_cases hS : w.g_sdio.block_size = 0
    · rw [sdio_read_none h w addr buf N hS] at hw
      exact absurd hw (by simp)
    · obtain ⟨r2, b2, w2, hw2, evs, hl, hr, -⟩ := sdio_read_runs h w addr buf N hS
      rw [hw2] at hw
      simp only [Option.some.injEq, Prod.mk.injEq] at hw
      obtain ⟨rfl, rfl, rfl⟩ := hw
      rw [issued_of_log hl]
      exact fun pre e post he _ hne => runs_fail_stop hr pre e post he hne

/-- Instance of `window_failure` on a host whose second transaction fails:
`sdio_read_reg` at `0x1000` issues the write to `0x10c`, then the failing write
to `0x10d`, nothing after it, and returns 0. -/
theorem window_failure_witness :
    issued (World.ready 1) (sdio_read_reg failing_host (World.ready 1) 0x1000 0).2.2 =
      [Txn.cmd52 { read_write := 1, function := 0, raw := 0, address := 0x10c, data := 0 } 0 0] ++
        Txn.cmd52 { read_write := 1, function := 0, raw := 0, address := 0x10d, data := 0x10 }
          (-5) 0x10 :: [] ∧
    (sdio_read_reg failing_host (World.ready 1) 0x1000 0).1 = 0 :=
  ⟨by decide,
    ((window_failure failing_host (World.ready 1) 0x1000 0x1000 0 0 (fun _ => 0) 0).2.2.1
      [Txn.cmd52 { read_write := 1, function := 0, raw := 0, address := 0x10c, data := 0 } 0 0]
      (Txn.cmd52 { read_write := 1, function := 0, raw := 0, address := 0x10d, data := 0x10 }
        (-5) 0x10)
      [] (by decide) (by decide) (by decide)).2⟩

/-! ## Bring-up: the readiness poll -/

/-- C10: if none of the first 3 readiness polls (reads of function-0 register `0x3`)
issued by a call of `sdio_init` returned `0x2`, the call returns 0 and leaves
`is_init` as it was; this holds for every bus behaviour, in particular when
every transaction succeeds. -/
theorem init_poll_timeout {σ : Type} (h : Host σ) (ci : ChipIdent σ) (w : World σ)
    (resume : Bool)
    (hpoll : ∀ e ∈ ((issued w (sdio_init h ci w resume).2).filter Txn.is_ior_poll).take 3,
      e.data ≠ 2) :
    (sdio_init h ci w resume).2.log = w.log ++ issued w (sdio_init h ci w resume).2 ∧
    (sdio_init h ci w resume).1 = 0 ∧
    (sdio_init h ci w resume).2.g_sdio.is_init = w.g_sdio.is_init :=
  ⟨init_log_extends h ci w resume, init_poll_core h ci w resume hpoll⟩

/-- Instance of `init_poll_timeout` on the storing chip, whose register `0x3` reads 0:
every transaction succeeds, four polls are issued, none returns `0x2`, and
`sdio_init` returns 0 with `is_init` still false. -/
theorem init_poll_timeout_witness :
    ((issued (World.fresh Chip.zero)
        (sdio_init (storing_host false) (ChipIdent.const 0 false true) (World.fresh Chip.zero)
          false).2).map (fun e => (e.is_ior_poll, e.ret, e.data))
      = [(false, 0, 0x80), (false, 0, 0), (false, 0, 2), (false, 0, 2),
         (true, 0, 0), (true, 0, 0), (true, 0, 0), (true, 0, 0)]) ∧
    (sdio_init (storing_host false) (ChipIdent.const 0 false true) (World.fresh Chip.zero)
      false).1 = 0 ∧
    (sdio_init (storing_host false) (ChipIdent.const 0 false true) (World.fresh Chip.zero)
      false).2.g_sdio.is_init = false :=
  ⟨by decide,
    (init_poll_timeout (storing_host false) (ChipIdent.const 0 false true)
      (World.fresh Chip.zero) false (by decide)).2⟩

/-! ## Bring-up: the readiness poll as a run -/

/-- The readiness poll loop of `sdio_init` is a poll run: its record, error code and
counter are related as `poll_run` says, and it leaves `g_sdio` and the chip
variant alone. -/
theorem poll_run_spec {σ : Type} (h : Host σ) (n : Nat) (w : World σ) :
    ∃ evs, (sdio_init_poll h n w).2.2.log = w.log ++ evs ∧
      (sdio_init_poll h n w).2.2.g_sdio = w.g_sdio ∧
      (sdio_init_poll h n w).2.2.chip = w.chip ∧
      poll_run n (sdio_init_poll h n w).1 (sdio_init_poll h n w).2.1 evs = true := by
  induction n generalizing w with
  | zero =>
    unfold sdio_init_poll
    simp only []
    have hl := cmd52_log h w { read_write := 0, function := 0, raw := 0, address := 0x3, data := 0 }
    have hf := cmd52_frame h w { read_write := 0, function := 0, raw := 0, address := 0x3, data := 0 }
    generalize wilc_sdio_cmd52 h w _ = r at hl hf ⊢
    refine ⟨[Txn.cmd52 { read_write := 0, function := 0, raw := 0, address := 0x3, data := 0 }
      r.1 r.2.1.data], ?_, ?_, ?_, ?_⟩
    · split_ifs <;> exact hl
    · split_ifs <;> exact hf.1
    · split_ifs <;> exact hf.2
    · split_ifs with h1 h2 <;> simp_all [poll_run, Txn.cmd, Txn.ret, Txn.data, poll_cmd]
  | succ k ih =>
    unfold sdio_init_poll
    simp only []
    have hl := cmd52_log h w { read_write := 0, function := 0, raw := 0, address := 0x3, data := 0 }
    have hf := cmd52_frame h w { read_write := 0, function := 0, raw := 0, address := 0x3, data := 0 }
    generalize wilc_sdio_cmd52 h w _ = r at hl hf ⊢
    by_cases h1 : r.1 = 0
    · simp only [h1, ne_eq, not_true_eq_false, if_false]
      by_cases h2 : r.2.1.data = 2
      · simp only [h2, if_true]
        refine ⟨[Txn.cmd52 { read_write := 0, function := 0, raw := 0, address := 0x3, data := 0 }
          r.1 r.2.1.data], hl, hf.1, hf.2, ?_⟩
        simp [poll_run, Txn.cmd, Txn.ret, Txn.data, poll_cmd, h1, h2]
      · simp only [h2, if_false]
        obtain ⟨evs, e1, e2, e3, e4⟩ := ih r.2.2
        refine ⟨Txn.cmd52 { read_write := 0, function := 0, raw := 0, address := 0x3, data := 0 }
          r.1 r.2.1.data :: evs, ?_, e2.trans hf.1, e3.trans hf.2, ?_⟩
        · rw [e1, hl]; simp
        · simp [poll_run, Txn.cmd, Txn.ret, Txn.data, poll_cmd, h1, h2, e4]
    · simp only [h1, ne_eq, not_false_eq_true, if_true]
      refine ⟨[Txn.cmd52 { read_write := 0, function := 0, raw := 0, address := 0x3, data := 0 }
        r.1 r.2.1.data], hl, hf.1, hf.2, ?_⟩
      simp [poll_run, Txn.cmd, Txn.ret, Txn.data, poll_cmd, h1]

/-- Every transaction of a poll run is a readiness poll. -/
theorem poll_run_polls {n : Nat} {ret loop : Int} {evs : List Txn} :
    poll_run n ret loop evs = true → ∀ e ∈ evs, e.cmd = Cmd.c52 poll_cmd := by
  induction evs generalizing n with
  | nil => intro _ e he; cases he
  | cons a es ih =>
    intro hr e he
    unfold poll_run at hr
    simp only [Bool.and_eq_true, beq_iff_eq] at hr
    rcases List.mem_cons.mp he with rfl | he
    · exact hr.1
    · have h2 := hr.2
      split_ifs at h2 with h1 h3
      · simp only [Bool.and_eq_true, List.isEmpty_iff] at h2
        rw [h2.1.1] at he; cases he
      · simp only [Bool.and_eq_true, List.isEmpty_iff] at h2
        rw [h2.1.1] at he; cases he
      · cases n with
        | zero =>
          simp only [Bool.and_eq_true, List.isEmpty_iff] at h2
          rw [h2.1.1] at he; cases he
        | succ k => exact ih h2 e he

/-- A poll run is a fail-stop run of as many polls as it issued: with result 0 when
its error code is non-zero, with result 1 otherwise. -/
theorem poll_run_runs {n : Nat} {ret loop : Int} {evs : List Txn} :
    poll_run n ret loop evs = true →
      runs (List.replicate evs.length (Cmd.c52 poll_cmd)) (if ret ≠ 0 then 0 else 1) evs = true := by
  induction evs generalizing n with
  | nil => intro hr; simp [poll_run] at hr
  | cons a es ih =>
    intro hr
    unfold poll_run at hr
    simp only [Bool.and_eq_true, beq_iff_eq] at hr
    obtain ⟨hc, h2⟩ := hr
    split_ifs at h2 with h1 h3
    · simp only [Bool.and_eq_true, List.isEmpty_iff, beq_iff_eq] at h2
      obtain ⟨⟨rfl, hret⟩, -⟩ := h2
      have : ret ≠ 0 := by rw [hret]; exact h1
      simp [runs, hc, h1, this, List.replicate]
    · simp only [Bool.and_eq_true, List.isEmpty_iff, beq_iff_eq] at h2
      obtain ⟨⟨rfl, hret⟩, -⟩ := h2
      have h1' : a.ret = 0 := not_not.mp h1
      simp [runs, hc, h1', hret, List.replicate]
    · have h1' : a.ret = 0 := not_not.mp h1
      cases n with
      | zero =>
        simp only [Bool.and_eq_true, List.isEmpty_iff, beq_iff_eq] at h2
        obtain ⟨⟨rfl, hret⟩, -⟩ := h2
        simp [runs, hc, h1', hret, List.replicate]
      | succ k =>
        have := ih h2
        simp only [List.length_cons, List.replicate_succ, runs, hc, h1', if_true, beq_self_eq_true,
          Bool.true_and]
        exact this

/-- A poll run that ends without error and with a positive counter issued at most `n`
polls, every one but the last read something else than `0x2`, and the last
read `0x2`. -/
theorem poll_run_ready {n : Nat} {loop : Int} {evs : List Txn} :
    poll_run n 0 loop evs = true → 0 < loop →
      evs.length ≤ n ∧ ∃ pre e, evs = pre ++ [e] ∧ e.data = 2 ∧ ∀ x ∈ pre, x.data ≠ 2 := by
  induction evs generalizing n with
  | nil => intro hr; simp [poll_run] at hr
  | cons a es ih =>
    intro hr hl
    unfold poll_run at hr
    simp only [Bool.and_eq_true, beq_iff_eq] at hr
    obtain ⟨-, h2⟩ := hr
    split_ifs at h2 with h1 h3
    · simp only [Bool.and_eq_true, List.isEmpty_iff, beq_iff_eq] at h2
      exact absurd h2.1.2.symm h1
    · simp only [Bool.and_eq_true, List.isEmpty_iff, beq_iff_eq] at h2
      obtain ⟨⟨rfl, -⟩, hloop⟩ := h2
      refine ⟨?_, [], a, rfl, h3, fun x hx => by cases hx⟩
      simp only [List.length_singleton]
      omega
    · cases n with
      | zero =>
        simp only [Bool.and_eq_true, List.isEmpty_iff, beq_iff_eq] at h2
        omega
      | succ k =>
        obtain ⟨hlen, pre, e, rfl, hd, hpre⟩ := ih h2 hl
        refine ⟨by simp only [List.length_cons]; omega, a :: pre, e, rfl, hd, ?_⟩
        intro x hx
        rcases List.mem_cons.mp hx with rfl | hx
        · exact h3
        · exact hpre x hx

/-- A poll run that ends without error and with a counter that is not positive issued
`n + 1` polls, and none of the first `n` read `0x2`. -/
theorem poll_run_exhausted {n : Nat} {loop : Int} {evs : List Txn} :
    poll_run n 0 loop evs = true → loop ≤ 0 →
      evs.length = n + 1 ∧ ∀ x ∈ evs.take n, x.data ≠ 2 := by
  induction evs generalizing n with
  | nil => intro hr; simp [poll_run] at hr
  | cons a es ih =>
    intro hr hl
    unfold poll_run at hr
    simp only [Bool.and_eq_true, beq_iff_eq] at hr
    obtain ⟨-, h2⟩ := hr
    split_ifs at h2 with h1 h3
    · simp only [Bool.and_eq_true, List.isEmpty_iff, beq_iff_eq] at h2
      exact absurd h2.1.2.symm h1
    · simp only [Bool.and_eq_true, List.isEmpty_iff, beq_iff_eq] at h2
      obtain ⟨⟨rfl, -⟩, hloop⟩ := h2
      have hn : n = 0 := by omega
      subst hn
      exact ⟨rfl, fun x hx => by simp at hx⟩
    · cases n with
      | zero =>
        simp only [Bool.and_eq_true, List.isEmpty_iff, beq_iff_eq] at h2
        obtain ⟨⟨rfl, -⟩, -⟩ := h2
        exact ⟨rfl, fun x hx => by simp at hx⟩
      | succ k =>
        obtain ⟨hlen, hpre⟩ := ih h2 hl
        refine ⟨by simp only [List.length_cons]; omega, ?_⟩
        intro x hx
        rw [List.take_succ_cons] at hx
        rcases List.mem_cons.mp hx with rfl | hx
        · exact h3
        · exact hpre x hx

/-- A poll run whose first poll succeeded and read `0x2` issued that poll only. -/
theorem poll_run_first {n : Nat} {ret loop : Int} {e : Txn} {es : List Txn} :
    poll_run n ret loop (e :: es) = true → e.ret = 0 → e.data = 2 → es = [] := by
  intro hr h1 h2
  unfold poll_run at hr
  simp only [Bool.and_eq_true, beq_iff_eq, h1, h2, ne_eq, not_true_eq_false, if_false,
    if_true, List.isEmpty_iff] at hr
  exact hr.2.1.1


/-- The `sdio_set_func0_block_size` for the block size 512 is a run of its two writes. -/
theorem blk0_runs {σ : Type} (h : Host σ) (w : World σ) :
    ∃ evs, (sdio_set_func0_block_size h w WILC_SDIO_BLOCK_SIZE).2.log = w.log ++ evs ∧
      runs
        [Cmd.c52 { read_write := 1, function := 0, raw := 0, address := 0x10, data := 0x00 },
         Cmd.c52 { read_write := 1, function := 0, raw := 0, address := 0x11, data := 0x02 }]
        (sdio_set_func0_block_size h w WILC_SDIO_BLOCK_SIZE).1 evs = true ∧
      (sdio_set_func0_block_size h w WILC_SDIO_BLOCK_SIZE).2.g_sdio = w.g_sdio ∧
      (sdio_set_func0_block_size h w WILC_SDIO_BLOCK_SIZE).2.chip = w.chip := by
  unfold sdio_set_func0_block_size
  simp only [wilc_sdio_cmd52]
  simp
  split_ifs <;> simp_all [runs, Txn.cmd, Txn.ret, WILC_SDIO_BLOCK_SIZE]

/-- The `sdio_set_func1_block_size` for the block size 512 is a run of its two writes. -/
theorem blk1_runs {σ : Type} (h : Host σ) (w : World σ) :
    ∃ evs, (sdio_set_func1_block_size h w WILC_SDIO_BLOCK_SIZE).2.log = w.log ++ evs ∧
      runs
        [Cmd.c52 { read_write := 1, function := 0, raw := 0, address := 0x110, data := 0x00 },
         Cmd.c52 { read_write := 1, function := 0, raw := 0, address := 0x111, data := 0x02 }]
        (sdio_set_func1_block_size h w WILC_SDIO_BLOCK_SIZE).1 evs = true ∧
      (sdio_set_func1_block_size h w WILC_SDIO_BLOCK_SIZE).2.g_sdio = w.g_sdio ∧
      (sdio_set_func1_block_size h w WILC_SDIO_BLOCK_SIZE).2.chip = w.chip := by
  unfold sdio_set_func1_block_size
  simp only [wilc_sdio_cmd52]
  simp
  split_ifs <;> simp_all [runs, Txn.cmd, Txn.ret, WILC_SDIO_BLOCK_SIZE]

/-- The `sdio_init` is its register sequence, followed when that succeeded by the
identity verification (`resume` false) or by the setting of `is_init`
(`resume` true). -/
theorem sdio_init_eq {σ : Type} (h : Host σ) (ci : ChipIdent σ) (w : World σ) (resume : Bool) :
    sdio_init h ci w resume =
      if (sdio_init_regs h w).1 = 0 then (0, (sdio_init_regs h w).2)
      else if resume = false then sdio_init_ident h ci (sdio_init_regs h w).2
      else (1, { (sdio_init_regs h w).2 with
                 g_sdio := { (sdio_init_regs h w).2.g_sdio with is_init := true } }) := by
  unfold sdio_init sdio_init_regs sdio_init_ident
  simp only []
  generalize wilc_sdio_cmd52 h _ _ = r1
  by_cases h1 : r1.1 = 0
  swap
  · simp [h1]
  simp only [h1, ne_eq, not_true_eq_false, if_false]
  generalize sdio_set_func0_block_size h _ _ = r2
  by_cases h2 : r2.1 = 0
  · simp [h2]
  simp only [h2, if_false]
  generalize wilc_sdio_cmd52 h _ _ = r3
  by_cases h3 : r3.1 = 0
  swap
  · simp [h3]
  simp only [h3, not_true_eq_false, if_false]
  generalize sdio_init_poll h _ _ = r4
  by_cases h4 : r4.1 = 0
  swap
  · simp [h4]
  simp only [h4, not_true_eq_false, if_false]
  by_cases h4b : r4.2.1 ≤ 0
  · simp [h4b]
  simp only [h4b, if_false]
  generalize sdio_set_func1_block_size h _ _ = r5
  by_cases h5 : r5.1 = 0
  · simp [h5]
  simp only [h5, if_false]
  generalize wilc_sdio_cmd52 h _ _ = r6
  by_cases h6 : r6.1 = 0
  swap
  · simp [h6]
  simp only [h6, not_true_eq_false, if_false]
  simp


/-- The shape of the register sequence of `sdio_init`: a run of the commands before the
poll, then a poll run, then a run of the commands after the poll; the sequence
stops at the first failing transaction and when the poll loop leaves with an
error or an exhausted counter.  The chip variant and `is_init` are left alone,
and the block size is 512 once the commands before the poll have run. -/
theorem init_regs_shape {σ : Type} (h : Host σ) (w : World σ) :
    ∃ evA evP evB p1 p2,
      (sdio_init_regs h w).2.log = w.log ++ (evA ++ (evP ++ evB)) ∧
      (sdio_init_regs h w).2.chip = w.chip ∧
      (sdio_init_regs h w).2.g_sdio.is_init = w.g_sdio.is_init ∧
      ((sdio_init_regs h w).2.g_sdio.block_size = w.g_sdio.block_size ∨
        (sdio_init_regs h w).2.g_sdio.block_size = 512) ∧
      ((runs init_head 0 evA = true ∧ evP = [] ∧ evB = [] ∧ (sdio_init_regs h w).1 = 0) ∨
       (runs init_head 1 evA = true ∧ (sdio_init_regs h w).2.g_sdio.block_size = 512 ∧
         poll_run 3 p1 p2 evP = true ∧
         (((p1 ≠ 0 ∨ p2 ≤ 0) ∧ evB = [] ∧ (sdio_init_regs h w).1 = 0) ∨
          (p1 = 0 ∧ 0 < p2 ∧ runs init_tail (sdio_init_regs h w).1 evB = true)))) := by
  unfold sdio_init_regs
  simp only []
  have l1 := cmd52_log h { w with g_sdio := { w.g_sdio with irq_gpio := w.io_type_gpio_irq } }
    { read_write := 1, function := 0, raw := 1, address := 0x100, data := 0x80 }
  have f1 := cmd52_frame h { w with g_sdio := { w.g_sdio with irq_gpio := w.io_type_gpio_irq } }
    { read_write := 1, function := 0, raw := 1, address := 0x100, data := 0x80 }
  generalize wilc_sdio_cmd52 h _ _ = r1 at l1 f1 ⊢
  simp only [] at l1 f1
  obtain ⟨g1, c1⟩ := f1
  generalize hE1 : Txn.cmd52
    { read_write := 1, function := 0, raw := 1, address := 0x100, data := 0x80 }
    r1.1 r1.2.1.data = e1 at l1
  by_cases h1 : r1.1 = 0
  swap
  · simp only [h1, ne_eq, not_false_eq_true, if_true]
    refine ⟨[e1], [], [], 0, 0, ?_, c1, ?_, Or.inl ?_, Or.inl ⟨?_, rfl, rfl, trivial⟩⟩
    · rw [l1]; simp only [List.append_nil, List.append_assoc]
    · rw [g1]
    · rw [g1]
    · rw [← hE1]; simp [runs, init_head, Txn.cmd, Txn.ret, h1]
  simp only [h1, ne_eq, not_true_eq_false, if_false]
  have hA1 : runs [Cmd.c52 { read_write := 1, function := 0, raw := 1, address := 0x100, data := 0x80 }]
      1 [e1] = true := by
    rw [← hE1]; simp [runs, Txn.cmd, Txn.ret, h1]
  obtain ⟨ev2, l2, run2, g2, c2⟩ := blk0_runs h r1.2.2
  generalize sdio_set_func0_block_size h r1.2.2 WILC_SDIO_BLOCK_SIZE = r2 at l2 run2 g2 c2 ⊢
  rw [l1, List.append_assoc] at l2
  by_cases h2 : r2.1 = 0
  · simp only [h2, if_true]
    rw [h2] at run2
    refine ⟨[e1] ++ ev2, [], [], 0, 0, ?_, c2.trans c1, ?_, Or.inl ?_,
      Or.inl ⟨?_, rfl, rfl, trivial⟩⟩
    · rw [l2]; simp only [List.append_nil, List.append_assoc]
    · rw [g2, g1]
    · rw [g2, g1]
    · exact runs_fail_ext
        [Cmd.c52 { read_write := 1, function := 0, raw := 1, address := 0x2, data := 0x2 }]
        (runs_append hA1 run2)
  simp only [h2, if_false]
  have h2' : r2.1 = 1 := (runs_result run2).resolve_right h2
  rw [h2'] at run2
  have l3 := cmd52_log h
    { r2.2 with g_sdio := { r2.2.g_sdio with block_size := WILC_SDIO_BLOCK_SIZE } }
    { read_write := 1, function := 0, raw := 1, address := 0x2, data := 0x2 }
  have f3 := cmd52_frame h
    { r2.2 with g_sdio := { r2.2.g_sdio with block_size := WILC_SDIO_BLOCK_SIZE } }
    { read_write := 1, function := 0, raw := 1, address := 0x2, data := 0x2 }
  generalize wilc_sdio_cmd52 h
    { r2.2 with g_sdio := { r2.2.g_sdio with block_size := WILC_SDIO_BLOCK_SIZE } } _ = r3
    at l3 f3 ⊢
  simp only [] at l3 f3
  obtain ⟨g3, c3⟩ := f3
  rw [l2, List.append_assoc] at l3
  generalize hE3 : Txn.cmd52
    { read_write := 1, function := 0, raw := 1, address := 0x2, data := 0x2 }
    r3.1 r3.2.1.data = e3 at l3
  have hi3 : r3.2.2.g_sdio.is_init = w.g_sdio.is_init := by rw [g3, g2, g1]
  have hb3 : r3.2.2.g_sdio.block_size = 512 := by rw [g3]; rfl
  by_cases h3 : r3.1 = 0
  swap
  · simp only [h3, not_false_eq_true, if_true]
    refine ⟨[e1] ++ (ev2 ++ [e3]), [], [], 0, 0, ?_, (c3.trans c2).trans c1, hi3, Or.inr hb3,
      Or.inl ⟨?_, rfl, rfl, trivial⟩⟩
    · rw [l3]; simp only [List.append_nil, List.append_assoc]
    · refine runs_append hA1 (runs_append run2 ?_)
      rw [← hE3]; simp [runs, Txn.cmd, Txn.ret, h3]
  simp only [h3, not_true_eq_false, if_false]
  have hA : runs init_head 1 ([e1] ++ (ev2 ++ [e3])) = true := by
    refine runs_append hA1 (runs_append run2 ?_)
    rw [← hE3]; simp [runs, Txn.cmd, Txn.ret, h3]
  obtain ⟨ev4, l4, g4, c4, pr⟩ := poll_run_spec h 3 r3.2.2
  generalize sdio_init_poll h 3 r3.2.2 = r4 at l4 g4 c4 pr ⊢
  rw [l3] at l4
  have hi4 : r4.2.2.g_sdio.is_init = w.g_sdio.is_init := by rw [g4]; exact hi3
  have hb4 : r4.2.2.g_sdio.block_size = 512 := by rw [g4]; exact hb3
  have hc4 : r4.2.2.chip = w.chip := ((c4.trans c3).trans c2).trans c1
  by_cases h4 : r4.1 = 0
  swap
  · simp only [h4, not_false_eq_true, if_true]
    refine ⟨[e1] ++ (ev2 ++ [e3]), ev4, [], r4.1, r4.2.1, ?_, hc4, hi4, Or.inr hb4,
      Or.inr ⟨hA, hb4, pr, Or.inl ⟨Or.inl h4, rfl, trivial⟩⟩⟩
    rw [l4]; simp only [List.append_nil, List.append_assoc]
  simp only [h4, not_true_eq_false, if_false]
  by_cases h4b : r4.2.1 ≤ 0
  · simp only [h4b, if_true]
    refine ⟨[e1] ++ (ev2 ++ [e3]), ev4, [], r4.1, r4.2.1, ?_, hc4, hi4, Or.inr hb4,
      Or.inr ⟨hA, hb4, pr, Or.inl ⟨Or.inr h4b, rfl, trivial⟩⟩⟩
    rw [l4]; simp only [List.append_nil, List.append_assoc]
  simp only [h4b, if_false]
  obtain ⟨ev5, l5, run5, g5, c5⟩ := blk1_runs h r4.2.2
  generalize sdio_set_func1_block_size h r4.2.2 WILC_SDIO_BLOCK_SIZE = r5 at l5 run5 g5 c5 ⊢
  rw [l4] at l5
  have hi5 : r5.2.g_sdio.is_init = w.g_sdio.is_init := by rw [g5]; exact hi4
  have hb5 : r5.2.g_sdio.block_size = 512 := by rw [g5]; exact hb4
  by_cases h5 : r5.1 = 0
  · simp only [h5, if_true]
    rw [h5] at run5
    refine ⟨[e1] ++ (ev2 ++ [e3]), ev4, ev5, r4.1, r4.2.1, ?_, c5.trans hc4, hi5, Or.inr hb5,
      Or.inr ⟨hA, hb5, pr, Or.inr ⟨h4, not_le.mp h4b, ?_⟩⟩⟩
    · rw [l5]; simp only [List.append_nil, List.append_assoc]
    · exact runs_fail_ext
        [Cmd.c52 { read_write := 1, function := 0, raw := 1, address := 0x4, data := 0x3 }] run5
  simp only [h5, if_false]
  have h5' : r5.1 = 1 := (runs_result run5).resolve_right h5
  rw [h5'] at run5
  have l6 := cmd52_log h r5.2
    { read_write := 1, function := 0, raw := 1, address := 0x4, data := 0x3 }
  have f6 := cmd52_frame h r5.2
    { read_write := 1, function := 0, raw := 1, address := 0x4, data := 0x3 }
  generalize wilc_sdio_cmd52 h r5.2 _ = r6 at l6 f6 ⊢
  obtain ⟨g6, c6⟩ := f6
  rw [l5] at l6
  generalize hE6 : Txn.cmd52
    { read_write := 1, function := 0, raw := 1, address := 0x4, data := 0x3 }
    r6.1 r6.2.1.data = e6 at l6
  have hi6 : r6.2.2.g_sdio.is_init = w.g_sdio.is_init := by rw [g6]; exact hi5
  have hb6 : r6.2.2.g_sdio.block_size = 512 := by rw [g6]; exact hb5
  have hc6 : r6.2.2.chip = w.chip := (c6.trans c5).trans hc4
  have hlog : r6.2.2.log = w.log ++ (([e1] ++ (ev2 ++ [e3])) ++ (ev4 ++ (ev5 ++ [e6]))) := by
    rw [l6]; simp only [List.append_assoc]
  by_cases h6 : r6.1 = 0
  swap
  · simp only [h6, not_false_eq_true, if_true]
    refine ⟨[e1] ++ (ev2 ++ [e3]), ev4, ev5 ++ [e6], r4.1, r4.2.1, hlog, hc6, hi6, Or.inr hb6,
      Or.inr ⟨hA, hb6, pr, Or.inr ⟨h4, not_le.mp h4b, ?_⟩⟩⟩
    refine runs_append run5 ?_
    rw [← hE6]; simp [runs, Txn.cmd, Txn.ret, h6]
  simp only [h6, not_true_eq_false, if_false]
  refine ⟨[e1] ++ (ev2 ++ [e3]), ev4, ev5 ++ [e6], r4.1, r4.2.1, hlog, hc6, hi6, Or.inr hb6,
    Or.inr ⟨hA, hb6, pr, Or.inr ⟨h4, not_le.mp h4b, ?_⟩⟩⟩
  refine runs_append run5 ?_
  rw [← hE6]; simp [runs, Txn.cmd, Txn.ret, h6]


/-- Whether a transaction is a readiness poll depends on its command only: a
transaction with the poll command is one. -/
theorem is_poll_of_cmd {e : Txn} (he : e.cmd = Cmd.c52 poll_cmd) : e.is_ior_poll = true := by
  cases e with
  | cmd52 c r d =>
    simp only [Txn.cmd, Cmd.c52.injEq] at he
    subst he
    rfl
  | cmd53 c r => simp [Txn.cmd] at he

/-- No command of `sdio_init` before or after the poll loop is a readiness poll. -/
theorem not_poll_of_mem {e : Txn} (he : e.cmd ∈ init_head ++ init_tail) :
    e.is_ior_poll = false := by
  cases e with
  | cmd52 c r d =>
    simp only [Txn.cmd, init_head, init_tail, List.cons_append, List.nil_append, List.mem_cons,
      Cmd.c52.injEq, List.mem_singleton, List.not_mem_nil, or_false] at he
    rcases he with rfl | rfl | rfl | rfl | rfl | rfl | rfl <;> rfl
  | cmd53 c r => rfl

/-- The polls in a record made of a run before the poll loop, poll transactions, a
run after the poll loop and further transactions are the poll transactions and
the polls among the further ones. -/
theorem polls_of_shape {evA evP evB extra : List Txn} {a b : Int}
    (hA : runs init_head a evA = true) (hP : ∀ e ∈ evP, e.cmd = Cmd.c52 poll_cmd)
    (hB : evB = [] ∨ runs init_tail b evB = true) :
    ((evA ++ (evP ++ evB)) ++ extra).filter Txn.is_ior_poll =
      evP ++ extra.filter Txn.is_ior_poll := by
  have h1 : evA.filter Txn.is_ior_poll = [] := by
    apply List.filter_eq_nil_iff.mpr
    intro e he
    have := not_poll_of_mem (List.mem_append_left init_tail (runs_mem hA e he))
    simp [this]
  have h2 : evP.filter Txn.is_ior_poll = evP := by
    apply List.filter_eq_self.mpr
    intro e he
    exact is_poll_of_cmd (hP e he)
  have h3 : evB.filter Txn.is_ior_poll = [] := by
    rcases hB with rfl | hB
    · rfl
    · apply List.filter_eq_nil_iff.mpr
      intro e he
      have := not_poll_of_mem (List.mem_append_right init_head (runs_mem hB e he))
      simp [this]
  simp only [List.filter_append, h1, h2, h3, List.nil_append, List.append_nil]


/-- The register sequence of `sdio_init` only appends to the record. -/
theorem init_regs_log {σ : Type} (h : Host σ) (w : World σ) :
    (sdio_init_regs h w).2.log = w.log ++ issued w (sdio_init_regs h w).2 := by
  obtain ⟨evA, evP, evB, p1, p2, hl, -⟩ := init_regs_shape h w
  rw [issued_of_log hl]
  exact hl

/-- The register sequence of `sdio_init` leaves the chip variant and `is_init` alone,
and leaves the block size alone or sets it to 512. -/
theorem init_regs_frame {σ : Type} (h : Host σ) (w : World σ) :
    (sdio_init_regs h w).2.chip = w.chip ∧
    (sdio_init_regs h w).2.g_sdio.is_init = w.g_sdio.is_init ∧
    ((sdio_init_regs h w).2.g_sdio.block_size = w.g_sdio.block_size ∨
      (sdio_init_regs h w).2.g_sdio.block_size = 512) := by
  obtain ⟨evA, evP, evB, p1, p2, -, hc, hi, hb, -⟩ := init_regs_shape h w
  exact ⟨hc, hi, hb⟩

/-- The register sequence of `sdio_init` returns 0 or 1. -/
theorem init_regs_result {σ : Type} (h : Host σ) (w : World σ) :
    (sdio_init_regs h w).1 = 0 ∨ (sdio_init_regs h w).1 = 1 := by
  obtain ⟨evA, evP, evB, p1, p2, -, -, -, -, hs⟩ := init_regs_shape h w
  rcases hs with ⟨-, -, -, hr⟩ | ⟨-, -, -, ⟨-, -, hr⟩ | ⟨-, -, hB⟩⟩
  · exact Or.inl hr
  · exact Or.inl hr
  · exact (runs_result hB).symm

/-- The register sequence of `sdio_init` stops at the first failing transaction and
then returns 0. -/
theorem init_regs_fail_stop {σ : Type} (h : Host σ) (w : World σ) (pre : List Txn) (e : Txn)
    (post : List Txn) (hiss : issued w (sdio_init_regs h w).2 = pre ++ e :: post)
    (hfail : e.ret ≠ 0) : post = [] ∧ (sdio_init_regs h w).1 = 0 := by
  obtain ⟨evA, evP, evB, p1, p2, hl, -, -, -, hs⟩ := init_regs_shape h w
  rw [issued_of_log hl] at hiss
  rcases hs with ⟨hA, rfl, rfl, hr⟩ | ⟨hA, -, pr, ⟨hp, rfl, hr⟩ | ⟨hp1, -, hB⟩⟩
  · simp only [List.append_nil] at hiss
    exact ⟨(runs_fail_stop hA pre e post hiss hfail).1, hr⟩
  · simp only [List.append_nil] at hiss
    have hP := poll_run_runs pr
    by_cases hp1 : p1 = 0
    · simp only [hp1, ne_eq, not_true_eq_false, if_false] at hP
      have hall := runs_all_ok (runs_append hA hP)
      have : e ∈ evA ++ evP := by rw [hiss]; simp
      exact absurd (hall.1 e this) hfail
    · simp only [hp1, ne_eq, not_false_eq_true, if_true] at hP
      exact ⟨(runs_fail_stop (runs_append hA hP) pre e post hiss hfail).1, hr⟩
  · have hP := poll_run_runs pr
    simp only [hp1, ne_eq, not_true_eq_false, if_false] at hP
    exact runs_fail_stop (runs_append hA (runs_append hP hB)) pre e post hiss hfail

/-- When every transaction of the register sequence of `sdio_init` succeeded, the block
size is 512; the sequence returns 1 when one of the first three polls of the
record read `0x2`; and when the first poll read `0x2` the commands issued are
those before the poll, one poll, and those after the poll. -/
theorem init_regs_ok {σ : Type} (h : Host σ) (w : World σ)
    (hok : ∀ e ∈ issued w (sdio_init_regs h w).2, e.ret = 0) :
    (sdio_init_regs h w).2.g_sdio.block_size = 512 ∧
    ∀ extra : List Txn,
      ((∃ e ∈ ((issued w (sdio_init_regs h w).2 ++ extra).filter Txn.is_ior_poll).take 3,
          e.data = 2) → (sdio_init_regs h w).1 = 1) ∧
      ((∀ e ∈ ((issued w (sdio_init_regs h w).2 ++ extra).filter Txn.is_ior_poll).take 1,
          e.data = 2) →
        (issued w (sdio_init_regs h w).2).map Txn.cmd =
          init_head ++ Cmd.c52 poll_cmd :: init_tail ∧ (sdio_init_regs h w).1 = 1) := by
  obtain ⟨evA, evP, evB, p1, p2, hl, -, -, -, hs⟩ := init_regs_shape h w
  rw [issued_of_log hl] at hok ⊢
  rcases hs with ⟨hA, rfl, rfl, hr⟩ | ⟨hA, hb, pr, ⟨hp, rfl, hr⟩ | ⟨hp1, hp2, hB⟩⟩
  · obtain ⟨pre, e, rfl, hne, -⟩ := runs_fail_shape hA
    exact absurd (hok e (by simp)) hne
  · have hP := poll_run_runs pr
    by_cases hp1 : p1 = 0
    · subst hp1
      have hp2 : p2 ≤ 0 := by
        rcases hp with hp | hp
        · exact absurd rfl hp
        · exact hp
      obtain ⟨hlen, hnr⟩ := poll_run_exhausted pr hp2
      refine ⟨hb, fun extra => ?_⟩
      rw [@polls_of_shape evA evP [] extra 1 0 hA (poll_run_polls pr) (Or.inl rfl)]
      have ht3 : (evP ++ extra.filter Txn.is_ior_poll).take 3 = evP.take 3 :=
        List.take_append_of_le_length (by omega)
      have ht1 : ∀ e ∈ (evP ++ extra.filter Txn.is_ior_poll).take 1, e ∈ evP.take 3 := by
        intro e he
        cases evP with
        | nil => simp at hlen
        | cons a es =>
          simp only [List.cons_append, List.take_succ_cons, List.take_zero,
            List.mem_singleton] at he
          simp [he]
      constructor
      · rintro ⟨e, he, hd⟩
        rw [ht3] at he
        exact absurd hd (hnr e he)
      · intro hfirst
        cases evP with
        | nil => simp at hlen
        | cons a es =>
          have ha := hfirst a (by simp)
          exact absurd ha (hnr a (ht1 a (by simp)))
    · simp only [hp1, ne_eq, not_false_eq_true, if_true] at hP
      obtain ⟨pre, e, hE, hne, -⟩ := runs_fail_shape hP
      exact absurd (hok e (by rw [hE]; simp)) hne
  · subst hp1
    have hokB : ∀ e ∈ evB, e.ret = 0 := fun e he => hok e (by simp [he])
    obtain ⟨hcB, hr⟩ := runs_complete hB hokB
    refine ⟨hb, fun extra => ⟨fun _ => hr, fun hfirst => ⟨?_, hr⟩⟩⟩
    rw [polls_of_shape hA (poll_run_polls pr) (Or.inr hB)] at hfirst
    cases evP with
    | nil => simp [poll_run] at pr
    | cons a es =>
      have ha := hfirst a (by simp)
      have hes := poll_run_first pr (hok a (by simp)) ha
      subst hes
      have hca := poll_run_polls pr a (by simp)
      simp only [List.map_append, List.map_cons, List.map_nil, (runs_all_ok hA).2, hcB, hca,
        List.singleton_append]


/-- A register sequence of `sdio_init` that returns 1 set the block size to 512, had
every transaction succeed, and had one of its first three polls read `0x2`. -/
theorem init_regs_success {σ : Type} (h : Host σ) (w : World σ)
    (h1 : (sdio_init_regs h w).1 = 1) :
    (sdio_init_regs h w).2.g_sdio.block_size = 512 ∧
    (∀ e ∈ issued w (sdio_init_regs h w).2, e.ret = 0) ∧
    ∃ e ∈ ((issued w (sdio_init_regs h w).2).filter Txn.is_ior_poll).take 3, e.data = 2 := by
  obtain ⟨evA, evP, evB, p1, p2, hl, -, -, -, hs⟩ := init_regs_shape h w
  rw [issued_of_log hl]
  rcases hs with ⟨-, -, -, hr⟩ | ⟨hA, hb, pr, ⟨-, -, hr⟩ | ⟨hp1, hp2, hB⟩⟩
  · rw [hr] at h1; exact absurd h1 (by decide)
  · rw [hr] at h1; exact absurd h1 (by decide)
  · subst hp1
    rw [h1] at hB
    have hP := poll_run_runs pr
    simp only [ne_eq, not_true_eq_false, if_false] at hP
    refine ⟨hb, (runs_all_ok (runs_append hA (runs_append hP hB))).1, ?_⟩
    have hf := @polls_of_shape evA evP evB [] 1 1 hA (poll_run_polls pr) (Or.inr hB)
    simp only [List.append_nil, List.filter_nil] at hf
    rw [hf]
    obtain ⟨hlen, pre, e, hE, hd, -⟩ := poll_run_ready pr hp2
    refine ⟨e, ?_, hd⟩
    rw [List.take_of_length_le hlen, hE]
    simp

/-- When every transaction of the register sequence of `sdio_init` succeeded and the
IEN write is among them, the sequence returns 1. -/
theorem init_regs_reached {σ : Type} (h : Host σ) (w : World σ)
    (hok : ∀ e ∈ issued w (sdio_init_regs h w).2, e.ret = 0)
    (hien : ∃ e ∈ issued w (sdio_init_regs h w).2, e.cmd = Cmd.c52
      { read_write := 1, function := 0, raw := 1, address := 0x4, data := 0x3 }) :
    (sdio_init_regs h w).1 = 1 := by
  obtain ⟨evA, evP, evB, p1, p2, hl, -, -, -, hs⟩ := init_regs_shape h w
  rw [issued_of_log hl] at hok hien
  obtain ⟨e, he, hc⟩ := hien
  have hnA : ∀ evs : List Txn, ∀ a : Int, runs init_head a evs = true → e ∉ evs := by
    intro evs a hr hmem
    have := runs_mem hr e hmem
    rw [hc] at this
    revert this
    decide
  rcases hs with ⟨hA, rfl, rfl, hr⟩ | ⟨hA, hb, pr, ⟨hp, rfl, hr⟩ | ⟨hp1, hp2, hB⟩⟩
  · simp only [List.append_nil] at he
    exact absurd he (hnA _ _ hA)
  · simp only [List.append_nil, List.mem_append] at he
    rcases he with he | he
    · exact absurd he (hnA _ _ hA)
    · have := poll_run_polls pr e he
      rw [hc] at this
      exact absurd this (by decide)
  · exact (runs_complete hB (fun x hx => hok x (by simp [hx]))).2


/-- When its register sequence returns 0, `sdio_init` returns 0 in the world the
sequence stopped in. -/
theorem regs_fail_eq {σ : Type} (h : Host σ) (ci : ChipIdent σ) (w : World σ) (resume : Bool)
    (h0 : (sdio_init_regs h w).1 = 0) :
    sdio_init h ci w resume = (0, (sdio_init_regs h w).2) := by
  rw [sdio_init_eq]
  simp only [h0, if_true]

/-- When its register sequence returns 1, `sdio_init` without `resume` continues with
the identity verification. -/
theorem regs_ident_eq {σ : Type} (h : Host σ) (ci : ChipIdent σ) (w : World σ)
    (h1 : (sdio_init_regs h w).1 = 1) :
    sdio_init h ci w false = sdio_init_ident h ci (sdio_init_regs h w).2 := by
  rw [sdio_init_eq]
  simp [h1]

/-- When its register sequence returns 1, `sdio_init` with `resume` sets `is_init` and
returns 1. -/
theorem regs_resume_eq {σ : Type} (h : Host σ) (ci : ChipIdent σ) (w : World σ)
    (h1 : (sdio_init_regs h w).1 = 1) :
    sdio_init h ci w true =
      (1, { (sdio_init_regs h w).2 with
            g_sdio := { (sdio_init_regs h w).2.g_sdio with is_init := true } }) := by
  rw [sdio_init_eq]
  simp [h1]

/-- The identity verification appends the commands of `wilc_get_chipid` to the record
and leaves the block size alone. -/
theorem ident_log {σ : Type} (h : Host σ) (ci : ChipIdent σ) (w : World σ) :
    (sdio_init_ident h ci w).2.log = w.log ++ (ci.wilc_get_chipid h w).2.2 ∧
    (sdio_init_ident h ci w).2.g_sdio.block_size = w.g_sdio.block_size := by
  unfold sdio_init_ident
  simp only []
  split_ifs <;> exact ⟨rfl, rfl⟩

/-- The record of `sdio_init` starts with the record of its register sequence; what
follows are the commands of `wilc_get_chipid`, and nothing follows with
`resume` or when the register sequence returned 0. -/
theorem init_record {σ : Type} (h : Host σ) (ci : ChipIdent σ) (w : World σ) (resume : Bool) :
    issued w (sdio_init h ci w resume).2 =
      issued w (sdio_init_regs h w).2 ++
        (if (sdio_init_regs h w).1 = 1 ∧ resume = false
         then (ci.wilc_get_chipid h (sdio_init_regs h w).2).2.2 else []) := by
  rcases init_regs_result h w with h0 | h1
  · rw [regs_fail_eq h ci w resume h0]
    simp [h0]
  · cases resume with
    | false =>
      rw [regs_ident_eq h ci w h1]
      simp only [h1, and_self, if_true]
      apply issued_of_log
      rw [(ident_log h ci _).1, init_regs_log h w, List.append_assoc,
        issued_of_log (init_regs_log h w)]
    | true =>
      rw [regs_resume_eq h ci w h1]
      simp [issued]


/-! ## Bring-up: the retry budget, the identity check, the order of the commands -/

/-- C11, evaluated where the code departs from it: the poll loop of `sdio_init` reads
the IOR-ready register `0x3` four times, not three.  On a card whose register
`0x3` reads 0 three times and `0x2` from then on, every transaction succeeds,
the record holds four polls, the fourth reads `0x2`, and `sdio_init` still
returns 0; on the chip that never becomes ready the record holds four polls
too. -/
theorem init_poll_fourth_read :
    ((issued (World.fresh 3)
        (sdio_init ready_after_host (ChipIdent.const 0 true false) (World.fresh 3) false).2).filter
        Txn.is_ior_poll).map (fun e => (e.ret, e.data)) = [(0, 0), (0, 0), (0, 0), (0, 2)] ∧
    (sdio_init ready_after_host (ChipIdent.const 0 true false) (World.fresh 3) false).1 = 0 ∧
    ((issued (World.fresh Chip.zero)
        (sdio_init (storing_host false) (ChipIdent.const 0 true false)
          (World.fresh Chip.zero) false).2).filter Txn.is_ior_poll).length = 4 := by
  decide

/-- Counterexample to C12 as stated: on a card that is ready at the first poll and
whose chip id matches neither family, `sdio_init` returns 0 and the block
size, 0 before the call, is 512 after it. -/
theorem init_unknown_chip_counterexample :
    (sdio_init ready_after_host (ChipIdent.const 0 false false) (World.fresh 0) false).1 = 0 ∧
    (World.fresh 0 : World Nat).g_sdio.block_size = 0 ∧
    (sdio_init ready_after_host (ChipIdent.const 0 false false)
      (World.fresh 0) false).2.g_sdio.block_size = 512 := by
  decide

/-- C12 (as amended): when the chip id read matches neither `ISWILC3000` nor
`ISWILC1000`, `sdio_init` without `resume` returns 0 and leaves the chip
variant and `is_init` as they were; the block size is as it was or 512, and it
is 512 whenever the register sequence went through, that is whenever the chip
id was read. -/
theorem init_unknown_chip {σ : Type} (h : Host σ) (ci : ChipIdent σ) (w : World σ)
    (hno : ci.ISWILC3000 (ci.wilc_get_chipid h (sdio_init_regs h w).2).1 = false ∧
      ci.ISWILC1000 (ci.wilc_get_chipid h (sdio_init_regs h w).2).1 = false) :
    (sdio_init h ci w false).1 = 0 ∧
    (sdio_init h ci w false).2.chip = w.chip ∧
    (sdio_init h ci w false).2.g_sdio.is_init = w.g_sdio.is_init ∧
    ((sdio_init h ci w false).2.g_sdio.block_size = w.g_sdio.block_size ∨
      (sdio_init h ci w false).2.g_sdio.block_size = 512) ∧
    ((sdio_init_regs h w).1 = 1 → (sdio_init h ci w false).2.g_sdio.block_size = 512) := by
  obtain ⟨fc, fi, fb⟩ := init_regs_frame h w
  rcases init_regs_result h w with h0 | h1
  · rw [regs_fail_eq h ci w false h0]
    exact ⟨rfl, fc, fi, fb, fun h1 => by rw [h0] at h1; exact absurd h1 (by decide)⟩
  · rw [regs_ident_eq h ci w h1]
    have hb := (init_regs_success h w h1).1
    unfold sdio_init_ident
    simp only [hno.1, hno.2, Bool.false_eq_true, if_false]
    exact ⟨trivial, fc, fi, Or.inr hb, fun _ => hb⟩

/-- Instance of `init_unknown_chip` on the card that is ready at the first poll, with a chip id
that matches neither family. -/
theorem init_unknown_chip_witness :
    (sdio_init_regs ready_after_host (World.fresh 0)).1 = 1 ∧
    (sdio_init ready_after_host (ChipIdent.const 0 false false) (World.fresh 0) false).1 = 0 ∧
    (sdio_init ready_after_host (ChipIdent.const 0 false false)
      (World.fresh 0) false).2.chip = chip_t.unset ∧
    (sdio_init ready_after_host (ChipIdent.const 0 false false)
      (World.fresh 0) false).2.g_sdio.is_init = false ∧
    (sdio_init ready_after_host (ChipIdent.const 0 false false)
      (World.fresh 0) false).2.g_sdio.block_size = 512 := by
  have hreg : (sdio_init_regs ready_after_host (World.fresh 0)).1 = 1 := by decide
  obtain ⟨a, b, c, -, e⟩ := init_unknown_chip ready_after_host (ChipIdent.const 0 false false)
    (World.fresh 0) ⟨rfl, rfl⟩
  exact ⟨hreg, a, b, c, e hreg⟩

/-- C13: when every transaction of `sdio_init` without `resume` succeeds, the first
readiness poll reads `0x2` and the chip id read matches one of the two
families, the commands issued before the chip-id read are, in order: write
`0x80` to `0x100`, write `0x00` to `0x10` and `0x02` to `0x11`, write `0x2` to
`0x2`, read `0x3`, write `0x00` to `0x110` and `0x02` to `0x111`, write `0x3` to
`0x4`, all on function 0; the commands of the chip-id read follow; the call
returns 1 with the block size 512, `is_init` set and the chip variant of the
matched family. -/
theorem init_sequence {σ : Type} (h : Host σ) (ci : ChipIdent σ) (w : World σ)
    (hok : ∀ e ∈ issued w (sdio_init h ci w false).2, e.ret = 0)
    (hfirst : ∀ e ∈ ((issued w (sdio_init h ci w false).2).filter Txn.is_ior_poll).take 1,
      e.data = 2)
    (hrec : ci.ISWILC3000 (ci.wilc_get_chipid h (sdio_init_regs h w).2).1 = true ∨
      ci.ISWILC1000 (ci.wilc_get_chipid h (sdio_init_regs h w).2).1 = true) :
    (issued w (sdio_init_regs h w).2).map Txn.cmd =
      [Cmd.c52 { read_write := 1, function := 0, raw := 1, address := 0x100, data := 0x80 },
       Cmd.c52 { read_write := 1, function := 0, raw := 0, address := 0x10, data := 0x00 },
       Cmd.c52 { read_write := 1, function := 0, raw := 0, address := 0x11, data := 0x02 },
       Cmd.c52 { read_write := 1, function := 0, raw := 1, address := 0x2, data := 0x2 },
       Cmd.c52 { read_write := 0, function := 0, raw := 0, address := 0x3, data := 0 },
       Cmd.c52 { read_write := 1, function := 0, raw := 0, address := 0x110, data := 0x00 },
       Cmd.c52 { read_write := 1, function := 0, raw := 0, address := 0x111, data := 0x02 },
       Cmd.c52 { read_write := 1, function := 0, raw := 1, address := 0x4, data := 0x3 }] ∧
    issued w (sdio_init h ci w false).2 =
      issued w (sdio_init_regs h w).2 ++ (ci.wilc_get_chipid h (sdio_init_regs h w).2).2.2 ∧
    (sdio_init h ci w false).1 = 1 ∧
    (sdio_init h ci w false).2.g_sdio.block_size = 512 ∧
    (sdio_init h ci w false).2.g_sdio.is_init = true ∧
    (sdio_init h ci w false).2.chip =
      (if ci.ISWILC3000 (ci.wilc_get_chipid h (sdio_init_regs h w).2).1 = true
       then chip_t.WILC_3000 else chip_t.WILC_1000) := by
  have hrecd := init_record h ci w false
  rw [hrecd] at hok hfirst
  have hokR : ∀ e ∈ issued w (sdio_init_regs h w).2, e.ret = 0 :=
    fun e he => hok e (List.mem_append_left _ he)
  obtain ⟨hb, hx⟩ := init_regs_ok h w hokR
  obtain ⟨hcmds, h1⟩ := (hx _).2 hfirst
  simp only [h1, and_self, if_true] at hrecd
  refine ⟨hcmds, hrecd, ?_⟩
  rw [regs_ident_eq h ci w h1]
  unfold sdio_init_ident
  simp only []
  rcases hrec with h3 | h3
  · simp only [h3, if_true]
    exact ⟨trivial, hb, trivial, trivial⟩
  · by_cases h4 : ci.ISWILC3000 (ci.wilc_get_chipid h (sdio_init_regs h w).2).1 = true
    · simp only [h4, if_true]
      exact ⟨trivial, hb, trivial, trivial⟩
    · simp only [h4, h3, if_true, if_false, Bool.false_eq_true]
      exact ⟨trivial, hb, trivial, trivial⟩

/-- Instance of `init_sequence` on the card that is ready at the first poll, identified as a
WILC1000. -/
theorem init_sequence_witness :
    (∀ e ∈ issued (World.fresh 0)
      (sdio_init ready_after_host (ChipIdent.const 0 false true) (World.fresh 0) false).2,
      e.ret = 0) ∧
    (issued (World.fresh 0)
      (sdio_init ready_after_host (ChipIdent.const 0 false true) (World.fresh 0) false).2).length
      = 8 ∧
    (sdio_init ready_after_host (ChipIdent.const 0 false true) (World.fresh 0) false).1 = 1 ∧
    (sdio_init ready_after_host (ChipIdent.const 0 false true)
      (World.fresh 0) false).2.g_sdio.block_size = 512 ∧
    (sdio_init ready_after_host (ChipIdent.const 0 false true)
      (World.fresh 0) false).2.g_sdio.is_init = true ∧
    (sdio_init ready_after_host (ChipIdent.const 0 false true)
      (World.fresh 0) false).2.chip = chip_t.WILC_1000 := by
  have hok : ∀ e ∈ issued (World.fresh 0)
      (sdio_init ready_after_host (ChipIdent.const 0 false true) (World.fresh 0) false).2,
      e.ret = 0 := by decide
  obtain ⟨a, b, c, d, e, f⟩ := init_sequence ready_after_host (ChipIdent.const 0 false true)
    (World.fresh 0) hok (by decide) (Or.inr rfl)
  refine ⟨hok, ?_, c, d, e, f⟩
  rw [b, ← List.length_map _ Txn.cmd, List.map_append, a]
  rfl

/-- Abort of `sdio_init` on the first error code that `wilc_sdio_cmd52` returns in its
register sequence.  The record of `sdio_init` starts with the record of its
register sequence (from the CSA enable to the IEN write) and with `resume` it
is that record.  When a call of the register sequence returned an error code,
it is the last one of the sequence, and `sdio_init`, with or without `resume`,
returns 0, has issued nothing after it, not the chip-id read either, and
leaves `is_init` as it was.  For a read-after-write the code returned is the
one of the read-back. -/
theorem init_fail_stop {σ : Type} (h : Host σ) (ci : ChipIdent σ) (w : World σ) (resume : Bool) :
    issued w (sdio_init_regs h w).2 <+: issued w (sdio_init h ci w resume).2 ∧
    (resume = true → issued w (sdio_init h ci w resume).2 = issued w (sdio_init_regs h w).2) ∧
    ∀ pre e post, issued w (sdio_init_regs h w).2 = pre ++ e :: post → e.ret ≠ 0 →
      post = [] ∧ (sdio_init h ci w resume).1 = 0 ∧
      issued w (sdio_init h ci w resume).2 = pre ++ [e] ∧
      (sdio_init h ci w resume).2.g_sdio.is_init = w.g_sdio.is_init := by
  refine ⟨?_, ?_, ?_⟩
  · rw [init_record h ci w resume]
    exact List.prefix_append _ _
  · intro hr
    rw [init_record h ci w resume]
    simp [hr]
  · intro pre e post hiss hfail
    obtain ⟨hpost, h0⟩ := init_regs_fail_stop h w pre e post hiss hfail
    subst hpost
    rw [regs_fail_eq h ci w resume h0]
    exact ⟨rfl, rfl, hiss, (init_regs_frame h w).2.1⟩

/-- Instance of `init_fail_stop` on the host whose fourth primitive call fails, the write to
`0x11` fails; `sdio_init` returns 0 with the record ending there and `is_init`
still false. -/
theorem init_fail_stop_witness :
    (issued (World.fresh 3) (sdio_init_regs failing_host (World.fresh 3)).2).map Txn.ret =
      [0, 0, -5] ∧
    (sdio_init failing_host (ChipIdent.const 0 true false) (World.fresh 3) false).1 = 0 ∧
    (issued (World.fresh 3)
      (sdio_init failing_host (ChipIdent.const 0 true false) (World.fresh 3) false).2).length = 3 ∧
    (sdio_init failing_host (ChipIdent.const 0 true false)
      (World.fresh 3) false).2.g_sdio.is_init = false := by
  have hiss : issued (World.fresh 3) (sdio_init_regs failing_host (World.fresh 3)).2 =
      [Txn.cmd52 { read_write := 1, function := 0, raw := 1, address := 0x100, data := 0x80 } 0 0,
       Txn.cmd52 { read_write := 1, function := 0, raw := 0, address := 0x10, data := 0x00 } 0 0] ++
      Txn.cmd52 { read_write := 1, function := 0, raw := 0, address := 0x11, data := 0x02 } (-5) 2
        :: [] := by decide
  obtain ⟨-, b, c, d⟩ := (init_fail_stop failing_host (ChipIdent.const 0 true false)
    (World.fresh 3) false).2.2 _ _ _ hiss (by decide)
  refine ⟨by decide, b, ?_, d⟩
  rw [c]
  rfl

/-- C15: `sdio_init` with `resume` never reads the chip id.  Its result is the same
whatever the chip identification is, its record is the record of the register
sequence, and the chip variant is left as it was.  When every transaction
succeeded and the IEN write is among them, it returns 1 with `is_init`
set, and one of the first three polls read `0x2`. -/
theorem init_resume {σ : Type} (h : Host σ) (ci : ChipIdent σ) (w : World σ) :
    (∀ ci2 : ChipIdent σ, sdio_init h ci2 w true = sdio_init h ci w true) ∧
    issued w (sdio_init h ci w true).2 = issued w (sdio_init_regs h w).2 ∧
    (sdio_init h ci w true).2.chip = w.chip ∧
    ((∀ e ∈ issued w (sdio_init h ci w true).2, e.ret = 0) →
      (∃ e ∈ issued w (sdio_init h ci w true).2, e.cmd = Cmd.c52
        { read_write := 1, function := 0, raw := 1, address := 0x4, data := 0x3 }) →
      (sdio_init h ci w true).1 = 1 ∧ (sdio_init h ci w true).2.g_sdio.is_init = true ∧
      ∃ e ∈ ((issued w (sdio_init h ci w true).2).filter Txn.is_ior_poll).take 3,
        e.data = 2) := by
  have hrecd : issued w (sdio_init h ci w true).2 = issued w (sdio_init_regs h w).2 := by
    rw [init_record h ci w true]
    simp
  refine ⟨?_, hrecd, ?_, ?_⟩
  · intro ci2
    rw [sdio_init_eq h ci2 w true, sdio_init_eq h ci w true]
    simp
  · rcases init_regs_result h w with h0 | h1
    · rw [regs_fail_eq h ci w true h0]
      exact (init_regs_frame h w).1
    · rw [regs_resume_eq h ci w h1]
      exact (init_regs_frame h w).1
  · rw [hrecd]
    intro hok hien
    have h1 := init_regs_reached h w hok hien
    rw [regs_resume_eq h ci w h1]
    exact ⟨rfl, rfl, (init_regs_success h w h1).2.2⟩

/-- Instance of `init_resume` on the card that is ready at the first poll, with a chip
id that matches neither family, `sdio_init` with `resume` returns 1 with
`is_init` set and the chip variant still unset. -/
theorem init_resume_witness :
    (∀ e ∈ issued (World.fresh 0)
      (sdio_init ready_after_host (ChipIdent.const 0 false false) (World.fresh 0) true).2,
      e.ret = 0) ∧
    (sdio_init ready_after_host (ChipIdent.const 0 false false) (World.fresh 0) true).1 = 1 ∧
    (sdio_init ready_after_host (ChipIdent.const 0 false false)
      (World.fresh 0) true).2.g_sdio.is_init = true ∧
    (sdio_init ready_after_host (ChipIdent.const 0 false false)
      (World.fresh 0) true).2.chip = chip_t.unset := by
  have hok : ∀ e ∈ issued (World.fresh 0)
      (sdio_init ready_after_host (ChipIdent.const 0 false false) (World.fresh 0) true).2,
      e.ret = 0 := by decide
  obtain ⟨-, -, c, d⟩ := init_resume ready_after_host (ChipIdent.const 0 false false)
    (World.fresh 0)
  obtain ⟨e, f, -⟩ := d hok (by decide)
  exact ⟨hok, e, f, c⟩


/-! ## Interrupt status and acknowledgement -/

/-- C16, evaluated where the code departs from it: on a chip other than WILC1000 in
dedicated-interrupt-pin mode, `sdio_clear_int_ext` carries the pending-line
bits of the mask into the write to `0xf1`.  With the mask `0x22` (pending line
1 and `SEL_VMM_TBL0`, for the example constants) it writes `0x2` to `0xfe` and
then `0x3` to `0xf1`, where bit 0 alone stands for the selection; with the mask
`0x1` (pending line 0 and no selection bit) it writes `0x1` to `0xfe` and then
`0x1` to `0xf1`, where nothing is to be written. -/
theorem clear_int_stale_reg :
    (issued (World.running 0 chip_t.WILC_3000 true)
        (sdio_clear_int_ext ready_after_host Consts.sample
          (World.running 0 chip_t.WILC_3000 true) 0x22).2).map Txn.cmd =
      [Cmd.c52 { read_write := 1, function := 0, raw := 0, address := 0xfe, data := 0x2 },
       Cmd.c52 { read_write := 1, function := 0, raw := 0, address := 0xf1, data := 0x3 }] ∧
    0x22 &&& (BIT Consts.sample.MAX_NUM_INT - 1) = 0x2 ∧
    (0x22 &&& Consts.sample.SEL_VMM_TBL0 ≠ 0 ∧ 0x22 &&& Consts.sample.SEL_VMM_TBL1 = 0 ∧
      0x22 &&& Consts.sample.EN_VMM = 0) ∧
    (issued (World.running 0 chip_t.WILC_3000 true)
        (sdio_clear_int_ext ready_after_host Consts.sample
          (World.running 0 chip_t.WILC_3000 true) 0x1).2).map Txn.cmd =
      [Cmd.c52 { read_write := 1, function := 0, raw := 0, address := 0xfe, data := 0x1 },
       Cmd.c52 { read_write := 1, function := 0, raw := 0, address := 0xf1, data := 0x1 }] ∧
    (0x1 &&& Consts.sample.SEL_VMM_TBL0 = 0 ∧ 0x1 &&& Consts.sample.SEL_VMM_TBL1 = 0 ∧
      0x1 &&& Consts.sample.EN_VMM = 0) := by
  decide

/-- Counterexample to C17 as stated: on a chip other than WILC1000 in
dedicated-interrupt-pin mode, with the mask `0x22` (pending line 1 and
`SEL_VMM_TBL0`, for the example constants) and a host whose first transaction
fails, the write to `0xfe` is the only transaction issued: no write to `0xf1`
follows, and the call returns 0. -/
theorem clear_int_first_write_failure_counterexample :
    0x22 &&& (BIT Consts.sample.MAX_NUM_INT - 1) ≠ 0 ∧
    0x22 &&& Consts.sample.SEL_VMM_TBL0 ≠ 0 ∧
    (issued (World.running 0 chip_t.WILC_3000 true)
        (sdio_clear_int_ext failing_host Consts.sample
          (World.running 0 chip_t.WILC_3000 true) 0x22).2).map (fun e => (e.cmd, e.ret)) =
      [(Cmd.c52 { read_write := 1, function := 0, raw := 0, address := 0xfe, data := 0x2 }, -5)] ∧
    (sdio_clear_int_ext failing_host Consts.sample
      (World.running 0 chip_t.WILC_3000 true) 0x22).1 = 0 := by
  decide

/-- C17 (as amended): in `sdio_clear_int_ext` for a chip other than WILC1000 in
dedicated-interrupt-pin mode, with a mask that has pending-line bits set, the
first transaction is the write of those bits to `0xfe`; when it fails the
operation is aborted: nothing is issued after it, the write to `0xf1` is not
issued, and the call returns 0. -/
theorem clear_int_first_write_failure {σ : Type} (h : Host σ) (k : Consts) (w : World σ)
    (val : Nat) (hchip : w.chip ≠ chip_t.WILC_1000) (hgpio : w.g_sdio.irq_gpio = true)
    (hpend : val &&& (BIT k.MAX_NUM_INT - 1) ≠ 0) :
    ∃ e rest, issued w (sdio_clear_int_ext h k w val).2 = e :: rest ∧
      e.cmd = Cmd.c52
        { read_write := 1, function := 0, raw := 0, address := 0xfe,
          data := (val &&& (BIT k.MAX_NUM_INT - 1)) % 256 } ∧
      (e.ret ≠ 0 → rest = [] ∧ (sdio_clear_int_ext h k w val).1 = 0) := by
  unfold sdio_clear_int_ext
  simp only [hchip, hgpio, if_false, if_true, hpend, ne_eq, not_false_eq_true, and_self]
  have l1 := cmd52_log h w
    { read_write := 1, function := 0, raw := 0, address := 0xfe,
      data := (val &&& (BIT k.MAX_NUM_INT - 1)) % 256 }
  generalize wilc_sdio_cmd52 h w
    { read_write := 1, function := 0, raw := 0, address := 0xfe,
      data := (val &&& (BIT k.MAX_NUM_INT - 1)) % 256 } = r1 at l1 ⊢
  by_cases h1 : r1.1 = 0
  swap
  · simp only [h1, not_false_eq_true, if_true]
    exact ⟨_, [], issued_of_log l1, rfl, fun _ => ⟨rfl, trivial⟩⟩
  simp only [h1, not_true_eq_false, if_false]
  generalize set_vmm_bits k val 0 1 2 (val &&& (BIT k.MAX_NUM_INT - 1)) = reg
  by_cases hz : reg = 0
  · simp only [hz, not_true_eq_false, if_false]
    exact ⟨_, [], issued_of_log l1, rfl, fun a => absurd h1 a⟩
  simp only [hz, not_false_eq_true, if_true]
  have l2 := cmd52_log h r1.2.2
    { read_write := 1, function := 0, raw := 0, address := 0xf1, data := reg % 256 }
  generalize wilc_sdio_cmd52 h r1.2.2
    { read_write := 1, function := 0, raw := 0, address := 0xf1, data := reg % 256 } = r2 at l2 ⊢
  rw [l1, List.append_assoc] at l2
  have hi : ∀ x : Int, issued w (if ¬r2.1 = 0 then (0, r2.2.2) else (x, r2.2.2)).2 =
      [Txn.cmd52
          { read_write := 1, function := 0, raw := 0, address := 0xfe,
            data := (val &&& (BIT k.MAX_NUM_INT - 1)) % 256 } r1.1 r1.2.1.data] ++
        [Txn.cmd52 { read_write := 1, function := 0, raw := 0, address := 0xf1, data := reg % 256 }
          r2.1 r2.2.1.data] := by
    intro x; split_ifs <;> exact issued_of_log l2
  exact ⟨_, _, hi 1, rfl, fun a => absurd h1 a⟩

/-- Instance of `clear_int_first_write_failure` on the host whose first transaction
fails, for a WILC3000 in dedicated-interrupt-pin mode and the mask `0x22`. -/
theorem clear_int_first_write_failure_witness :
    (World.running 0 chip_t.WILC_3000 true : World Nat).chip ≠ chip_t.WILC_1000 ∧
    0x22 &&& (BIT Consts.sample.MAX_NUM_INT - 1) ≠ 0 ∧
    ∃ e rest, issued (World.running 0 chip_t.WILC_3000 true)
        (sdio_clear_int_ext failing_host Consts.sample
          (World.running 0 chip_t.WILC_3000 true) 0x22).2 = e :: rest ∧
      e.cmd = Cmd.c52
        { read_write := 1, function := 0, raw := 0, address := 0xfe,
          data := (0x22 &&& (BIT Consts.sample.MAX_NUM_INT - 1)) % 256 } ∧
      (e.ret ≠ 0 → rest = [] ∧
        (sdio_clear_int_ext failing_host Consts.sample
          (World.running 0 chip_t.WILC_3000 true) 0x22).1 = 0) :=
  ⟨by decide, by decide,
    clear_int_first_write_failure failing_host Consts.sample
      (World.running 0 chip_t.WILC_3000 true) 0x22 (by decide) rfl (by decide)⟩


/-- Shifting distributes over bitwise OR. -/
theorem shl_or (a b o : Nat) : (a ||| b) <<< o = a <<< o ||| b <<< o := by
  apply Nat.eq_of_testBit_eq
  intro i
  simp only [Nat.testBit_shiftLeft, Nat.testBit_or]
  cases decide (i ≥ o) <;> simp

/-- The low 16 bits of a bitmap whose line bits start at bit 16 or above are its
size field. -/
theorem low16_of_bitmap (size l o : Nat) (hs : size < 2 ^ 16) (ho : 16 ≤ o) :
    (size ||| l <<< o) % 2 ^ 16 = size := by
  apply Nat.eq_of_testBit_eq
  intro i
  simp only [Nat.testBit_mod_two_pow, Nat.testBit_shiftLeft, Nat.testBit_or]
  by_cases hi : i < 16
  · have : ¬ (i ≥ o) := by omega
    simp [hi, this]
  · have h2 : size < 2 ^ i := lt_of_lt_of_le hs (Nat.pow_le_pow_right (by decide) (by omega))
    simp [hi, Nat.testBit_lt_two_pow h2]

/-- A bitmap of a 16-bit size and five line bits at an offset of at most 27 fits 32 bits. -/
theorem bitmap_lt (size l o : Nat) (hs : size < 2 ^ 16) (hl : l < 2 ^ 5) (ho : o + 5 ≤ 32) :
    (size ||| l <<< o) % 2 ^ 32 = size ||| l <<< o := by
  apply Nat.mod_eq_of_lt
  apply Nat.or_lt_two_pow
  · exact lt_of_lt_of_le hs (by decide)
  · rw [Nat.shiftLeft_eq]
    calc l * 2 ^ o < 2 ^ 5 * 2 ^ o := Nat.mul_lt_mul_of_pos_right hl (Nat.two_pow_pos o)
      _ = 2 ^ (5 + o) := (pow_add 2 5 o).symm
      _ ≤ 2 ^ 32 := Nat.pow_le_pow_right (by decide) (by omega)

/-- The line bits decoded in the shared-interrupt branch are below `2 ^ 5`. -/
theorem shared_lines_lt (d : Nat) : shared_lines d < 2 ^ 5 := by
  unfold shared_lines
  split_ifs <;> decide

/-- The conditional ORs of the shared-interrupt branch add the decoded lines,
shifted to the offset of the line bits. -/
theorem shared_or (k : Consts) (tmp d : Nat)
    (hI : ∀ i, i < 5 → k.INT i = BIT (k.IRG_FLAGS_OFFSET + i)) :
    (let tmp := if d &&& BIT 0 ≠ 0 then tmp ||| k.INT 0 else tmp
     let tmp := if d &&& BIT 2 ≠ 0 then tmp ||| k.INT 1 else tmp
     let tmp := if d &&& BIT 3 ≠ 0 then tmp ||| k.INT 2 else tmp
     let tmp := if d &&& BIT 4 ≠ 0 then tmp ||| k.INT 3 else tmp
     let tmp := if d &&& BIT 5 ≠ 0 then tmp ||| k.INT 4 else tmp
     tmp) = tmp ||| shared_lines d <<< k.IRG_FLAGS_OFFSET := by
  have hJ : ∀ i, i < 5 → k.INT i = BIT i <<< k.IRG_FLAGS_OFFSET := by
    intro i hi
    rw [hI i hi]
    simp only [BIT, Nat.shiftLeft_eq, pow_add, Nat.mul_comm]
  simp only [shared_lines, shl_or, hJ 0 (by decide), hJ 1 (by decide), hJ 2 (by decide),
    hJ 3 (by decide), hJ 4 (by decide)]
  split_ifs <;> simp [Nat.or_assoc]

/-- The `sdio_read_size` issues the reads of `0xf2` and `0xf3` on function 0, whatever
their return codes, and returns 1 with the two bytes combined. -/
theorem read_size_spec {σ : Type} (h : Host σ) (w : World σ) :
    ∃ r1 d1 r2 d2, d1 < 256 ∧ d2 < 256 ∧
      (sdio_read_size h w).2.2.log = w.log ++
        [Txn.cmd52 { read_write := 0, function := 0, raw := 0, address := 0xf2, data := 0 } r1 d1,
         Txn.cmd52 { read_write := 0, function := 0, raw := 0, address := 0xf3, data := 0 } r2 d2] ∧
      (sdio_read_size h w).1 = 1 ∧
      (sdio_read_size h w).2.1 = d1 ||| d2 <<< 8 ∧
      (sdio_read_size h w).2.2.g_sdio = w.g_sdio ∧ (sdio_read_size h w).2.2.chip = w.chip := by
  refine ⟨(h.sdio_readb w.card 0 0xf2).2.2, (h.sdio_readb w.card 0 0xf2).2.1 % 256,
    (h.sdio_readb (h.sdio_readb w.card 0 0xf2).1 0 0xf3).2.2,
    (h.sdio_readb (h.sdio_readb w.card 0 0xf2).1 0 0xf3).2.1 % 256,
    Nat.mod_lt _ (by decide), Nat.mod_lt _ (by decide), ?_⟩
  simp [sdio_read_size, wilc_sdio_cmd52]

/-- A single-register read appends one transaction whose data byte is below 256. -/
theorem cmd52_read {σ : Type} (h : Host σ) (w : World σ) (c : sdio_cmd52)
    (hc : c.read_write = 0) :
    ∃ r d, d < 256 ∧ (wilc_sdio_cmd52 h w c).2.2.log = w.log ++ [Txn.cmd52 c r d] ∧
      (wilc_sdio_cmd52 h w c).2.1.data = d := by
  unfold wilc_sdio_cmd52
  simp only [hc, ne_eq, not_true_eq_false, if_false]
  exact ⟨_, _, Nat.mod_lt _ (by decide), rfl, rfl⟩

/-- C18: `sdio_read_int` returns 1 and the bitmap `size | (lines << IRG_FLAGS_OFFSET)`.
It issues three reads: function-0 registers `0xf2` and `0xf3`, as
`sdio_read_size` does, whose bytes make `size = byte(0xf2) | byte(0xf3) << 8`,
and one function-1 register that gives the lines: in dedicated-interrupt-pin
mode register `0xf7` masked with `0x1f` on a WILC1000 and register `0xfe`
masked with `0x0f` otherwise; in shared-interrupt mode register `0x04`, whose
bits 0, 2, 3, 4, 5 are the lines 0, 1, 2, 3, 4.  The constants of the absent
header are taken such that `INT_i` is bit `IRG_FLAGS_OFFSET + i` and the five
line bits fit the 32-bit bitmap.  For `IRG_FLAGS_OFFSET ≥ 16` the size is the
low 16 bits of the bitmap. -/
theorem read_int_bitmap {σ : Type} (h : Host σ) (k : Consts) (w : World σ)
    (hoff : k.IRG_FLAGS_OFFSET + 5 ≤ 32)
    (hINT : ∀ i, i < 5 → k.INT i = BIT (k.IRG_FLAGS_OFFSET + i)) :
    ∃ r1 d1 r2 d2 r3 d3,
      issued w (sdio_read_size h w).2.2 =
        [Txn.cmd52 { read_write := 0, function := 0, raw := 0, address := 0xf2, data := 0 } r1 d1,
         Txn.cmd52 { read_write := 0, function := 0, raw := 0, address := 0xf3, data := 0 } r2 d2] ∧
      (sdio_read_size h w).2.1 = d1 ||| d2 <<< 8 ∧
      issued w (sdio_read_int h k w).2.2 =
        [Txn.cmd52 { read_write := 0, function := 0, raw := 0, address := 0xf2, data := 0 } r1 d1,
         Txn.cmd52 { read_write := 0, function := 0, raw := 0, address := 0xf3, data := 0 } r2 d2,
         Txn.cmd52
           { read_write := 0, function := 1, raw := 0,
             address := if w.g_sdio.irq_gpio then (if w.chip = chip_t.WILC_1000 then 0xf7 else 0xfe)
                        else 0x04,
             data := 0 } r3 d3] ∧
      (sdio_read_int h k w).1 = 1 ∧
      (sdio_read_int h k w).2.1 =
        (d1 ||| d2 <<< 8) |||
          (if w.g_sdio.irq_gpio then (if w.chip = chip_t.WILC_1000 then d3 &&& 0x1f else d3 &&& 0x0f)
           else shared_lines d3) <<< k.IRG_FLAGS_OFFSET ∧
      (16 ≤ k.IRG_FLAGS_OFFSET → (sdio_read_int h k w).2.1 % 2 ^ 16 = d1 ||| d2 <<< 8) := by
  obtain ⟨r1, d1, r2, d2, hd1, hd2, hl, -, hv, -, -⟩ := read_size_spec h w
  have hs : d1 ||| d2 <<< 8 < 2 ^ 16 := by
    apply Nat.or_lt_two_pow
    · exact lt_of_lt_of_le hd1 (by decide)
    · rw [Nat.shiftLeft_eq]; omega
  have fin : ∀ (res : Int × Nat × World σ) (reg l r3 d3),
      res.2.2.log = (sdio_read_size h w).2.2.log ++
        [Txn.cmd52 { read_write := 0, function := 1, raw := 0, address := reg, data := 0 } r3 d3] →
      res.1 = 1 → l < 2 ^ 5 →
      res.2.1 = ((sdio_read_size h w).2.1 ||| l <<< k.IRG_FLAGS_OFFSET) % 2 ^ 32 →
      issued w res.2.2 =
        [Txn.cmd52 { read_write := 0, function := 0, raw := 0, address := 0xf2, data := 0 } r1 d1,
         Txn.cmd52 { read_write := 0, function := 0, raw := 0, address := 0xf3, data := 0 } r2 d2,
         Txn.cmd52 { read_write := 0, function := 1, raw := 0, address := reg, data := 0 } r3 d3] ∧
      res.1 = 1 ∧ res.2.1 = (d1 ||| d2 <<< 8) ||| l <<< k.IRG_FLAGS_OFFSET ∧
      (16 ≤ k.IRG_FLAGS_OFFSET → res.2.1 % 2 ^ 16 = d1 ||| d2 <<< 8) := by
    intro res reg l r3 d3 hlog h1 hll hval
    rw [hv, bitmap_lt _ _ _ hs hll hoff] at hval
    refine ⟨issued_of_log (by rw [hlog, hl]; simp), h1, hval, fun ho => ?_⟩
    rw [hval]
    exact low16_of_bitmap _ _ _ hs ho
  have h5 : ∀ d : Nat, d &&& 0x1f < 2 ^ 5 := fun d => Nat.and_lt_two_pow d (by decide)
  have h4 : ∀ d : Nat, d &&& 0x0f < 2 ^ 5 := fun d =>
    lt_of_lt_of_le (Nat.and_lt_two_pow d (show 0x0f < 2 ^ 4 by decide)) (by decide)
  unfold sdio_read_int
  by_cases hg : w.g_sdio.irq_gpio = true
  · by_cases hc : w.chip = chip_t.WILC_1000
    · simp only [hg, hc, if_true]
      obtain ⟨r3, d3, -, hl3, hd3⟩ := cmd52_read h (sdio_read_size h w).2.2
        { read_write := 0, function := 1, raw := 0, address := 0xf7, data := 0 } rfl
      generalize wilc_sdio_cmd52 h (sdio_read_size h w).2.2 _ = r at hl3 hd3 ⊢
      obtain ⟨a, b, c, d⟩ := fin (1, ((sdio_read_size h w).2.1 |||
        (r.2.1.data &&& 0x1f) <<< k.IRG_FLAGS_OFFSET) % 2 ^ 32, r.2.2) 0xf7 (d3 &&& 0x1f) r3 d3
        hl3 rfl (h5 _) (by rw [hd3])
      exact ⟨r1, d1, r2, d2, r3, d3, issued_of_log hl, hv, a, trivial, c, d⟩
    · simp only [hg, hc, if_true, if_false]
      obtain ⟨r3, d3, -, hl3, hd3⟩ := cmd52_read h (sdio_read_size h w).2.2
        { read_write := 0, function := 1, raw := 0, address := 0xfe, data := 0 } rfl
      generalize wilc_sdio_cmd52 h (sdio_read_size h w).2.2 _ = r at hl3 hd3 ⊢
      obtain ⟨a, b, c, d⟩ := fin (1, ((sdio_read_size h w).2.1 |||
        (r.2.1.data &&& 0x0f) <<< k.IRG_FLAGS_OFFSET) % 2 ^ 32, r.2.2) 0xfe (d3 &&& 0x0f) r3 d3
        hl3 rfl (h4 _) (by rw [hd3])
      exact ⟨r1, d1, r2, d2, r3, d3, issued_of_log hl, hv, a, trivial, c, d⟩
  · simp only [hg, if_false]
    obtain ⟨r3, d3, -, hl3, hd3⟩ := cmd52_read h (sdio_read_size h w).2.2
      { read_write := 0, function := 1, raw := 0, address := 0x04, data := 0 } rfl
    generalize wilc_sdio_cmd52 h (sdio_read_size h w).2.2 _ = r at hl3 hd3 ⊢
    have hso := shared_or k (sdio_read_size h w).2.1 r.2.1.data hINT
    simp only [] at hso
    rw [hso]
    obtain ⟨a, b, c, d⟩ := fin (1, ((sdio_read_size h w).2.1 |||
      shared_lines r.2.1.data <<< k.IRG_FLAGS_OFFSET) % 2 ^ 32, r.2.2) 0x04 (shared_lines d3) r3 d3
      hl3 rfl (shared_lines_lt _) (by rw [hd3])
    exact ⟨r1, d1, r2, d2, r3, d3, issued_of_log hl, hv, a, b, c, d⟩

/-- Instance of `read_int_bitmap` for the example constants (offset 16) on the storing
chip, a WILC1000 in dedicated-interrupt-pin mode. -/
theorem read_int_bitmap_witness :
    Consts.sample.IRG_FLAGS_OFFSET + 5 ≤ 32 ∧
    (∀ i, i < 5 → Consts.sample.INT i = BIT (Consts.sample.IRG_FLAGS_OFFSET + i)) ∧
    ∃ r1 d1 r2 d2 r3 d3,
      issued (World.running Chip.zero chip_t.WILC_1000 true)
          (sdio_read_int (storing_host false) Consts.sample
            (World.running Chip.zero chip_t.WILC_1000 true)).2.2 =
        [Txn.cmd52 { read_write := 0, function := 0, raw := 0, address := 0xf2, data := 0 } r1 d1,
         Txn.cmd52 { read_write := 0, function := 0, raw := 0, address := 0xf3, data := 0 } r2 d2,
         Txn.cmd52 { read_write := 0, function := 1, raw := 0, address := 0xf7, data := 0 } r3 d3] ∧
      (sdio_read_int (storing_host false) Consts.sample
        (World.running Chip.zero chip_t.WILC_1000 true)).2.1 =
        (d1 ||| d2 <<< 8) ||| (d3 &&& 0x1f) <<< 16 ∧
      (sdio_read_int (storing_host false) Consts.sample
        (World.running Chip.zero chip_t.WILC_1000 true)).2.1 % 2 ^ 16 = d1 ||| d2 <<< 8 := by
  refine ⟨by decide, fun _ _ => rfl, ?_⟩
  obtain ⟨r1, d1, r2, d2, r3, d3, -, -, a, -, b, c⟩ :=
    read_int_bitmap (storing_host false) Consts.sample
      (World.running Chip.zero chip_t.WILC_1000 true) (by decide) (fun _ _ => rfl)
  exact ⟨r1, d1, r2, d2, r3, d3, a, b, c (by decide)⟩

/-- C19, evaluated where the code departs from it: on a host whose every transaction
fails, `sdio_read_size` and `sdio_read_int` (in shared-interrupt mode, and in
dedicated-interrupt-pin mode on a WILC1000) issue all their reads, every one
fails with `-5`, and the functions return 1. -/
theorem read_failure_dropped :
    (sdio_read_size failing_host (World.fresh 0)).1 = 1 ∧
    (issued (World.fresh 0) (sdio_read_size failing_host (World.fresh 0)).2.2).map Txn.ret =
      [-5, -5] ∧
    (sdio_read_int failing_host Consts.sample (World.fresh 0)).1 = 1 ∧
    (issued (World.fresh 0)
      (sdio_read_int failing_host Consts.sample (World.fresh 0)).2.2).map Txn.ret =
      [-5, -5, -5] ∧
    (sdio_read_int failing_host Consts.sample (World.running 0 chip_t.WILC_1000 true)).1 = 1 ∧
    (issued (World.running 0 chip_t.WILC_1000 true)
      (sdio_read_int failing_host Consts.sample
        (World.running 0 chip_t.WILC_1000 true)).2.2).map Txn.ret = [-5, -5, -5] := by
  decide


/-! ## The interrupt callback -/

/-- C20: `wilc_sdio_interrupt`, run sequentially.  When `sdio_intr_lock` is
`DIS_TAKEN` it does nothing: the state is unchanged, so the handler is not
called, the host is neither released nor claimed and nobody is woken.
Otherwise it sets `IRQ_TAKEN`, releases the host, calls the upper-layer
handler once, claims the host again, sets `NO_TAKEN` and wakes the waiters, in
that order; the handler runs in the world with `IRQ_TAKEN`, and the callback
ends with `NO_TAKEN` and the host claimed. -/
theorem interrupt_sequence {σ : Type} (wilc_handle_isr : World σ → World σ) (k : Kernel σ) :
    (k.world.sdio_intr_lock = sdio_host_lock.WILC_SDIO_HOST_DIS_TAKEN →
      wilc_sdio_interrupt wilc_handle_isr k = k) ∧
    (k.world.sdio_intr_lock ≠ sdio_host_lock.WILC_SDIO_HOST_DIS_TAKEN →
      (wilc_sdio_interrupt wilc_handle_isr k).ops = k.ops ++
        [HostOp.set_intr_lock sdio_host_lock.WILC_SDIO_HOST_IRQ_TAKEN,
         HostOp.release_host, HostOp.handle_isr, HostOp.claim_host,
         HostOp.set_intr_lock sdio_host_lock.WILC_SDIO_HOST_NO_TAKEN,
         HostOp.wake_up] ∧
      (wilc_sdio_interrupt wilc_handle_isr k).world =
        { wilc_handle_isr
            { k.world with sdio_intr_lock := sdio_host_lock.WILC_SDIO_HOST_IRQ_TAKEN } with
          sdio_intr_lock := sdio_host_lock.WILC_SDIO_HOST_NO_TAKEN } ∧
      (wilc_sdio_interrupt wilc_handle_isr k).isr_calls = k.isr_calls + 1 ∧
      (wilc_sdio_interrupt wilc_handle_isr k).wakeups = k.wakeups + 1 ∧
      (wilc_sdio_interrupt wilc_handle_isr k).host_claimed = true) := by
  constructor
  · intro hd
    unfold wilc_sdio_interrupt
    simp only [hd, if_true]
  · intro hd
    unfold wilc_sdio_interrupt
    simp [hd, Kernel.set_intr_lock, Kernel.sdio_release_host, Kernel.call_isr,
      Kernel.sdio_claim_host, Kernel.wake_up_interruptible]

/-- Instance of `interrupt_sequence`: with the lock at `NO_TAKEN` the callback runs the six
steps and calls the handler once; with the lock at `DIS_TAKEN` it records
nothing and calls nothing. -/
theorem interrupt_sequence_witness :
    (wilc_sdio_interrupt (fun w => w)
      { world := World.fresh 0, host_claimed := true, wakeups := 0, isr_calls := 0,
        ops := [] }).ops =
      [HostOp.set_intr_lock sdio_host_lock.WILC_SDIO_HOST_IRQ_TAKEN,
       HostOp.release_host, HostOp.handle_isr, HostOp.claim_host,
       HostOp.set_intr_lock sdio_host_lock.WILC_SDIO_HOST_NO_TAKEN,
       HostOp.wake_up] ∧
    (wilc_sdio_interrupt (fun w => w)
      { world := World.fresh 0, host_claimed := true, wakeups := 0, isr_calls := 0,
        ops := [] }).isr_calls = 1 ∧
    (wilc_sdio_interrupt (fun w => w)
      { world :=
          { World.fresh 0 with sdio_intr_lock := sdio_host_lock.WILC_SDIO_HOST_DIS_TAKEN },
        host_claimed := true, wakeups := 0, isr_calls := 0, ops := [] }).ops = [] ∧
    (wilc_sdio_interrupt (fun w => w)
      { world :=
          { World.fresh 0 with sdio_intr_lock := sdio_host_lock.WILC_SDIO_HOST_DIS_TAKEN },
        host_claimed := true, wakeups := 0, isr_calls := 0, ops := [] }).isr_calls = 0 := by
  obtain ⟨a, -, c, -, -⟩ := (interrupt_sequence (fun w : World Nat => w)
    { world := World.fresh 0, host_claimed := true, wakeups := 0, isr_calls := 0,
      ops := [] }).2 (by decide)
  have d := (interrupt_sequence (fun w : World Nat => w)
    { world :=
        { World.fresh 0 with sdio_intr_lock := sdio_host_lock.WILC_SDIO_HOST_DIS_TAKEN },
      host_claimed := true, wakeups := 0, isr_calls := 0, ops := [] }).1 rfl
  exact ⟨a, c, by rw [d], by rw [d]⟩

/-! ## Host endianness -/

/-- C22, evaluated where the code departs from it: in the reserved range the register
access depends on the host.  Writing the value `0x12` to `0xf0` puts the byte
`0x12` on the wire on a little-endian host and the byte `0x00` on a big-endian
host; reading `0xf0` when the card delivers the byte `0x12` returns `0x12` on a
little-endian host and `0x12000000` on a big-endian host, both with result 1.
Outside the reserved range the two hosts agree: writing `0x12345678` to
`0x1000` stores the bytes `0x78, 0x56, 0x34, 0x12` on both. -/
theorem reg_access_big_endian :
    (issued (World.ready Chip.zero)
        (sdio_write_reg (storing_host false) (World.ready Chip.zero) 0xf0 0x12).2).map Txn.cmd =
      [Cmd.c52 { read_write := 1, function := 0, raw := 0, address := 0xf0, data := 0x12 }] ∧
    (issued (World.ready Chip.zero)
        (sdio_write_reg (storing_host true) (World.ready Chip.zero) 0xf0 0x12).2).map Txn.cmd =
      [Cmd.c52 { read_write := 1, function := 0, raw := 0, address := 0xf0, data := 0x00 }] ∧
    (sdio_read_reg (storing_host false) (World.ready (Chip.one_reg 0 0xf0 0x12)) 0xf0 0).1 = 1 ∧
    (sdio_read_reg (storing_host false) (World.ready (Chip.one_reg 0 0xf0 0x12)) 0xf0 0).2.1 =
      0x12 ∧
    (sdio_read_reg (storing_host true) (World.ready (Chip.one_reg 0 0xf0 0x12)) 0xf0 0).1 = 1 ∧
    (sdio_read_reg (storing_host true) (World.ready (Chip.one_reg 0 0xf0 0x12)) 0xf0 0).2.1 =
      0x12000000 ∧
    (List.range 4).map (fun i =>
      (sdio_write_reg (storing_host false) (World.ready Chip.zero) 0x1000 0x12345678).2.card.mem
        (0x1000 + i)) = [0x78, 0x56, 0x34, 0x12] ∧
    (List.range 4).map (fun i =>
      (sdio_write_reg (storing_host true) (World.ready Chip.zero) 0x1000 0x12345678).2.card.mem
        (0x1000 + i)) = [0x78, 0x56, 0x34, 0x12] := by
  decide


/-! ## What the operations leave alone -/

/-- The `sdio_set_func0_csa_address` leaves `g_sdio` alone. -/
theorem csa_frame {σ : Type} (h : Host σ) (w : World σ) (adr : Nat) :
    (sdio_set_func0_csa_address h w adr).2.g_sdio = w.g_sdio := by
  obtain ⟨_, _, _, hg⟩ := csa_runs h w adr
  exact hg

/-- The `sdio_write_reg` leaves `g_sdio` alone. -/
theorem write_reg_frame {σ : Type} (h : Host σ) (w : World σ) (addr data : Nat) :
    (sdio_write_reg h w addr data).2.g_sdio = w.g_sdio := by
  unfold sdio_write_reg
  simp only []
  split_ifs <;>
    simp only [(cmd52_frame h _ _).1, (cmd53_frame h _ _ _).1, csa_frame]

/-- The `sdio_read_reg` leaves `g_sdio` alone. -/
theorem read_reg_frame {σ : Type} (h : Host σ) (w : World σ) (addr data0 : Nat) :
    (sdio_read_reg h w addr data0).2.2.g_sdio = w.g_sdio := by
  unfold sdio_read_reg
  simp only []
  split_ifs <;>
    simp only [(cmd52_frame h _ _).1, (cmd53_frame h _ _ _).1, csa_frame]

/-- The `sdio_read_int` leaves `g_sdio` alone. -/
theorem read_int_frame {σ : Type} (h : Host σ) (c : Consts) (w : World σ) :
    (sdio_read_int h c w).2.2.g_sdio = w.g_sdio := by
  obtain ⟨_, _, _, _, _, _, _, _, _, hg, _⟩ := read_size_spec h w
  unfold sdio_read_int
  simp only []
  split_ifs <;> simp only [(cmd52_frame h _ _).1, hg]

/-- The `sdio_clear_int_ext` leaves `g_sdio` alone. -/
theorem clear_int_frame {σ : Type} (h : Host σ) (c : Consts) (w : World σ) (val : Nat) :
    (sdio_clear_int_ext h c w val).2.g_sdio = w.g_sdio := by
  unfold sdio_clear_int_ext
  simp only []
  split_ifs <;> simp only [(cmd52_frame h _ _).1]

/-- The `sdio_sync_ext` leaves the block size alone. -/
theorem sync_ext_frame {σ : Type} (h : Host σ) (c : Consts) (a : RegAddrs) (w : World σ)
    (nint : Int) :
    (sdio_sync_ext h c a w nint).2.g_sdio.block_size = w.g_sdio.block_size := by
  unfold sdio_sync_ext
  simp only [apply_ite Prod.snd, apply_ite World.g_sdio, apply_ite wilc_sdio.block_size,
    write_reg_frame, read_reg_frame, ite_self]

/-- The `sdio_init` leaves the block size alone or sets it to 512, and sets it to 512
when it returns 1. -/
theorem init_block_size {σ : Type} (h : Host σ) (ci : ChipIdent σ) (w : World σ)
    (resume : Bool) :
    ((sdio_init h ci w resume).2.g_sdio.block_size = w.g_sdio.block_size ∨
      (sdio_init h ci w resume).2.g_sdio.block_size = 512) ∧
    ((sdio_init h ci w resume).1 = 1 → (sdio_init h ci w resume).2.g_sdio.block_size = 512) := by
  obtain ⟨-, -, fb⟩ := init_regs_frame h w
  rcases init_regs_result h w with h0 | h1
  · rw [regs_fail_eq h ci w resume h0]
    exact ⟨fb, fun h1 => by simp at h1⟩
  · have hb := (init_regs_success h w h1).1
    cases resume with
    | false =>
      rw [regs_ident_eq h ci w h1, (ident_log h ci _).2]
      exact ⟨Or.inr hb, fun _ => hb⟩
    | true =>
      rw [regs_resume_eq h ci w h1]
      exact ⟨Or.inr hb, fun _ => hb⟩


/-! ## The lock state at rest -/

/-- From the free state every call of the interrupt callback, of
`wilc_sdio_enable_interrupt` and of `wilc_sdio_disable_interrupt` returns and
leaves the lock free; the callback does not take its early return, it calls
the handler. -/
theorem irq_step_free {σ : Type} (wilc_handle_isr : World σ → World σ) (c : IrqCall)
    (k : Kernel σ)
    (hfree : k.world.sdio_intr_lock = sdio_host_lock.WILC_SDIO_HOST_NO_TAKEN) :
    ∃ k1, c.step wilc_handle_isr k = some k1 ∧
      k1.world.sdio_intr_lock = sdio_host_lock.WILC_SDIO_HOST_NO_TAKEN ∧
      k1.isr_calls = k.isr_calls + (if c = IrqCall.interrupt then 1 else 0) := by
  cases c with
  | interrupt =>
    refine ⟨_, rfl, ?_, ?_⟩ <;>
      simp [wilc_sdio_interrupt, hfree, Kernel.set_intr_lock, Kernel.sdio_release_host,
        Kernel.call_isr, Kernel.sdio_claim_host, Kernel.wake_up_interruptible]
  | enable claim_ret =>
    refine ⟨_, rfl, ?_, ?_⟩ <;>
      simp [wilc_sdio_enable_interrupt, Kernel.set_intr_lock, Kernel.sdio_release_host,
        Kernel.sdio_claim_irq, Kernel.sdio_claim_host]
  | disable signalled release_ret =>
    simp [IrqCall.step, wilc_sdio_disable_interrupt, hfree, Kernel.set_intr_lock,
      Kernel.sdio_release_host, Kernel.sdio_release_irq, Kernel.sdio_claim_host]

/-- From the free state every sequential run of calls runs through and ends in the free
state, and the handler was called once for each call of the callback. -/
theorem irq_run_free {σ : Type} (wilc_handle_isr : World σ → World σ) (calls : List IrqCall)
    (k : Kernel σ)
    (hfree : k.world.sdio_intr_lock = sdio_host_lock.WILC_SDIO_HOST_NO_TAKEN) :
    ∃ k1, IrqCall.run wilc_handle_isr calls k = some k1 ∧
      k1.world.sdio_intr_lock = sdio_host_lock.WILC_SDIO_HOST_NO_TAKEN ∧
      k1.isr_calls = k.isr_calls + calls.count IrqCall.interrupt := by
  induction calls generalizing k with
  | nil => exact ⟨k, rfl, hfree, by simp⟩
  | cons c cs ih =>
    obtain ⟨kq, hq, hf, hn⟩ := irq_step_free wilc_handle_isr c k hfree
    obtain ⟨k1, h1, hf1, hn1⟩ := ih kq hf
    refine ⟨k1, ?_, hf1, ?_⟩
    · simp only [IrqCall.run, hq, h1]
    · rw [hn1, hn, List.count_cons]
      by_cases hc : c = IrqCall.interrupt
      · simp [hc]; omega
      · have : (IrqCall.interrupt == c) = false := by
          simp only [beq_eq_false_iff_ne, ne_eq]
          exact fun x => hc x.symm
        simp [hc, this]

/-- C23: on the sequential model, starting from the free state (`NO_TAKEN`), every run
of calls of `wilc_sdio_interrupt`, `wilc_sdio_enable_interrupt` and
`wilc_sdio_disable_interrupt` runs through, whatever `sdio_claim_irq` and
`sdio_release_irq` return, and after every call of the run the lock state is
free.  So every call of the callback starts in the free state, not in
`DIS_TAKEN`: its early return is never taken, and it calls the handler each
time. -/
theorem lock_free_at_rest {σ : Type} (wilc_handle_isr : World σ → World σ)
    (calls : List IrqCall) (k : Kernel σ)
    (hfree : k.world.sdio_intr_lock = sdio_host_lock.WILC_SDIO_HOST_NO_TAKEN) :
    (∀ pre post, calls = pre ++ post →
      ∃ kp, IrqCall.run wilc_handle_isr pre k = some kp ∧
        kp.world.sdio_intr_lock = sdio_host_lock.WILC_SDIO_HOST_NO_TAKEN) ∧
    ∃ k1, IrqCall.run wilc_handle_isr calls k = some k1 ∧
      k1.world.sdio_intr_lock = sdio_host_lock.WILC_SDIO_HOST_NO_TAKEN ∧
      k1.isr_calls = k.isr_calls + calls.count IrqCall.interrupt := by
  refine ⟨?_, irq_run_free wilc_handle_isr calls k hfree⟩
  intro pre post _
  obtain ⟨kp, h1, h2, -⟩ := irq_run_free wilc_handle_isr pre k hfree
  exact ⟨kp, h1, h2⟩

/-- Instance of `lock_free_at_rest`: enable (claim succeeds), interrupt, disable (release
fails), interrupt, enable (claim fails), from the free state: the run ends in
the free state with the handler called twice. -/
theorem lock_free_at_rest_witness :
    (Kernel.around (World.fresh 0)).world.sdio_intr_lock =
      sdio_host_lock.WILC_SDIO_HOST_NO_TAKEN ∧
    ∃ k1, IrqCall.run (fun w => w)
        [IrqCall.enable 0, IrqCall.interrupt, IrqCall.disable false (-22), IrqCall.interrupt,
         IrqCall.enable (-16)] (Kernel.around (World.fresh 0)) = some k1 ∧
      k1.world.sdio_intr_lock = sdio_host_lock.WILC_SDIO_HOST_NO_TAKEN ∧
      k1.isr_calls = 2 := by
  obtain ⟨k1, h1, h2, h3⟩ := (lock_free_at_rest (fun w : World Nat => w)
    [IrqCall.enable 0, IrqCall.interrupt, IrqCall.disable false (-22), IrqCall.interrupt,
     IrqCall.enable (-16)] (Kernel.around (World.fresh 0)) rfl).2
  exact ⟨rfl, k1, h1, h2, by rw [h3]; decide⟩

/-! ## The block size over sequences of operations -/

/-- One operation of the function table leaves the block size alone, or is a call of
`sdio_init` and leaves the block size at 512. -/
theorem hif_step_block_size {σ : Type} (h : Host σ) (ci : ChipIdent σ) (c : Consts)
    (a : RegAddrs) (o : HifOp) (k k1 : Kernel σ) (hs : o.step h ci c a k = some k1) :
    k1.world.g_sdio.block_size = k.world.g_sdio.block_size ∨
    (o.is_init = true ∧ k1.world.g_sdio.block_size = 512) := by
  cases o with
  | hif_init resume =>
    simp only [HifOp.step, Option.some.injEq] at hs
    subst hs
    rcases (init_block_size h ci k.world resume).1 with hb | hb
    · exact Or.inl hb
    · exact Or.inr ⟨rfl, hb⟩
  | hif_deinit =>
    simp only [HifOp.step, Option.some.injEq] at hs
    subst hs
    exact Or.inl rfl
  | hif_read_reg addr data0 =>
    simp only [HifOp.step, Option.some.injEq] at hs
    subst hs
    exact Or.inl (by simp only [read_reg_frame])
  | hif_write_reg addr data =>
    simp only [HifOp.step, Option.some.injEq] at hs
    subst hs
    exact Or.inl (by simp only [write_reg_frame])
  | hif_block_rx addr buf size =>
    simp only [HifOp.step, Option.map_eq_some'] at hs
    obtain ⟨r, hr, rfl⟩ := hs
    by_cases hz : k.world.g_sdio.block_size = 0
    · rw [sdio_read_none h k.world addr buf size hz] at hr
      cases hr
    · obtain ⟨r1, b1, w1, he, _, _, _, hg⟩ := sdio_read_runs h k.world addr buf size hz
      rw [he] at hr
      cases hr
      exact Or.inl (by simp only [hg])
  | hif_block_tx addr buf size =>
    simp only [HifOp.step, Option.map_eq_some'] at hs
    obtain ⟨r, hr, rfl⟩ := hs
    by_cases hz : k.world.g_sdio.block_size = 0
    · rw [sdio_write_none h k.world addr buf size hz] at hr
      cases hr
    · obtain ⟨r1, w1, he, _, _, _, hg⟩ := sdio_write_runs h k.world addr buf size hz
      rw [he] at hr
      cases hr
      exact Or.inl (by simp only [hg])
  | hif_read_int =>
    simp only [HifOp.step, Option.some.injEq] at hs
    subst hs
    exact Or.inl (by simp only [read_int_frame])
  | hif_clear_int_ext val =>
    simp only [HifOp.step, Option.some.injEq] at hs
    subst hs
    exact Or.inl (by simp only [clear_int_frame])
  | hif_read_size =>
    simp only [HifOp.step, Option.some.injEq] at hs
    subst hs
    obtain ⟨_, _, _, _, _, _, _, _, _, hg, _⟩ := read_size_spec h k.world
    exact Or.inl (by simp only [hg])
  | hif_sync_ext nint =>
    simp only [HifOp.step, Option.some.injEq] at hs
    subst hs
    exact Or.inl (sync_ext_frame h c a k.world nint)
  | enable_interrupt claim_ret =>
    simp only [HifOp.step, Option.some.injEq] at hs
    subst hs
    exact Or.inl rfl
  | disable_interrupt signalled release_ret =>
    simp only [HifOp.step, wilc_sdio_disable_interrupt] at hs
    split_ifs at hs
    all_goals
      simp only [Option.some.injEq] at hs
      subst hs
      exact Or.inl rfl
  | hif_reset =>
    simp only [HifOp.step, Option.some.injEq] at hs
    subst hs
    exact Or.inl (by simp only [wilc_sdio_reset, (cmd52_frame h _ _).1])
  | hif_is_init =>
    simp only [HifOp.step, Option.some.injEq] at hs
    subst hs
    exact Or.inl rfl

/-- A sequence of operations that runs through splits at each of its operations. -/
theorem hif_run_split {σ : Type} (h : Host σ) (ci : ChipIdent σ) (c : Consts) (a : RegAddrs)
    (pre : List HifOp) (o : HifOp) (post : List HifOp) (k k1 : Kernel σ)
    (hr : HifOp.run h ci c a (pre ++ o :: post) k = some k1) :
    ∃ kp kq, HifOp.run h ci c a pre k = some kp ∧ o.step h ci c a kp = some kq ∧
      HifOp.run h ci c a post kq = some k1 := by
  induction pre generalizing k with
  | nil =>
    simp only [List.nil_append, HifOp.run] at hr ⊢
    cases hq : o.step h ci c a k with
    | none => rw [hq] at hr; cases hr
    | some kq =>
      rw [hq] at hr
      exact ⟨k, kq, rfl, hq, hr⟩
  | cons p ps ih =>
    simp only [List.cons_append, HifOp.run] at hr ⊢
    cases hq : p.step h ci c a k with
    | none => rw [hq] at hr; cases hr
    | some kq =>
      rw [hq] at hr
      exact ih kq hr

/-- Over a sequence of operations the block size is left alone or ends at 512; it stays
512 once it is 512, and it is left alone when no operation is a call of
`sdio_init`. -/
theorem hif_run_block_size {σ : Type} (h : Host σ) (ci : ChipIdent σ) (c : Consts)
    (a : RegAddrs) (ops : List HifOp) (k k1 : Kernel σ)
    (hr : HifOp.run h ci c a ops k = some k1) :
    (k1.world.g_sdio.block_size = k.world.g_sdio.block_size ∨
      k1.world.g_sdio.block_size = 512) ∧
    (k.world.g_sdio.block_size = 512 → k1.world.g_sdio.block_size = 512) ∧
    ((∀ o ∈ ops, o.is_init = false) →
      k1.world.g_sdio.block_size = k.world.g_sdio.block_size) := by
  induction ops generalizing k with
  | nil =>
    simp only [HifOp.run, Option.some.injEq] at hr
    subst hr
    exact ⟨Or.inl rfl, fun x => x, fun _ => rfl⟩
  | cons o os ih =>
    simp only [HifOp.run] at hr
    cases hq : o.step h ci c a k with
    | none => rw [hq] at hr; cases hr
    | some kq =>
      rw [hq] at hr
      obtain ⟨i1, i2, i3⟩ := ih kq hr
      have hs := hif_step_block_size h ci c a o k kq hq
      refine ⟨?_, ?_, ?_⟩
      · rcases i1 with i1 | i1
        · rcases hs with hs | ⟨-, hs⟩
          · exact Or.inl (i1.trans hs)
          · exact Or.inr (i1.trans hs)
        · exact Or.inr i1
      · intro h5
        apply i2
        rcases hs with hs | ⟨-, hs⟩
        · exact hs.trans h5
        · exact hs
      · intro hno
        have ho := hno o (List.mem_cons_self _ _)
        rcases hs with hs | ⟨hs, -⟩
        · exact (i3 (fun x hx => hno x (List.mem_cons_of_mem _ hx))).trans hs
        · rw [ho] at hs; cases hs


/-- C24: from a state with block size 0, after every sequence of operations of the
function table that runs through, `g_sdio.block_size` is 0 or 512; from a
state where it is 512 it is 512 after every further sequence (`sdio_deinit`
and calls of `sdio_init` that fail included).  After a call of `sdio_init`
that returned 1, at any later point of the sequence, the block size is 512 and
`sdio_read` and `sdio_write` return: their division and modulo are by a
non-zero block size.  As long as no operation of the sequence is a call of
`sdio_init`, the block size is 0 and `sdio_read` and `sdio_write` stop at the
division by zero. -/
theorem block_size_invariant {σ : Type} (h : Host σ) (ci : ChipIdent σ) (c : Consts)
    (a : RegAddrs) (ops : List HifOp) (k k1 : Kernel σ)
    (h0 : k.world.g_sdio.block_size = 0)
    (hr : HifOp.run h ci c a ops k = some k1) :
    (k1.world.g_sdio.block_size = 0 ∨ k1.world.g_sdio.block_size = 512) ∧
    (∀ ops2 k2, k1.world.g_sdio.block_size = 512 → HifOp.run h ci c a ops2 k1 = some k2 →
      k2.world.g_sdio.block_size = 512) ∧
    (∀ pre resume post kp, ops = pre ++ HifOp.hif_init resume :: post →
      HifOp.run h ci c a pre k = some kp → (sdio_init h ci kp.world resume).1 = 1 →
      k1.world.g_sdio.block_size = 512 ∧
      ∀ addr buf size, (sdio_read h k1.world addr buf size).isSome = true ∧
        (sdio_write h k1.world addr buf size).isSome = true) ∧
    ((∀ o ∈ ops, o.is_init = false) →
      k1.world.g_sdio.block_size = 0 ∧
      ∀ addr buf size, sdio_read h k1.world addr buf size = none ∧
        sdio_write h k1.world addr buf size = none) := by
  obtain ⟨i1, -, i3⟩ := hif_run_block_size h ci c a ops k k1 hr
  refine ⟨?_, ?_, ?_, ?_⟩
  · rcases i1 with i1 | i1
    · exact Or.inl (i1.trans h0)
    · exact Or.inr i1
  · intro ops2 k2 h5 hr2
    exact (hif_run_block_size h ci c a ops2 k1 k2 hr2).2.1 h5
  · intro pre resume post kp hops hpre hinit
    subst hops
    obtain ⟨kp2, kq, hp2, hq, hpost⟩ := hif_run_split h ci c a pre _ post k k1 hr
    rw [hpre] at hp2
    cases hp2
    simp only [HifOp.step, Option.some.injEq] at hq
    subst hq
    have hb : k1.world.g_sdio.block_size = 512 :=
      (hif_run_block_size h ci c a post _ k1 hpost).2.1
        ((init_block_size h ci kp.world resume).2 hinit)
    have hz : k1.world.g_sdio.block_size ≠ 0 := by rw [hb]; decide
    refine ⟨hb, fun addr buf size => ⟨?_, ?_⟩⟩
    · obtain ⟨r1, b1, w1, he, -⟩ := sdio_read_runs h k1.world addr buf size hz
      rw [he]; rfl
    · obtain ⟨r1, w1, he, -⟩ := sdio_write_runs h k1.world addr buf size hz
      rw [he]; rfl
  · intro hno
    have hb := (i3 hno).trans h0
    exact ⟨hb, fun addr buf size =>
      ⟨sdio_read_none h k1.world addr buf size hb, sdio_write_none h k1.world addr buf size hb⟩⟩


/-- Instance of `block_size_invariant`: from the state before bring-up, on the card that
is ready at the first poll, the sequence read size, `sdio_init` (which
returns 1), `sdio_deinit`, block write of 8 bytes at address 0 runs through and
ends with the block size 512, where `sdio_read` returns. -/
theorem block_size_invariant_witness :
    (Kernel.around (World.fresh 0)).world.g_sdio.block_size = 0 ∧
    ∃ k1, HifOp.run ready_after_host (ChipIdent.const 0 false true) Consts.sample RegAddrs.sample
        [HifOp.hif_read_size, HifOp.hif_init false, HifOp.hif_deinit,
         HifOp.hif_block_tx 0 (fun _ => 0) 8] (Kernel.around (World.fresh 0)) = some k1 ∧
      k1.world.g_sdio.block_size = 512 ∧
      (sdio_read ready_after_host k1.world 0 (fun _ => 0) 4).isSome = true := by
  have hs : (HifOp.run ready_after_host (ChipIdent.const 0 false true) Consts.sample
      RegAddrs.sample
      [HifOp.hif_read_size, HifOp.hif_init false, HifOp.hif_deinit,
       HifOp.hif_block_tx 0 (fun _ => 0) 8] (Kernel.around (World.fresh 0))).isSome = true := by
    decide
  obtain ⟨k1, hk1⟩ := Option.isSome_iff_exists.mp hs
  obtain ⟨-, -, c3, -⟩ := block_size_invariant ready_after_host (ChipIdent.const 0 false true)
    Consts.sample RegAddrs.sample _ (Kernel.around (World.fresh 0)) k1 rfl hk1
  obtain ⟨hb, hd⟩ := c3 [HifOp.hif_read_size] false
    [HifOp.hif_deinit, HifOp.hif_block_tx 0 (fun _ => 0) 8]
    { Kernel.around (World.fresh 0) with
      world := (sdio_read_size ready_after_host (World.fresh 0)).2.2 }
    rfl rfl (by decide)
  exact ⟨rfl, k1, hk1, hb, (hd 0 (fun _ => 0) 4).1⟩

/-! ## A write error lost in the read-back -/

/-- C14, evaluated where the code departs from it: on the host whose `sdio_writeb` fails
with `-EIO` at `0x100`, `0x2` and `0x4` while every read succeeds, the first
transaction of the bring-up, the read-after-write of `0x80` to `0x100`, fails
on the bus, and so do the fourth and the eighth.  `wilc_sdio_cmd52` returns 0
for it, the code of the read-back, where the same write without the raw flag
returns `-5`; `sdio_init` issues the seven transactions that follow, returns 1
and sets `is_init`, with `resume` as without. -/
theorem init_lost_write_error :
    (lost_write_host.sdio_writeb () 0 0x80 0x100).2 = -5 ∧
    (lost_write_host.sdio_writeb () 0 0x2 0x2).2 = -5 ∧
    (lost_write_host.sdio_writeb () 0 0x3 0x4).2 = -5 ∧
    (wilc_sdio_cmd52 lost_write_host (World.fresh ())
      { read_write := 1, function := 0, raw := 1, address := 0x100, data := 0x80 }).1 = 0 ∧
    (wilc_sdio_cmd52 lost_write_host (World.fresh ())
      { read_write := 1, function := 0, raw := 0, address := 0x100, data := 0x80 }).1 = -5 ∧
    (sdio_init lost_write_host (ChipIdent.const 0 false true) (World.fresh ()) false).1 = 1 ∧
    (sdio_init lost_write_host (ChipIdent.const 0 false true)
      (World.fresh ()) false).2.g_sdio.is_init = true ∧
    issued (World.fresh ())
      (sdio_init lost_write_host (ChipIdent.const 0 false true) (World.fresh ()) false).2 =
      [Txn.cmd52 { read_write := 1, function := 0, raw := 1, address := 0x100, data := 0x80 } 0 0,
       Txn.cmd52 { read_write := 1, function := 0, raw := 0, address := 0x10, data := 0x00 } 0 0,
       Txn.cmd52 { read_write := 1, function := 0, raw := 0, address := 0x11, data := 0x02 } 0 2,
       Txn.cmd52 { read_write := 1, function := 0, raw := 1, address := 0x2, data := 0x2 } 0 0,
       Txn.cmd52 { read_write := 0, function := 0, raw := 0, address := 0x3, data := 0 } 0 2,
       Txn.cmd52 { read_write := 1, function := 0, raw := 0, address := 0x110, data := 0x00 } 0 0,
       Txn.cmd52 { read_write := 1, function := 0, raw := 0, address := 0x111, data := 0x02 } 0 2,
       Txn.cmd52 { read_write := 1, function := 0, raw := 1, address := 0x4, data := 0x3 } 0 0] ∧
    (sdio_init lost_write_host (ChipIdent.const 0 false true) (World.fresh ()) true).1 = 1 ∧
    (sdio_init lost_write_host (ChipIdent.const 0 false true)
      (World.fresh ()) true).2.g_sdio.is_init = true ∧
    (issued (World.fresh ())
      (sdio_init lost_write_host (ChipIdent.const 0 false true)
        (World.fresh ()) true).2).length = 8 := by
  decide

/-! ## The callback against the disable, statement by statement -/

/-- C21, evaluated where the code departs from it.  From the state in which the callback
has been entered with the lock free, the schedule that lets the disable test
the lock, then the callback run up to its handler, then the disable run to its
end, is possible: the disable has observed the lock free, the callback then
sets `IRQ_TAKEN` and starts a dispatch before the disable sets `DIS_TAKEN`,
the disable overwrites `IRQ_TAKEN`, and it returns while the callback is still
in the handler, without any wake-up.  With the dispatch started first, a
signal ends the wait of the disable, which again sets `DIS_TAKEN` over
`IRQ_TAKEN` and returns during the dispatch; the sequential run of
`wilc_sdio_disable_interrupt` entered with `IRQ_TAKEN` and a signal returns
likewise, with no wake-up delivered. -/
theorem disable_races_dispatch :
    Race.run [Actor.disable] Race.start =
      some { lock := sdio_host_lock.WILC_SDIO_HOST_NO_TAKEN, callback := CallbackPc.test_dis,
             disable := DisablePc.set_dis_taken, host := some Actor.callback, wakeups := 0 } ∧
    Race.run [Actor.disable, Actor.callback, Actor.callback] Race.start =
      some { lock := sdio_host_lock.WILC_SDIO_HOST_IRQ_TAKEN,
             callback := CallbackPc.release_host,
             disable := DisablePc.set_dis_taken, host := some Actor.callback, wakeups := 0 } ∧
    Race.run [Actor.disable, Actor.callback, Actor.callback, Actor.callback, Actor.callback,
        Actor.disable] Race.start =
      some { lock := sdio_host_lock.WILC_SDIO_HOST_DIS_TAKEN, callback := CallbackPc.in_isr,
             disable := DisablePc.claim_host, host := none, wakeups := 0 } ∧
    Race.run [Actor.disable, Actor.callback, Actor.callback, Actor.callback, Actor.callback,
        Actor.disable, Actor.disable, Actor.disable, Actor.disable, Actor.disable] Race.start =
      some { lock := sdio_host_lock.WILC_SDIO_HOST_NO_TAKEN, callback := CallbackPc.in_isr,
             disable := DisablePc.returned, host := none, wakeups := 0 } ∧
    Race.run [Actor.callback, Actor.callback, Actor.callback, Actor.callback,
        Actor.disable] Race.start =
      some { lock := sdio_host_lock.WILC_SDIO_HOST_IRQ_TAKEN, callback := CallbackPc.in_isr,
             disable := DisablePc.waiting, host := none, wakeups := 0 } ∧
    Race.run [Actor.callback, Actor.callback, Actor.callback, Actor.callback,
        Actor.disable, Actor.disable] Race.start = none ∧
    Race.run [Actor.callback, Actor.callback, Actor.callback, Actor.callback,
        Actor.disable, Actor.signal, Actor.disable] Race.start =
      some { lock := sdio_host_lock.WILC_SDIO_HOST_DIS_TAKEN, callback := CallbackPc.in_isr,
             disable := DisablePc.claim_host, host := none, wakeups := 0 } ∧
    Race.run [Actor.callback, Actor.callback, Actor.callback, Actor.callback,
        Actor.disable, Actor.signal, Actor.disable, Actor.disable, Actor.disable,
        Actor.disable, Actor.disable] Race.start =
      some { lock := sdio_host_lock.WILC_SDIO_HOST_NO_TAKEN, callback := CallbackPc.in_isr,
             disable := DisablePc.returned, host := none, wakeups := 0 } ∧
    (Race.run [Actor.disable, Actor.callback, Actor.callback, Actor.callback, Actor.callback,
        Actor.disable, Actor.disable, Actor.disable, Actor.disable, Actor.disable]
      Race.start).map Race.dispatching = some true ∧
    (wilc_sdio_disable_interrupt true 0
      (Kernel.around { World.fresh () with
        sdio_intr_lock := sdio_host_lock.WILC_SDIO_HOST_IRQ_TAKEN })).map
      (fun k => (k.world.sdio_intr_lock, k.wakeups, k.ops)) =
      some (sdio_host_lock.WILC_SDIO_HOST_NO_TAKEN, 0,
        [HostOp.wait_event, HostOp.set_intr_lock sdio_host_lock.WILC_SDIO_HOST_DIS_TAKEN,
         HostOp.claim_host, HostOp.release_irq 0, HostOp.release_host,
         HostOp.set_intr_lock sdio_host_lock.WILC_SDIO_HOST_NO_TAKEN]) := by
  decide

/-! ## Interrupt sources -/

/-- Bit `i` of `line_bits base count` is set exactly for `base ≤ i < base + count`. -/
theorem line_bits_testBit (base count i : Nat) :
    (line_bits base count).testBit i = (decide (base ≤ i) && decide (i < base + count)) := by
  unfold line_bits
  rw [Nat.testBit_shiftLeft, Nat.testBit_two_pow_sub_one]
  by_cases hb : base ≤ i
  · have : (i - base < count) ↔ (i < base + count) := by omega
    simp [hb, this]
  · simp [hb]

end WilcSdio
